import Mathlib

/-!
# Qualcomm LPG LED driver (`drivers/leds/leds-qcom-lpg.c`)

A shallow embedding of the control-plane functions of the driver: the
clock/divider search `lpg_calc_freq`, the duty quantizer `lpg_calc_duty`, the
LUT allocator `lpg_lut_store` / `lpg_lut_free` and the pattern compiler
`lpg_pattern_set`, followed by theorems about them.

Conventions.  C `unsigned int` / `u32` values are natural numbers, reduced
`% 2 ^ 32` wherever the C arithmetic can wrap; `u64` values are reduced
`% 2 ^ 64`; `int` values that can be negative are integers.  A function
returns `none` exactly when the C code would trap or read memory outside the
array it was handed (division by zero, a read past the pattern buffer).
-/

namespace Lpg

/-! ## Kernel constants and helper macros used by the driver -/

/-- Modelled from the spec: `NSEC_PER_SEC` of the kernel's time headers, the
number of nanoseconds in a second. -/
def NSEC_PER_SEC : Nat := 1000000000

/-- Modelled from the spec: `NSEC_PER_USEC` of the kernel's time headers, the
number of nanoseconds in a microsecond. -/
def NSEC_PER_USEC : Nat := 1000

/-- Modelled from the spec: `USEC_PER_MSEC` of the kernel's time headers, the
number of microseconds in a millisecond. -/
def USEC_PER_MSEC : Nat := 1000

/-- Modelled from the spec: `UINT_MAX`, the largest 32-bit `unsigned int`. -/
def UINT_MAX : Nat := 4294967295

/-- Modelled from the spec: errno `EINVAL` (invalid argument). -/
def EINVAL : Int := 22

/-- Modelled from the spec: errno `ENOMEM` (out of space). -/
def ENOMEM : Int := 12

/-- Reduction of a value to a 32-bit `unsigned int`. -/
def u32 (x : Nat) : Nat := x % 2 ^ 32

/-- Reduction of a value to a `u64`. -/
def u64 (x : Nat) : Nat := x % 2 ^ 64

/-- Modelled from the spec: the kernel macro `abs()` applied to an
`unsigned int` value `x`, with the result stored back into an `unsigned int`.
The macro converts an unsigned argument to the signed type of the same width
first, so a value with the top bit set stands for the negative number
`x - 2 ^ 32`, whose absolute value is `2 ^ 32 - x`. -/
def abs_u32 (x : Nat) : Nat := if x < 2 ^ 31 then x else 2 ^ 32 - x

/-- Modelled from the spec: the kernel helper `div_u64(dividend, divisor)`,
unsigned 64-bit by 32-bit division; `none` stands for the division trap on a
zero divisor. -/
def div_u64 (dividend divisor : Nat) : Option Nat :=
  if divisor = 0 then none else some (dividend / divisor)

/-! ## Data model -/

/-- The fields of `struct lpg_channel` (the back pointer to the device is
passed explicitly to the functions that need it). -/
structure lpg_channel where
  base : Nat
  triled_mask : Nat
  lut_mask : Nat
  in_use : Bool
  color : Int
  dtest_line : Nat
  dtest_value : Nat
  pwm_value : Nat
  enabled : Bool
  period_us : Nat
  pwm_size : Nat
  clk : Nat
  pre_div : Nat
  pre_div_exp : Nat
  ramp_enabled : Bool
  ramp_ping_pong : Bool
  ramp_oneshot : Bool
  ramp_reverse : Bool
  ramp_duration_ms : Nat
  ramp_lo_pause_ms : Nat
  ramp_hi_pause_ms : Nat
  pattern_lo_idx : Nat
  pattern_hi_idx : Nat
  deriving DecidableEq, Repr

/-- A channel as `devm_kcalloc` in `lpg_init_channels` leaves it: every field
zero. -/
def lpg_channel_zero : lpg_channel :=
  { base := 0, triled_mask := 0, lut_mask := 0, in_use := false, color := 0,
    dtest_line := 0, dtest_value := 0, pwm_value := 0, enabled := false,
    period_us := 0, pwm_size := 0, clk := 0, pre_div := 0, pre_div_exp := 0,
    ramp_enabled := false, ramp_ping_pong := false, ramp_oneshot := false,
    ramp_reverse := false, ramp_duration_ms := 0, ramp_lo_pause_ms := 0,
    ramp_hi_pause_ms := 0, pattern_lo_idx := 0, pattern_hi_idx := 0 }

/-! ## Clock/divider search: `lpg_calc_freq` -/

def NUM_PWM_PREDIV : Nat := 4

def NUM_PWM_CLK : Nat := 3

def NUM_EXP : Nat := 7

/-- The table `lpg_clk_table[NUM_PWM_PREDIV][NUM_PWM_CLK]`: rows are the
pre-dividers 1, 3, 5, 6, columns the clock periods in nanoseconds. -/
def lpg_clk_table_rows : List (List Nat) :=
  [ [ 1 * (NSEC_PER_SEC / 1024), 1 * (NSEC_PER_SEC / 32768), 1 * (NSEC_PER_SEC / 19200000) ],
    [ 3 * (NSEC_PER_SEC / 1024), 3 * (NSEC_PER_SEC / 32768), 3 * (NSEC_PER_SEC / 19200000) ],
    [ 5 * (NSEC_PER_SEC / 1024), 5 * (NSEC_PER_SEC / 32768), 5 * (NSEC_PER_SEC / 19200000) ],
    [ 6 * (NSEC_PER_SEC / 1024), 6 * (NSEC_PER_SEC / 32768), 6 * (NSEC_PER_SEC / 19200000) ] ]

/-- The entry `lpg_clk_table[div][clk]`. -/
def lpg_clk_table (div clk : Nat) : Nat :=
  (lpg_clk_table_rows.getD div []).getD clk 0

/-- The local variables of `lpg_calc_freq` that the search loop updates. -/
structure freq_search where
  min_err : Nat
  last_err : Nat
  best_m : Nat
  best_clk : Nat
  best_div : Nat
  deriving DecidableEq, Repr

/-- The expression `abs(period_n - tmp_p)` on two `unsigned int` values: the
subtraction wraps modulo `2 ^ 32`. -/
def cur_err (period_n tmp_p : Nat) : Nat :=
  abs_u32 (u32 (period_n + 2 ^ 32 - u32 tmp_p))

/-- The innermost loop `for (m = 0; m <= NUM_EXP; m++)` of `lpg_calc_freq`,
run over the remaining values of `m`; `tmp_p` is the candidate at the head of
the list.  The `break` leaves the loop with the state reached so far. -/
def freq_loop_m (period_n clk div : Nat) : List Nat → Nat → freq_search → freq_search
  | [], _, s => s
  | m :: ms, tmp_p, s =>
    let cur := cur_err period_n tmp_p
    let s1 : freq_search :=
      if cur < s.min_err then
        { s with min_err := cur, best_m := m, best_clk := clk, best_div := div }
      else s
    if m ≠ 0 ∧ cur > s1.last_err then s1
    else freq_loop_m period_n clk div ms (u32 (tmp_p * 2)) { s1 with last_err := cur }

/-- The loop `for (div = 0; div < NUM_PWM_PREDIV; div++)` for one clock. -/
def freq_loop_div (period_n clk : Nat) (s : freq_search) : freq_search :=
  (List.range NUM_PWM_PREDIV).foldl
    (fun s div =>
      freq_loop_m period_n clk div (List.range (NUM_EXP + 1)) (lpg_clk_table div clk) s) s

/-- The loop `for (clk = 0; clk < NUM_PWM_CLK; clk++)` from the initial values
`min_err = last_err = UINT_MAX`, `best_m = best_clk = best_div = 0`. -/
def freq_search_run (period_n : Nat) : freq_search :=
  (List.range NUM_PWM_CLK).foldl (fun s clk => freq_loop_div period_n clk s)
    { min_err := UINT_MAX, last_err := UINT_MAX, best_m := 0, best_clk := 0, best_div := 0 }

/-- The resolution `n` that `lpg_calc_freq` starts the search with. -/
def freq_start_n (period_us : Nat) : Nat :=
  if period_us < UINT_MAX / NSEC_PER_USEC then 6 else 9

/-- The value `period_n = ((u64)period_us * NSEC_PER_USEC) >> n`, stored in an
`unsigned int`. -/
def freq_period_n (period_us : Nat) : Nat :=
  u32 (u64 (period_us * NSEC_PER_USEC) >>> freq_start_n period_us)

/-- The function `lpg_calc_freq(chan, period_us)`. -/
def lpg_calc_freq (chan : lpg_channel) (period_us : Nat) : lpg_channel :=
  if period_us = chan.period_us then chan
  else
    let n := freq_start_n period_us
    let s := freq_search_run (freq_period_n period_us)
    let upgrade : Bool := decide (s.best_m ≥ 3 ∧ n = 6)
    let n1 := if upgrade then n + 3 else n
    let best_m := if upgrade then s.best_m - 3 else s.best_m
    { chan with
      clk := s.best_clk, pre_div := s.best_div, pre_div_exp := best_m,
      pwm_size := n1, period_us := period_us }

/-- The absolute difference `|a - b|` of two natural numbers. -/
def abs_diff (a b : Nat) : Nat := if b ≤ a then a - b else b - a

/-- A candidate of the search: clock index, pre-divider index, exponent. -/
structure freq_triple where
  clk : Nat
  div : Nat
  m : Nat
  deriving DecidableEq, Repr

/-- The error `|period_n - lpg_clk_table[div][clk] * 2^m|` of a candidate,
computed without any wrap-around. -/
def triple_err (period_n : Nat) (c : freq_triple) : Nat :=
  abs_diff period_n (lpg_clk_table c.div c.clk * 2 ^ c.m)

/-- One step of the exhaustive search: the candidate `c` replaces the best
candidate `b` found so far only when its error is strictly smaller. -/
def spec_step (period_n : Nat) (b c : freq_triple) : freq_triple :=
  if triple_err period_n c < triple_err period_n b then c else b

/-- The exponent loop of the exhaustive search for one clock and one
pre-divider: every exponent `0 .. NUM_EXP`, no early exit. -/
def spec_loop_m (period_n clk div : Nat) (b : freq_triple) : freq_triple :=
  (List.range (NUM_EXP + 1)).foldl (fun b m => spec_step period_n b ⟨clk, div, m⟩) b

/-- The pre-divider loop of the exhaustive search for one clock. -/
def spec_loop_div (period_n clk : Nat) (b : freq_triple) : freq_triple :=
  (List.range NUM_PWM_PREDIV).foldl (fun b div => spec_loop_m period_n clk div b) b

/-- The exhaustive search of the specification: all `3 x 4 x 8` candidates in
the order ascending clock, then pre-divider, then exponent, no early exit; a
candidate replaces the best one only when its error is strictly smaller, so the
first minimum found is kept. -/
def exhaustive_search (period_n : Nat) : freq_triple :=
  (List.range NUM_PWM_CLK).foldl (fun b clk => spec_loop_div period_n clk b) ⟨0, 0, 0⟩

/-- The target of the specification, `P_ns / 2^n` for a period of `period_us`
microseconds, as an exact natural number. -/
def spec_period_n (period_us : Nat) : Nat :=
  period_us * NSEC_PER_USEC / 2 ^ freq_start_n period_us

/-- The period in nanoseconds that the hardware produces for the settings
stored in a channel: `clock_period * pre_divider * 2^exponent * 2^resolution`. -/
def chan_period_ns (chan : lpg_channel) : Nat :=
  lpg_clk_table chan.pre_div chan.clk * 2 ^ chan.pre_div_exp * 2 ^ chan.pwm_size

/-- The period in nanoseconds of an arbitrary combination of clock,
pre-divider, exponent and resolution. -/
def combo_period_ns (clk div m n : Nat) : Nat :=
  lpg_clk_table div clk * 2 ^ m * 2 ^ n

/-! ## Duty quantizer: `lpg_calc_duty` -/

/-- The function `lpg_calc_duty(chan, duty_us)`.  The product is formed in a
`u64`, the quotient of `div_u64` is stored in the `unsigned int val`, and the
minimum with `max` is stored in the `u16` field `pwm_value`. -/
def lpg_calc_duty (chan : lpg_channel) (duty_us : Nat) : Option lpg_channel :=
  let max := u32 ((1 <<< chan.pwm_size) - 1)
  match div_u64 (u64 (duty_us <<< chan.pwm_size)) chan.period_us with
  | none => none
  | some q =>
    let val := u32 q
    some { chan with pwm_value := (min val max) % 2 ^ 16 }

/-! ## LUT allocator: `lpg_lut_store`, `lpg_lut_free` -/

/-- Modelled from the spec: `struct led_pattern` of the LED core (not part of
the driver source): a brightness and the time `delta_t` in milliseconds. -/
structure led_pattern where
  delta_t : Nat
  brightness : Int
  deriving DecidableEq, Repr

/-- One operation on the register bus, as issued through `regmap_write`,
`regmap_bulk_write` and `regmap_update_bits`. -/
inductive reg_op where
  | write (reg val : Nat)
  | bulk_write (reg : Nat) (bytes : List Nat)
  | update_bits (reg mask val : Nat)
  deriving DecidableEq, Repr

/-- The fields of `struct lpg` that the modelled functions use.  The `regmap`
is represented by the list of operations issued on it, oldest first; the
allocation bitmap by one boolean per LUT entry (`true` = used). -/
structure lpg where
  lut_base : Nat
  lut_size : Nat
  lut_bitmap : List Bool
  triled_base : Nat
  triled_src : Nat
  pwm_9bit_mask : Nat
  map : List reg_op
  deriving DecidableEq, Repr

/-- The fields of `struct lpg_led` that the modelled functions use: the
channels of the LED (`num_channels` is the length of the list). -/
structure lpg_led where
  channels : List lpg_channel
  deriving DecidableEq, Repr

/-- Bit `i` of a bitmap; a position outside the bitmap reads as clear. -/
def bitmap_test (map : List Bool) (i : Nat) : Bool := map.getD i false

/-- Whether the `nr` bits from position `start` are all clear. -/
def bitmap_area_free (map : List Bool) (start nr : Nat) : Bool :=
  (List.range nr).all (fun k => !bitmap_test map (start + k))

/-- The scan behind `bitmap_find_next_zero_area`: try the positions `i`,
`i + 1`, ... in turn. -/
def bitmap_scan (map : List Bool) (size nr : Nat) : Nat → Nat → Nat
  | 0, i => i + nr
  | fuel + 1, i =>
    if i + nr > size then i + nr
    else if bitmap_area_free map i nr then i
    else bitmap_scan map size nr fuel (i + 1)

/-- Modelled from the spec: the kernel helper
`bitmap_find_next_zero_area(map, size, start, nr, 0)` (lib/bitmap.c, not part
of the driver source): a first-fit search for the first run of `nr` contiguous
free bits, scanning from `start`; when there is no such run below `size` the
result is past `size`, which the caller reads as out of space. -/
def bitmap_find_next_zero_area (map : List Bool) (size start nr : Nat) : Nat :=
  bitmap_scan map size nr (size + 1) start

/-- Write the value `v` to the bits `start .. start + nr - 1` of a bitmap whose
first element has position `i`. -/
def bitmap_fill (v : Bool) (start nr : Nat) : Nat → List Bool → List Bool
  | _, [] => []
  | i, b :: bs =>
    (if start ≤ i ∧ i < start + nr then v else b) :: bitmap_fill v start nr (i + 1) bs

/-- Modelled from the spec: the kernel helper `bitmap_set(map, start, nr)`,
which marks the `nr` bits from `start` used. -/
def bitmap_set (map : List Bool) (start nr : Nat) : List Bool :=
  bitmap_fill true start nr 0 map

/-- Modelled from the spec: the kernel helper `bitmap_clear(map, start, nr)`,
which clears exactly the `nr` bits from `start`. -/
def bitmap_clear (map : List Bool) (start nr : Nat) : List Bool :=
  bitmap_fill false start nr 0 map

/-- The macro `LPG_LUT_REG(x)`. -/
def LPG_LUT_REG (x : Nat) : Nat := 0x40 + x * 2

/-- Modelled from the spec: `cpu_to_le16` of a brightness, as the two bytes
handed to `regmap_bulk_write`: the raw 16-bit code, low byte first. -/
def cpu_to_le16 (v : Int) : List Nat :=
  [(v % 65536).toNat % 256, (v % 65536).toNat / 256]

/-- What `lpg_lut_store` leaves behind: its return value, the device, and the
contents of the two output parameters `*lo_idx` and `*hi_idx`. -/
structure lut_store_result where
  ret : Int
  lpg : lpg
  lo_idx : Nat
  hi_idx : Nat
  deriving DecidableEq, Repr

/-- The loop `for (i = 0; i < len; i++)` of `lpg_lut_store` over the remaining
values of `i`: one bulk write per entry; `none` when `pattern[i]` lies outside
the buffer. -/
def lut_store_loop (lut_base idx : Nat) (pattern : List led_pattern) :
    List Nat → List reg_op → Option (List reg_op)
  | [], map => some map
  | i :: is, map =>
    match pattern[i]? with
    | none => none
    | some p =>
      lut_store_loop lut_base idx pattern is
        (map ++ [reg_op.bulk_write (u32 (lut_base + LPG_LUT_REG (idx + i)))
          (cpu_to_le16 p.brightness)])

/-- The function `lpg_lut_store(lpg, pattern, len, lo_idx, hi_idx)`; the last
two arguments are the values the output parameters hold before the call. -/
def lpg_lut_store (l : lpg) (pattern : List led_pattern) (len : Nat)
    (lo_idx hi_idx : Nat) : Option lut_store_result :=
  if len = 1 then some ⟨-EINVAL, l, lo_idx, hi_idx⟩
  else
    let idx := u32 (bitmap_find_next_zero_area l.lut_bitmap l.lut_size 0 (u32 len))
    if idx ≥ l.lut_size then some ⟨-ENOMEM, l, lo_idx, hi_idx⟩
    else
      match lut_store_loop l.lut_base idx pattern (List.range len) l.map with
      | none => none
      | some map1 =>
        some ⟨0, { l with map := map1, lut_bitmap := bitmap_set l.lut_bitmap idx (u32 len) },
          idx, u32 (idx + len + 2 ^ 32 - 1)⟩

/-- The function `lpg_lut_free(lpg, lo_idx, hi_idx)`. -/
def lpg_lut_free (l : lpg) (lo_idx hi_idx : Nat) : lpg :=
  if lo_idx = hi_idx then l
  else
    let len := u32 (hi_idx + 2 ^ 32 - lo_idx + 1)
    { l with lut_bitmap := bitmap_clear l.lut_bitmap lo_idx len }

/-! ## Pattern compiler: `lpg_pattern_set` -/

/-- The palindrome loop `for (i = 0; i < len / 2; i++)` of `lpg_pattern_set`
over the remaining values of `i`: the final value of `ping_pong`, or `none`
when a compared entry lies outside the buffer. -/
def pattern_ping_pong (pattern : List led_pattern) (len : Nat) : List Nat → Option Bool
  | [] => some true
  | i :: is =>
    match pattern[i]?, pattern[u32 (len + 2 ^ 32 - i - 1)]? with
    | some a, some b =>
      if a.brightness ≠ b.brightness then some false
      else pattern_ping_pong pattern len is
    | _, _ => none

/-- The values of `hi_pause`, `lo_pause` and `len` after the `if (ping_pong)`
statement of `lpg_pattern_set`; the index `len + 1 / 2` is the C expression of
the source, in which `1 / 2` is `0`. -/
def pattern_pauses (pattern : List led_pattern) (len : Nat) (ping_pong : Bool) :
    Option (Nat × Nat × Nat) :=
  if ping_pong then
    match (if len % 2 ≠ 0 then some 0
           else (pattern[u32 (len + 1 / 2)]?).map (fun p => p.delta_t)),
          pattern[u32 (len + 2 ^ 32 - 1)]? with
    | some hi_pause, some last => some (hi_pause, last.delta_t, u32 (len + 1) / 2)
    | _, _ => none
  else
    match pattern[u32 (len + 2 ^ 32 - 1)]? with
    | some last => some (last.delta_t, 0, len)
    | none => none

/-- The loop over the channels of the LED at the end of `lpg_pattern_set`. -/
def pattern_set_channels (pattern : List led_pattern) (len : Nat) (ping_pong oneshot : Bool)
    (lo_pause hi_pause lo_idx hi_idx : Nat) : List lpg_channel → Option (List lpg_channel)
  | [] => some []
  | chan :: rest =>
    match pattern[0]?,
          pattern_set_channels pattern len ping_pong oneshot lo_pause hi_pause lo_idx hi_idx rest with
    | some first, some rest1 =>
      some ({ chan with
              ramp_duration_ms := u32 (first.delta_t * len),
              ramp_ping_pong := ping_pong,
              ramp_oneshot := oneshot,
              ramp_lo_pause_ms := lo_pause,
              ramp_hi_pause_ms := hi_pause,
              pattern_lo_idx := lo_idx,
              pattern_hi_idx := hi_idx } :: rest1)
    | _, _ => none

/-- The function `lpg_pattern_set(led, pattern, len, repeat)`: the return
value, the device and the LED after the call.  `pattern` is the buffer the
pointer refers to, `len` the 32-bit length passed along with it. -/
def lpg_pattern_set (l : lpg) (led : lpg_led) (pattern : List led_pattern) (len : Nat)
    (rep : Int) : Option (Int × lpg × lpg_led) :=
  if rep ≠ -1 ∧ rep ≠ 1 then some (-EINVAL, l, led)
  else
    match pattern_ping_pong pattern len (List.range (len / 2)) with
    | none => none
    | some ping_pong =>
      match pattern_pauses pattern len ping_pong with
      | none => none
      | some (hi_pause, lo_pause, len1) =>
        match lpg_lut_store l pattern len1 0 0 with
        | none => none
        | some r =>
          if r.ret < 0 then some (r.ret, r.lpg, led)
          else
            match pattern_set_channels pattern len1 ping_pong (decide (rep ≠ -1))
                    lo_pause hi_pause r.lo_idx r.hi_idx led.channels with
            | none => none
            | some chans => some (r.ret, r.lpg, { channels := chans })

/-! ## Sequences of allocator calls -/

/-- A call of the LUT allocator: a store of the first `len` entries of a
pattern, or the release of the `k`-th range currently held. -/
inductive lut_call where
  | store (pattern : List led_pattern) (len : Nat)
  | free (k : Nat)
  deriving DecidableEq, Repr

/-- Run a sequence of allocator calls.  The second component is the list of
ranges `(lo_idx, hi_idx)` returned by successful stores and not yet freed.
`none` when a store reads outside its pattern buffer or a free names no held
range. -/
def lut_run : lpg → List (Nat × Nat) → List lut_call → Option (lpg × List (Nat × Nat))
  | l, held, [] => some (l, held)
  | l, held, lut_call.store pattern len :: cs =>
    match lpg_lut_store l pattern len 0 0 with
    | none => none
    | some r =>
      if r.ret = 0 then lut_run r.lpg ((r.lo_idx, r.hi_idx) :: held) cs
      else lut_run r.lpg held cs
  | l, held, lut_call.free k :: cs =>
    match held[k]? with
    | none => none
    | some (lo, hi) => lut_run (lpg_lut_free l lo hi) (held.eraseIdx k) cs

/-- A device with an empty LUT of `size` entries, as `lpg_init_lut` leaves
it. -/
def lpg_lut_init (lut_base size : Nat) : lpg :=
  { lut_base := lut_base, lut_size := size, lut_bitmap := List.replicate size false,
    triled_base := 0, triled_src := 0, pwm_9bit_mask := 0, map := [] }

/-- Whether index `i` lies in the range `lo .. hi`. -/
abbrev in_range (r : Nat × Nat) (i : Nat) : Prop := r.1 ≤ i ∧ i ≤ r.2

/-- Whether two ranges have no index in common. -/
abbrev ranges_disjoint (r s : Nat × Nat) : Prop := r.2 < s.1 ∨ s.2 < r.1

/-- An example device: a LUT of 8 entries of which entries 0 and 2 are in
use. -/
def lut_example : lpg :=
  { lut_base := 0xb000, lut_size := 8,
    lut_bitmap := [true, false, true, false, false, false, false, false],
    triled_base := 0, triled_src := 0, pwm_9bit_mask := 0, map := [] }

/-- An example sequence of allocator calls: two stores and the release of the
range returned by the first. -/
def lut_calls_example : List lut_call :=
  [ lut_call.store [⟨100, 10⟩, ⟨100, 50⟩] 2,
    lut_call.store [⟨100, 10⟩, ⟨100, 50⟩, ⟨100, 90⟩] 3,
    lut_call.free 1 ]

/-- The device that `lut_calls_example` leaves behind on an empty LUT of 8
entries. -/
def lut_calls_example_final : lpg :=
  { lut_base := 0xb000, lut_size := 8,
    lut_bitmap := [false, false, true, true, true, false, false, false],
    triled_base := 0, triled_src := 0, pwm_9bit_mask := 0,
    map := [ reg_op.bulk_write 0xb040 [10, 0], reg_op.bulk_write 0xb042 [50, 0],
             reg_op.bulk_write 0xb044 [10, 0], reg_op.bulk_write 0xb046 [50, 0],
             reg_op.bulk_write 0xb048 [90, 0] ] }

/-- The allocator invariant for a LUT of `N` entries: the bitmap has `N` bits,
a bit is set exactly when its index lies in a held range, the held ranges are
pairwise disjoint, and each of them has at least two entries and ends below
`N`. -/
def lut_inv (N : Nat) (l : lpg) (held : List (Nat × Nat)) : Prop :=
  l.lut_size = N ∧ l.lut_bitmap.length = N ∧
  (∀ i, bitmap_test l.lut_bitmap i = true ↔ ∃ r ∈ held, in_range r i) ∧
  held.Pairwise ranges_disjoint ∧
  ∀ r ∈ held, r.1 < r.2 ∧ r.2 < N

end Lpg


namespace Lpg

/-! ## Apply sequencer: `lpg_apply` and its parts -/

def LPG_PATTERN_CONFIG_REG : Nat := 0x40

def LPG_SIZE_CLK_REG : Nat := 0x41

def LPG_PREDIV_CLK_REG : Nat := 0x42

def PWM_TYPE_CONFIG_REG : Nat := 0x43

def PWM_VALUE_REG : Nat := 0x44

def PWM_ENABLE_CONTROL_REG : Nat := 0x46

def PWM_SYNC_REG : Nat := 0x47

def LPG_RAMP_DURATION_REG : Nat := 0x50

def LPG_HI_PAUSE_REG : Nat := 0x52

def LPG_LO_PAUSE_REG : Nat := 0x54

def LPG_HI_IDX_REG : Nat := 0x56

def LPG_LO_IDX_REG : Nat := 0x57

def TRI_LED_EN_CTL : Nat := 0x46

def RAMP_CONTROL_REG : Nat := 0xc8

/-- The bit `LPG_ENABLE_GLITCH_REMOVAL`, `BIT(5)`. -/
def LPG_ENABLE_GLITCH_REMOVAL : Nat := 0x20

def LPG_PATTERN_CONFIG_LO_TO_HI : Nat := 0x10

def LPG_PATTERN_CONFIG_REPEAT : Nat := 0x08

def LPG_PATTERN_CONFIG_TOGGLE : Nat := 0x04

def LPG_PATTERN_CONFIG_PAUSE_HI : Nat := 0x02

def LPG_PATTERN_CONFIG_PAUSE_LO : Nat := 0x01

def LPG_ENABLE_CONTROL_OUTPUT : Nat := 0x80

def LPG_ENABLE_CONTROL_BUFFER_TRISTATE : Nat := 0x20

def LPG_ENABLE_CONTROL_SRC_PWM : Nat := 0x04

def LPG_ENABLE_CONTROL_RAMP_GEN : Nat := 0x02

def LPG_SYNC_PWM : Nat := 0x01

/-- Reduction of a value to an `unsigned long`, which has 32 bits on the
32-bit ARM platform (msm8974) this tree is built for. -/
def ulong (x : Nat) : Nat := x % 2 ^ 32

/-- Modelled from the spec: the kernel macro `DIV_ROUND_UP(n, d)`, that is
`(n + d - 1) / d` in `unsigned long` arithmetic (the rounded-up quotient);
`none` stands for the division by a zero `d`. -/
def DIV_ROUND_UP (n d : Nat) : Option Nat :=
  if d = 0 then none else some (ulong (n + d - 1) / d)

/-- The register operation of `lpg_disable_glitch`. -/
def lpg_disable_glitch (chan : lpg_channel) : List reg_op :=
  [reg_op.update_bits (u32 (chan.base + PWM_TYPE_CONFIG_REG))
    LPG_ENABLE_GLITCH_REMOVAL LPG_ENABLE_GLITCH_REMOVAL]

/-- The register operation of `lpg_enable_glitch`. -/
def lpg_enable_glitch (chan : lpg_channel) : List reg_op :=
  [reg_op.update_bits (u32 (chan.base + PWM_TYPE_CONFIG_REG)) LPG_ENABLE_GLITCH_REMOVAL 0]

/-- The register operations of `lpg_apply_freq`. -/
def lpg_apply_freq (l : lpg) (chan : lpg_channel) : List reg_op :=
  if !chan.enabled then []
  else
    let val := ulong (chan.clk + 1)
    let val1 := if chan.pwm_size = 9 then val ||| l.pwm_9bit_mask else val
    [ reg_op.write (u32 (chan.base + LPG_SIZE_CLK_REG)) val1,
      reg_op.write (u32 (chan.base + LPG_PREDIV_CLK_REG))
        (u32 (chan.pre_div <<< 5) ||| chan.pre_div_exp) ]

/-- The register operation of `lpg_apply_pwm_value`. -/
def lpg_apply_pwm_value (chan : lpg_channel) : List reg_op :=
  if !chan.enabled then []
  else [reg_op.bulk_write (u32 (chan.base + PWM_VALUE_REG)) (cpu_to_le16 (chan.pwm_value : Int))]

/-- The value `conf` that `lpg_apply_lut_control` writes to the pattern
configuration register. -/
def lut_conf (chan : lpg_channel) : Nat :=
  ((((0 ||| (if !chan.ramp_reverse then LPG_PATTERN_CONFIG_LO_TO_HI else 0))
    ||| (if !chan.ramp_oneshot then LPG_PATTERN_CONFIG_REPEAT else 0))
    ||| (if chan.ramp_ping_pong then LPG_PATTERN_CONFIG_TOGGLE else 0))
    ||| (if chan.ramp_hi_pause_ms ≠ 0 then LPG_PATTERN_CONFIG_PAUSE_HI else 0))
    ||| (if chan.ramp_lo_pause_ms ≠ 0 then LPG_PATTERN_CONFIG_PAUSE_LO else 0)

/-- The value `pattern_len = hi_idx - lo_idx + 1` of `lpg_apply_lut_control`. -/
def lut_pattern_len (chan : lpg_channel) : Nat :=
  u32 (chan.pattern_hi_idx + 2 ^ 32 - chan.pattern_lo_idx + 1)

/-- The value `step = DIV_ROUND_UP(ramp_duration_ms, pattern_len)` of
`lpg_apply_lut_control`, stored in an `unsigned int`. -/
def lut_step (chan : lpg_channel) : Option Nat :=
  (DIV_ROUND_UP chan.ramp_duration_ms (lut_pattern_len chan)).map u32

/-- The register operations of `lpg_apply_lut_control`; `none` when one of its
three divisions has a zero divisor. -/
def lpg_apply_lut_control (chan : lpg_channel) : Option (List reg_op) :=
  if !chan.ramp_enabled || decide (chan.pattern_lo_idx = chan.pattern_hi_idx) then some []
  else
    match lut_step chan with
    | none => none
    | some step =>
      match DIV_ROUND_UP chan.ramp_hi_pause_ms step, DIV_ROUND_UP chan.ramp_lo_pause_ms step with
      | some hi_pause, some lo_pause =>
        some [ reg_op.write (u32 (chan.base + LPG_PATTERN_CONFIG_REG)) (lut_conf chan),
               reg_op.write (u32 (chan.base + LPG_HI_IDX_REG)) chan.pattern_hi_idx,
               reg_op.write (u32 (chan.base + LPG_LO_IDX_REG)) chan.pattern_lo_idx,
               reg_op.write (u32 (chan.base + LPG_RAMP_DURATION_REG)) step,
               reg_op.write (u32 (chan.base + LPG_HI_PAUSE_REG)) (u32 hi_pause),
               reg_op.write (u32 (chan.base + LPG_LO_PAUSE_REG)) (u32 lo_pause) ]
      | _, _ => none

/-- The value `ctrl` that `lpg_apply_control` writes to the enable control
register. -/
def control_ctrl (chan : lpg_channel) : Nat :=
  (LPG_ENABLE_CONTROL_BUFFER_TRISTATE
    ||| (if chan.enabled then LPG_ENABLE_CONTROL_OUTPUT else 0))
    ||| (if chan.pattern_lo_idx ≠ chan.pattern_hi_idx then LPG_ENABLE_CONTROL_RAMP_GEN
         else LPG_ENABLE_CONTROL_SRC_PWM)

/-- The register operations of `lpg_apply_control`: the control write and,
for an enabled channel, the second write of the PWM value. -/
def lpg_apply_control (chan : lpg_channel) : List reg_op :=
  [reg_op.write (u32 (chan.base + PWM_ENABLE_CONTROL_REG)) (control_ctrl chan)] ++
    (if chan.enabled then lpg_apply_pwm_value chan else [])

/-- The register operation of `lpg_apply_sync`. -/
def lpg_apply_sync (chan : lpg_channel) : List reg_op :=
  [reg_op.write (u32 (chan.base + PWM_SYNC_REG)) LPG_SYNC_PWM]

/-- The register operations of `lpg_apply(chan)`, in the order of its seven
calls. -/
def lpg_apply_ops (l : lpg) (chan : lpg_channel) : Option (List reg_op) :=
  match lpg_apply_lut_control chan with
  | none => none
  | some lut =>
    some (lpg_disable_glitch chan ++ lpg_apply_freq l chan ++ lpg_apply_pwm_value chan ++
      lpg_apply_control chan ++ lpg_apply_sync chan ++ lut ++ lpg_enable_glitch chan)

/-- The function `lpg_apply(chan)`: its register operations are appended to
the operations issued on the device so far. -/
def lpg_apply (l : lpg) (chan : lpg_channel) : Option lpg :=
  match lpg_apply_ops l chan with
  | none => none
  | some ops => some { l with map := l.map ++ ops }

/-- The function `triled_set(lpg, mask, enable)`. -/
def triled_set (l : lpg) (mask enable : Nat) : lpg :=
  if l.triled_base = 0 then l
  else { l with map := l.map ++
    [reg_op.update_bits (u32 (l.triled_base + TRI_LED_EN_CTL)) mask enable] }

/-- The function `lpg_lut_sync(lpg, mask)`. -/
def lpg_lut_sync (l : lpg) (mask : Nat) : lpg :=
  { l with map := l.map ++ [reg_op.write (u32 (l.lut_base + RAMP_CONTROL_REG)) mask] }

/-! ## Entry points: brightness, blink, pattern clear, raw PWM -/

/-- The three masks that the loop of `lpg_brightness_set` accumulates. -/
structure brightness_masks where
  triled_enabled : Nat
  triled_mask : Nat
  lut_mask : Nat
  deriving DecidableEq, Repr

/-- The three branches of the loop body of `lpg_brightness_set` for one
channel and its brightness: the new channel state; `none` on a division by
zero. -/
def brightness_chan (chan : lpg_channel) (brightness max_brightness : Nat) :
    Option lpg_channel :=
  if brightness = 0 then some { chan with enabled := false, ramp_enabled := false }
  else if chan.pattern_lo_idx ≠ chan.pattern_hi_idx then
    some { lpg_calc_freq chan NSEC_PER_USEC with enabled := true, ramp_enabled := true }
  else
    if max_brightness = 0 then none
    else
      match lpg_calc_duty (lpg_calc_freq chan NSEC_PER_USEC)
          (u32 (brightness * (lpg_calc_freq chan NSEC_PER_USEC).period_us) / max_brightness) with
      | none => none
      | some c => some { c with enabled := true, ramp_enabled := false }

/-- The masks after the loop body of `lpg_brightness_set` for one channel. -/
def brightness_masks_step (chan : lpg_channel) (brightness : Nat) (acc : brightness_masks) :
    brightness_masks :=
  { triled_enabled :=
      if brightness = 0 then acc.triled_enabled else acc.triled_enabled ||| chan.triled_mask,
    triled_mask := acc.triled_mask ||| chan.triled_mask,
    lut_mask :=
      if brightness ≠ 0 ∧ chan.pattern_lo_idx ≠ chan.pattern_hi_idx then
        acc.lut_mask ||| chan.lut_mask
      else acc.lut_mask }

/-- The loop `for (i = 0; i < led->num_channels; i++)` of `lpg_brightness_set`
over the remaining channels and the remaining entries of `subleds`. -/
def brightness_loop (max_brightness : Nat) :
    List lpg_channel → List Nat → lpg → brightness_masks →
      Option (lpg × brightness_masks × List lpg_channel)
  | [], _, l, acc => some (l, acc, [])
  | _ :: _, [], _, _ => none
  | chan :: rest, b :: bs, l, acc =>
    match brightness_chan chan b max_brightness with
    | none => none
    | some c =>
      match lpg_apply l c with
      | none => none
      | some l1 =>
        match brightness_loop max_brightness rest bs l1 (brightness_masks_step chan b acc) with
        | none => none
        | some (l2, acc2, cs) => some (l2, acc2, c :: cs)

/-- The function `lpg_brightness_set(led, cdev, subleds)`: `subleds` is the
list of the `brightness` values of the entries, `max_brightness` is
`cdev->max_brightness`. -/
def lpg_brightness_set (l : lpg) (led : lpg_led) (max_brightness : Nat) (subleds : List Nat) :
    Option (lpg × lpg_led) :=
  match brightness_loop max_brightness led.channels subleds l ⟨0, 0, 0⟩ with
  | none => none
  | some (l1, acc, chans) =>
    let l2 := if acc.triled_mask ≠ 0 then triled_set l1 acc.triled_mask acc.triled_enabled else l1
    let l3 := if acc.lut_mask ≠ 0 then lpg_lut_sync l2 acc.lut_mask else l2
    some (l3, { channels := chans })

/-- The loop over the channels in `lpg_blink_set`. -/
def blink_loop (period_us duty_us : Nat) :
    List lpg_channel → lpg → Option (lpg × List lpg_channel)
  | [], l => some (l, [])
  | chan :: rest, l =>
    match lpg_calc_duty (lpg_calc_freq chan period_us) duty_us with
    | none => none
    | some c =>
      match lpg_apply l { c with enabled := true, ramp_enabled := false } with
      | none => none
      | some l1 =>
        match blink_loop period_us duty_us rest l1 with
        | none => none
        | some (l2, cs) => some (l2, { c with enabled := true, ramp_enabled := false } :: cs)

/-- The function `lpg_blink_set(led, delay_on, delay_off)`. -/
def lpg_blink_set (l : lpg) (led : lpg_led) (delay_on delay_off : Nat) :
    Option (Int × lpg × lpg_led) :=
  let delay_on1 := if delay_on = 0 ∧ delay_off = 0 then 500 else delay_on
  let delay_off1 := if delay_on = 0 ∧ delay_off = 0 then 500 else delay_off
  let duty_us := u32 (delay_on1 * USEC_PER_MSEC)
  let period_us := u32 ((delay_on1 + delay_off1) * USEC_PER_MSEC)
  match blink_loop period_us duty_us led.channels l with
  | none => none
  | some (l1, chans) => some (0, l1, { channels := chans })

/-- The function `lpg_pattern_clear(led)`; `none` when the LED has no channel
`channels[0]` to read. -/
def lpg_pattern_clear (l : lpg) (led : lpg_led) : Option (Int × lpg × lpg_led) :=
  match led.channels with
  | [] => none
  | chan :: _ =>
    some (0, lpg_lut_free l chan.pattern_lo_idx chan.pattern_hi_idx,
      { channels := led.channels.map
          (fun c => { c with pattern_lo_idx := 0, pattern_hi_idx := 0 }) })

/-- The function `lpg_pwm_apply(chip, pwm, state)` for the channel `chan`, with
`period` and `duty_cycle` the 64-bit values of the state in nanoseconds. -/
def lpg_pwm_apply (l : lpg) (chan : lpg_channel) (period duty_cycle : Nat) (enabled : Bool) :
    Option (Int × lpg × lpg_channel) :=
  match lpg_calc_duty (lpg_calc_freq chan (u32 (period / NSEC_PER_USEC)))
      (u32 (duty_cycle / NSEC_PER_USEC)) with
  | none => none
  | some c =>
    match lpg_apply l { c with enabled := enabled } with
    | none => none
    | some l1 =>
      some (0, triled_set l1 chan.triled_mask (if enabled then chan.triled_mask else 0),
        { c with enabled := enabled })

/-- An example device with a TRILED block and an empty LUT of 8 entries. -/
def brightness_example_lpg : lpg :=
  { lpg_lut_init 0xb000 8 with triled_base := 0xd000 }

/-- An example RGB LED of three channels; the first one holds a pattern in the
LUT entries 0..2 with a step of 100 ms. -/
def brightness_example_led : lpg_led :=
  ⟨[ { lpg_channel_zero with
       base := 0xb100, triled_mask := 0x80, lut_mask := 1, pattern_hi_idx := 2,
       ramp_duration_ms := 300 },
     { lpg_channel_zero with base := 0xb200, triled_mask := 0x40, lut_mask := 2 },
     { lpg_channel_zero with base := 0xb300, triled_mask := 0x20, lut_mask := 4 } ]⟩

/-! ## Sequences of LED operations on a device -/

/-- A call of one of the four LED operations of the driver on the LED with
index `k` of the device. -/
inductive dev_call where
  | brightness_set (k max_brightness : Nat) (subleds : List Nat)
  | blink_set (k delay_on delay_off : Nat)
  | pattern_set (k : Nat) (pattern : List led_pattern) (len : Nat) (rep : Int)
  | pattern_clear (k : Nat)
  deriving DecidableEq, Repr

/-- One call on a device with the LEDs `leds`: the device and the LEDs after
it.  `none` when the call names no LED or the called function traps. -/
def dev_step (l : lpg) (leds : List lpg_led) : dev_call → Option (lpg × List lpg_led)
  | dev_call.brightness_set k max_brightness subleds =>
    match leds[k]? with
    | none => none
    | some led =>
      match lpg_brightness_set l led max_brightness subleds with
      | none => none
      | some (l1, led1) => some (l1, leds.set k led1)
  | dev_call.blink_set k delay_on delay_off =>
    match leds[k]? with
    | none => none
    | some led =>
      match lpg_blink_set l led delay_on delay_off with
      | none => none
      | some (_, l1, led1) => some (l1, leds.set k led1)
  | dev_call.pattern_set k pattern len rep =>
    match leds[k]? with
    | none => none
    | some led =>
      match lpg_pattern_set l led pattern len rep with
      | none => none
      | some (_, l1, led1) => some (l1, leds.set k led1)
  | dev_call.pattern_clear k =>
    match leds[k]? with
    | none => none
    | some led =>
      match lpg_pattern_clear l led with
      | none => none
      | some (_, l1, led1) => some (l1, leds.set k led1)

/-- Run a sequence of calls, oldest first. -/
def dev_run : lpg → List lpg_led → List dev_call → Option (lpg × List lpg_led)
  | l, leds, [] => some (l, leds)
  | l, leds, c :: cs =>
    match dev_step l leds c with
    | none => none
    | some (l1, leds1) => dev_run l1 leds1 cs

/-- The pattern ranges `(pattern_lo_idx, pattern_hi_idx)` of the channels of
an LED. -/
def led_ranges (led : lpg_led) : List (Nat × Nat) :=
  led.channels.map (fun c => (c.pattern_lo_idx, c.pattern_hi_idx))

/-- Whether an LED holds no pattern: every channel has
`pattern_lo_idx == pattern_hi_idx`. -/
def led_idle (led : lpg_led) : Bool :=
  led.channels.all (fun c => decide (c.pattern_lo_idx = c.pattern_hi_idx))

/-- Whether a call is other than an `lpg_pattern_set` on an LED that holds a
pattern. -/
def call_guarded (leds : List lpg_led) : dev_call → Bool
  | dev_call.pattern_set k _ _ _ =>
    match leds[k]? with
    | some led => led_idle led
    | none => true
  | _ => true

/-- Whether, along the run of a sequence of calls, every `lpg_pattern_set` is
issued on an LED that holds no pattern at that moment (the LED core clears a
hardware pattern before it sets the next one). -/
def dev_guarded : lpg → List lpg_led → List dev_call → Bool
  | _, _, [] => true
  | l, leds, c :: cs =>
    call_guarded leds c &&
    (match dev_step l leds c with
      | none => true
      | some (l1, leds1) => dev_guarded l1 leds1 cs)

/-- The invariant that ties the allocation bitmap of `N` bits to the pattern
ranges `rs` of the LEDs (one list of channel ranges per LED): no LED is
without channels, the channels of an LED hold no pattern or all the same
range, a held range is `lo < hi < N`, a bit is set exactly when its index lies
in a held range, and held ranges of different LEDs are disjoint. -/
def ranges_inv (N : Nat) (bm : List Bool) (rs : List (List (Nat × Nat))) : Prop :=
  bm.length = N ∧
  (∀ (j : Nat) (rl : List (Nat × Nat)), rs[j]? = some rl →
    rl ≠ [] ∧ ((∀ r ∈ rl, r.1 = r.2) ∨ ∀ r ∈ rl, ∀ s ∈ rl, r = s)) ∧
  (∀ (j : Nat) (rl : List (Nat × Nat)), rs[j]? = some rl →
    ∀ r ∈ rl, r.1 ≠ r.2 → r.1 < r.2 ∧ r.2 < N) ∧
  (∀ i, bitmap_test bm i = true ↔
    ∃ (j : Nat) (rl : List (Nat × Nat)) (r : Nat × Nat),
      rs[j]? = some rl ∧ r ∈ rl ∧ r.1 ≠ r.2 ∧ in_range r i) ∧
  (∀ (j k : Nat) (rj rk : List (Nat × Nat)), j ≠ k → rs[j]? = some rj → rs[k]? = some rk →
    ∀ r ∈ rj, ∀ s ∈ rk, r.1 ≠ r.2 → s.1 ≠ s.2 → ranges_disjoint r s)

/-- The invariant `ranges_inv` for a device and its LEDs. -/
def dev_inv (N : Nat) (l : lpg) (leds : List lpg_led) : Prop :=
  l.lut_size = N ∧ ranges_inv N l.lut_bitmap (leds.map led_ranges)

/-! ## Invariants of the search loop -/

/-- The state of the search loop after the `if (cur_err < min_err)` statement
for the candidate `(clk, div, m)` with error `cur`. -/
def freq_update (clk div m cur : Nat) (s : freq_search) : freq_search :=
  if cur < s.min_err then
    { s with min_err := cur, best_m := m, best_clk := clk, best_div := div }
  else s

/-- The search state and the best candidate of the exhaustive search agree. -/
def search_inv (period_n : Nat) (s : freq_search) (b : freq_triple) : Prop :=
  b = ⟨s.best_clk, s.best_div, s.best_m⟩ ∧ s.min_err = triple_err period_n b

/-- The state before the very first candidate `(clk, div, m)` is looked at. -/
def search_pre (period_n clk div m : Nat) (s : freq_search) (b : freq_triple) : Prop :=
  search_inv period_n s b ∨
    (m = 0 ∧ s.min_err = UINT_MAX ∧ b = ⟨s.best_clk, s.best_div, s.best_m⟩ ∧ b = ⟨clk, div, 0⟩)

/-! ## Theorems: clock/divider search -/

theorem lpg_calc_freq_period (chan : lpg_channel) (period_us : Nat) :
    (lpg_calc_freq chan period_us).period_us = period_us := by
  unfold lpg_calc_freq
  split
  · next h => exact h.symm
  · rfl

/-- C3: `lpg_calc_freq` is idempotent: a second call with the same period
leaves the channel as the first call left it, and a call whose period equals
the cached `period_us` changes no field of the channel. -/
theorem lpg_calc_freq_idempotent (chan : lpg_channel) (period_us : Nat) :
    lpg_calc_freq (lpg_calc_freq chan period_us) period_us = lpg_calc_freq chan period_us ∧
    lpg_calc_freq chan chan.period_us = chan := by
  constructor
  · have h := lpg_calc_freq_period chan period_us
    generalize lpg_calc_freq chan period_us = c at h
    unfold lpg_calc_freq
    rw [if_pos h.symm]
  · unfold lpg_calc_freq
    rw [if_pos rfl]

/-! ## Theorems: duty quantizer -/

theorem lpg_calc_duty_eq (chan : lpg_channel) (duty_us : Nat)
    (hp : 0 < chan.period_us) (hd : duty_us < 2 ^ 32)
    (hs : chan.pwm_size = 6 ∨ chan.pwm_size = 9)
    (hq : duty_us * 2 ^ chan.pwm_size / chan.period_us < 2 ^ 32) :
    lpg_calc_duty chan duty_us =
      some { chan with
        pwm_value := min (duty_us * 2 ^ chan.pwm_size / chan.period_us)
          (2 ^ chan.pwm_size - 1) } := by
  have hne : chan.period_us ≠ 0 := Nat.pos_iff_ne_zero.mp hp
  unfold lpg_calc_duty div_u64
  simp only [if_neg hne, Nat.shiftLeft_eq, one_mul]
  have h64 : u64 (duty_us * 2 ^ chan.pwm_size) = duty_us * 2 ^ chan.pwm_size := by
    unfold u64
    apply Nat.mod_eq_of_lt
    rcases hs with h | h <;> rw [h] <;> omega
  have hmax : u32 (2 ^ chan.pwm_size - 1) = 2 ^ chan.pwm_size - 1 := by
    unfold u32
    apply Nat.mod_eq_of_lt
    rcases hs with h | h <;> rw [h] <;> omega
  rw [h64, hmax]
  have hval : u32 (duty_us * 2 ^ chan.pwm_size / chan.period_us) =
      duty_us * 2 ^ chan.pwm_size / chan.period_us := Nat.mod_eq_of_lt hq
  rw [hval]
  have h16 : min (duty_us * 2 ^ chan.pwm_size / chan.period_us) (2 ^ chan.pwm_size - 1) % 2 ^ 16 =
      min (duty_us * 2 ^ chan.pwm_size / chan.period_us) (2 ^ chan.pwm_size - 1) := by
    apply Nat.mod_eq_of_lt
    have : min (duty_us * 2 ^ chan.pwm_size / chan.period_us) (2 ^ chan.pwm_size - 1) ≤
        2 ^ chan.pwm_size - 1 := Nat.min_le_right _ _
    rcases hs with h | h <;> rw [h] at this ⊢ <;> omega
  rw [h16]

set_option maxRecDepth 100000 in
/-- C4: the channel that `lpg_calc_freq` produces for a period of 1 us has
`period_us = 1` and 6-bit resolution; for `duty_us = 2^26` the quotient
`duty_us * 2^6 / 1 = 2^32` does not fit the `unsigned int val`, so
`lpg_calc_duty` stores the duty code 0, whereas
`min(floor(duty_us * 2^6 / period_us), 2^6 - 1)` is 63. -/
theorem lpg_calc_duty_quotient_truncated :
    (lpg_calc_freq lpg_channel_zero 1).period_us = 1 ∧
    (lpg_calc_freq lpg_channel_zero 1).pwm_size = 6 ∧
    (lpg_calc_duty (lpg_calc_freq lpg_channel_zero 1) 67108864).map (fun c => c.pwm_value)
      = some 0 ∧
    min (67108864 * 2 ^ 6 / 1) (2 ^ 6 - 1) = 63 := by
  decide

theorem duty_quotient_le (duty_us period_us size : Nat) (hp : 0 < period_us)
    (hd : duty_us ≤ period_us) : duty_us * 2 ^ size / period_us ≤ 2 ^ size := by
  calc duty_us * 2 ^ size / period_us
      ≤ period_us * 2 ^ size / period_us :=
        Nat.div_le_div_right (Nat.mul_le_mul_right _ hd)
    _ = 2 ^ size := Nat.mul_div_cancel_left _ hp

/-- C5: for a channel with `period_us > 0` and resolution 6 or 9, and duty
values `d1 <= d2 <= period_us`, `lpg_calc_duty` returns for both, and the duty
codes satisfy `code(d1) <= code(d2) <= 2^resolution - 1` (the lower bound 0 is
the type of the code). -/
theorem lpg_calc_duty_monotone (chan : lpg_channel) (d1 d2 : Nat)
    (hp : 0 < chan.period_us) (hp32 : chan.period_us < 2 ^ 32)
    (hs : chan.pwm_size = 6 ∨ chan.pwm_size = 9)
    (h12 : d1 ≤ d2) (h2 : d2 ≤ chan.period_us) :
    ∃ c1 c2, lpg_calc_duty chan d1 = some c1 ∧ lpg_calc_duty chan d2 = some c2 ∧
      0 ≤ c1.pwm_value ∧ c1.pwm_value ≤ c2.pwm_value ∧
      c2.pwm_value ≤ 2 ^ chan.pwm_size - 1 := by
  have hq2 := duty_quotient_le d2 chan.period_us chan.pwm_size hp h2
  have hq1 := duty_quotient_le d1 chan.period_us chan.pwm_size hp (le_trans h12 h2)
  have hpow : 2 ^ chan.pwm_size < 2 ^ 32 := by
    rcases hs with h | h <;> rw [h] <;> omega
  have e1 := lpg_calc_duty_eq chan d1 hp (by omega) hs (by omega)
  have e2 := lpg_calc_duty_eq chan d2 hp (by omega) hs (by omega)
  refine ⟨_, _, e1, e2, Nat.zero_le _, ?_, ?_⟩
  · show min _ _ ≤ min _ _
    have hmono : d1 * 2 ^ chan.pwm_size / chan.period_us ≤
        d2 * 2 ^ chan.pwm_size / chan.period_us :=
      Nat.div_le_div_right (Nat.mul_le_mul_right _ h12)
    exact min_le_min hmono (le_refl _)
  · show min _ _ ≤ _
    exact Nat.min_le_right _ _

set_option maxRecDepth 100000 in
theorem lpg_calc_duty_monotone_witness :
    ∃ c1 c2, lpg_calc_duty (lpg_calc_freq lpg_channel_zero 1000) 300 = some c1 ∧
      lpg_calc_duty (lpg_calc_freq lpg_channel_zero 1000) 700 = some c2 ∧
      0 ≤ c1.pwm_value ∧ c1.pwm_value ≤ c2.pwm_value ∧
      c2.pwm_value ≤ 2 ^ (lpg_calc_freq lpg_channel_zero 1000).pwm_size - 1 :=
  lpg_calc_duty_monotone (lpg_calc_freq lpg_channel_zero 1000) 300 700
    (by decide) (by decide) (by decide) (by decide) (by decide)

/-! ## Theorems: LUT allocator -/

/-- C6: `lpg_lut_store` called with `len == 1` returns `-EINVAL` whatever the
bitmap and the pattern are, and leaves the device (allocation bitmap and LUT
registers) and both output indices as they were. -/
theorem lpg_lut_store_len_one (l : lpg) (pattern : List led_pattern) (lo_idx hi_idx : Nat) :
    lpg_lut_store l pattern 1 lo_idx hi_idx = some ⟨-EINVAL, l, lo_idx, hi_idx⟩ := by
  unfold lpg_lut_store
  rw [if_pos rfl]

/-! ## Theorems: pattern compiler -/

/-- C10: for every pattern and every repeat value other than 1 (once) and -1
(forever), `lpg_pattern_set` returns `-EINVAL` and leaves the device (LUT
bitmap included) and every channel of the LED unchanged. -/
theorem lpg_pattern_set_bad_repeat (l : lpg) (led : lpg_led) (pattern : List led_pattern)
    (len : Nat) (rep : Int) (h1 : rep ≠ 1) (hm1 : rep ≠ -1) :
    lpg_pattern_set l led pattern len rep = some (-EINVAL, l, led) := by
  unfold lpg_pattern_set
  rw [if_pos ⟨hm1, h1⟩]

theorem lpg_pattern_set_bad_repeat_witness :
    lpg_pattern_set (lpg_lut_init 0xb000 24) ⟨[lpg_channel_zero]⟩
      [⟨100, 10⟩, ⟨100, 50⟩, ⟨100, 90⟩] 3 5
      = some (-EINVAL, lpg_lut_init 0xb000 24, ⟨[lpg_channel_zero]⟩) :=
  lpg_pattern_set_bad_repeat (lpg_lut_init 0xb000 24) ⟨[lpg_channel_zero]⟩
    [⟨100, 10⟩, ⟨100, 50⟩, ⟨100, 90⟩] 3 5 (by decide) (by decide)


/-! ### Bitmap helpers -/

theorem bitmap_fill_length (v : Bool) (start nr : Nat) (map : List Bool) :
    ∀ i, (bitmap_fill v start nr i map).length = map.length := by
  induction map with
  | nil => intro i; rfl
  | cons b bs ih => intro i; simp [bitmap_fill, ih]

theorem bitmap_fill_test (v : Bool) (start nr : Nat) (map : List Bool) :
    ∀ i k, bitmap_test (bitmap_fill v start nr i map) k =
      if k < map.length ∧ start ≤ i + k ∧ i + k < start + nr then v else bitmap_test map k := by
  induction map with
  | nil => intro i k; simp [bitmap_fill, bitmap_test]
  | cons b bs ih =>
    intro i k
    cases k with
    | zero =>
      simp [bitmap_fill, bitmap_test]
    | succ k =>
      have h := ih (i + 1) k
      simp only [bitmap_test] at h ⊢
      simp only [bitmap_fill, List.getD_cons_succ, List.length_cons]
      rw [h]
      have e : i + 1 + k = i + (k + 1) := by omega
      rw [e]
      by_cases hk : k < bs.length
      · simp [hk]
      · simp [hk]

theorem bitmap_test_ge (map : List Bool) (i : Nat) (h : map.length ≤ i) :
    bitmap_test map i = false := by
  unfold bitmap_test
  simp [List.getD_eq_getElem?_getD, List.getElem?_eq_none h]

theorem bitmap_area_free_iff (map : List Bool) (start nr : Nat) :
    bitmap_area_free map start nr = true ↔ ∀ k, k < nr → bitmap_test map (start + k) = false := by
  unfold bitmap_area_free
  simp [List.all_eq_true]

/-- The scan returns either the first position at or after `i` whose run of
`nr` bits is free and ends within `size`, or, when there is none, a value past
`size`: `i + nr` or `size + 1`. -/
theorem bitmap_scan_spec (map : List Bool) (size nr : Nat) :
    ∀ fuel i, size < i + fuel →
      (bitmap_scan map size nr fuel i + nr ≤ size ∧ i ≤ bitmap_scan map size nr fuel i ∧
        bitmap_area_free map (bitmap_scan map size nr fuel i) nr = true ∧
        ∀ j, i ≤ j → j < bitmap_scan map size nr fuel i → bitmap_area_free map j nr = false) ∨
      (size < bitmap_scan map size nr fuel i ∧
        (bitmap_scan map size nr fuel i = i + nr ∨ bitmap_scan map size nr fuel i = size + 1) ∧
        ∀ j, i ≤ j → j + nr ≤ size → bitmap_area_free map j nr = false) := by
  intro fuel
  induction fuel with
  | zero =>
    intro i h
    right
    have e : bitmap_scan map size nr 0 i = i + nr := rfl
    rw [e]
    refine ⟨by omega, Or.inl rfl, ?_⟩
    intro j hj hjs
    omega
  | succ fuel ih =>
    intro i h
    by_cases h1 : i + nr > size
    · have e : bitmap_scan map size nr (fuel + 1) i = i + nr := by
        simp only [bitmap_scan]
        rw [if_pos h1]
      rw [e]
      right
      refine ⟨by omega, Or.inl rfl, ?_⟩
      intro j hj hjs
      omega
    · by_cases h2 : bitmap_area_free map i nr = true
      · have e : bitmap_scan map size nr (fuel + 1) i = i := by
          simp only [bitmap_scan]
          rw [if_neg h1, if_pos h2]
        rw [e]
        left
        refine ⟨by omega, le_refl _, h2, ?_⟩
        intro j hj hji
        omega
      · have e : bitmap_scan map size nr (fuel + 1) i = bitmap_scan map size nr fuel (i + 1) := by
          simp only [bitmap_scan]
          rw [if_neg h1, if_neg h2]
        rw [e]
        have h2f : bitmap_area_free map i nr = false := by
          cases hb : bitmap_area_free map i nr
          · rfl
          · exact absurd hb h2
        rcases ih (i + 1) (by omega) with ⟨a, b, c, d⟩ | ⟨a, b, c⟩
        · left
          refine ⟨a, by omega, c, ?_⟩
          intro j hj hjr
          by_cases e : j = i
          · rw [e]; exact h2f
          · exact d j (by omega) hjr
        · right
          refine ⟨a, ?_, ?_⟩
          · right
            rcases b with b | b
            · omega
            · exact b
          · intro j hj hjs
            by_cases e : j = i
            · rw [e]; exact h2f
            · exact c j (by omega) hjs

/-- First-fit characterisation of `bitmap_find_next_zero_area` from position
0, for a run of at least one bit. -/
theorem bitmap_find_next_zero_area_spec (map : List Bool) (size nr : Nat) :
    (bitmap_find_next_zero_area map size 0 nr + nr ≤ size ∧
      bitmap_area_free map (bitmap_find_next_zero_area map size 0 nr) nr = true ∧
      ∀ j, j < bitmap_find_next_zero_area map size 0 nr → bitmap_area_free map j nr = false) ∨
    (size < bitmap_find_next_zero_area map size 0 nr ∧
      (bitmap_find_next_zero_area map size 0 nr = nr ∨
        bitmap_find_next_zero_area map size 0 nr = size + 1) ∧
      ∀ j, j + nr ≤ size → bitmap_area_free map j nr = false) := by
  unfold bitmap_find_next_zero_area
  rcases bitmap_scan_spec map size nr (size + 1) 0 (by omega) with ⟨a, _, c, d⟩ | ⟨a, b, c⟩
  · left
    exact ⟨a, c, fun j hj => d j (Nat.zero_le _) hj⟩
  · right
    refine ⟨a, ?_, fun j hj => c j (Nat.zero_le _) hj⟩
    rcases b with b | b
    · left; omega
    · right; exact b

theorem lut_store_loop_some (lut_base idx : Nat) (pattern : List led_pattern) :
    ∀ (is : List Nat) (map : List reg_op), (∀ i ∈ is, i < pattern.length) →
      ∃ map1, lut_store_loop lut_base idx pattern is map = some map1 := by
  intro is
  induction is with
  | nil => intro map _; exact ⟨map, rfl⟩
  | cons i is ih =>
    intro map h
    have hi : i < pattern.length := h i (List.mem_cons_self _ _)
    simp only [lut_store_loop, List.getElem?_eq_getElem hi]
    exact ih _ (fun j hj => h j (List.mem_cons_of_mem _ hj))

/-- Whether the run of `len` bits from position `i` lies within the LUT and is
free. -/
theorem bitmap_set_test (map : List Bool) (start nr k : Nat) (h : start + nr ≤ map.length) :
    bitmap_test (bitmap_set map start nr) k =
      if start ≤ k ∧ k < start + nr then true else bitmap_test map k := by
  unfold bitmap_set
  rw [bitmap_fill_test]
  simp only [Nat.zero_add]
  by_cases hk : start ≤ k ∧ k < start + nr
  · rw [if_pos hk, if_pos ⟨by omega, hk⟩]
  · rw [if_neg hk, if_neg (fun hh => hk hh.2)]

theorem bitmap_clear_test (map : List Bool) (start nr k : Nat) :
    bitmap_test (bitmap_clear map start nr) k =
      if start ≤ k ∧ k < start + nr then false else bitmap_test map k := by
  unfold bitmap_clear
  rw [bitmap_fill_test]
  simp only [Nat.zero_add]
  by_cases hk : start ≤ k ∧ k < start + nr
  · rw [if_pos hk]
    by_cases hl : k < map.length
    · rw [if_pos ⟨hl, hk⟩]
    · rw [if_neg (fun hh => hl hh.1)]
      exact bitmap_test_ge map k (by omega)
  · rw [if_neg hk, if_neg (fun hh => hk hh.2)]

/-- The three ways `lpg_lut_store` can return, for a length that fits an
`unsigned int` and a LUT size below `UINT_MAX`. -/
theorem lpg_lut_store_cases (l : lpg) (pattern : List led_pattern) (len lo_idx hi_idx : Nat)
    (hsize : l.lut_size < UINT_MAX) (hlen : 1 ≤ len) (hlen32 : len < 2 ^ 32)
    (r : lut_store_result) (hr : lpg_lut_store l pattern len lo_idx hi_idx = some r) :
    (len = 1 ∧ r = ⟨-EINVAL, l, lo_idx, hi_idx⟩) ∨
    (2 ≤ len ∧ r = ⟨-ENOMEM, l, lo_idx, hi_idx⟩ ∧
      ∀ j, j + len ≤ l.lut_size → bitmap_area_free l.lut_bitmap j len = false) ∨
    (2 ≤ len ∧ r.ret = 0 ∧ r.lo_idx + len ≤ l.lut_size ∧
      bitmap_area_free l.lut_bitmap r.lo_idx len = true ∧
      (∀ j, j < r.lo_idx → bitmap_area_free l.lut_bitmap j len = false) ∧
      r.hi_idx = r.lo_idx + len - 1 ∧
      r.lpg.lut_bitmap = bitmap_set l.lut_bitmap r.lo_idx len ∧
      r.lpg.lut_size = l.lut_size ∧ r.lpg.lut_base = l.lut_base) := by
  unfold UINT_MAX at hsize
  have hu : u32 len = len := Nat.mod_eq_of_lt hlen32
  unfold lpg_lut_store at hr
  by_cases h1 : len = 1
  · rw [if_pos h1] at hr
    left
    exact ⟨h1, (Option.some.inj hr).symm⟩
  · rw [if_neg h1] at hr
    right
    have h2 : 2 ≤ len := by omega
    simp only [hu] at hr
    rcases bitmap_find_next_zero_area_spec l.lut_bitmap l.lut_size len with
      ⟨a, b, c⟩ | ⟨a, b, c⟩
    · have hi : u32 (bitmap_find_next_zero_area l.lut_bitmap l.lut_size 0 len) =
          bitmap_find_next_zero_area l.lut_bitmap l.lut_size 0 len :=
        Nat.mod_eq_of_lt (by omega)
      rw [hi] at hr
      rw [if_neg (by omega)] at hr
      right
      cases hloop : lut_store_loop l.lut_base
          (bitmap_find_next_zero_area l.lut_bitmap l.lut_size 0 len) pattern
          (List.range len) l.map with
      | none => rw [hloop] at hr; exact absurd hr (by simp)
      | some map1 =>
        rw [hloop] at hr
        have e := (Option.some.inj hr).symm
        subst e
        refine ⟨h2, rfl, a, b, c, ?_, rfl, rfl, rfl⟩
        dsimp only
        unfold u32
        omega
    · have hi : u32 (bitmap_find_next_zero_area l.lut_bitmap l.lut_size 0 len) =
          bitmap_find_next_zero_area l.lut_bitmap l.lut_size 0 len :=
        Nat.mod_eq_of_lt (by omega)
      rw [hi] at hr
      rw [if_pos (by omega)] at hr
      left
      exact ⟨h2, (Option.some.inj hr).symm, c⟩

/-- `lpg_lut_store` returns whenever the pattern buffer holds `len` entries. -/
theorem lpg_lut_store_some (l : lpg) (pattern : List led_pattern) (len lo_idx hi_idx : Nat)
    (hpat : len ≤ pattern.length) :
    ∃ r, lpg_lut_store l pattern len lo_idx hi_idx = some r := by
  unfold lpg_lut_store
  by_cases h1 : len = 1
  · rw [if_pos h1]; exact ⟨_, rfl⟩
  · rw [if_neg h1]
    simp only []
    split
    · exact ⟨_, rfl⟩
    · obtain ⟨map1, hm⟩ := lut_store_loop_some l.lut_base
        (u32 (bitmap_find_next_zero_area l.lut_bitmap l.lut_size 0 (u32 len))) pattern
        (List.range len) l.map (fun i hi => by
          have := List.mem_range.mp hi
          omega)
      rw [hm]
      exact ⟨_, rfl⟩

/-- C7: for a LUT of size N and a length `len >= 2`, `lpg_lut_store` is
first-fit.  If some index `i` with `i + len <= N` has the bits `i .. i+len-1`
all clear, the call succeeds and returns as `lo_idx` the smallest such index
and `hi_idx = lo_idx + len - 1 < N`; otherwise it returns `-ENOMEM` and leaves
the device and the output indices as they were. -/
theorem lpg_lut_store_first_fit (l : lpg) (pattern : List led_pattern)
    (len lo_idx hi_idx : Nat)
    (hsize : l.lut_size < UINT_MAX) (hlen : 2 ≤ len) (hlen32 : len < 2 ^ 32)
    (hpat : len ≤ pattern.length) :
    ((∃ i, i + len ≤ l.lut_size ∧ ∀ k, k < len → bitmap_test l.lut_bitmap (i + k) = false) →
      ∃ r, lpg_lut_store l pattern len lo_idx hi_idx = some r ∧ r.ret = 0 ∧
        r.lo_idx + len ≤ l.lut_size ∧
        (∀ k, k < len → bitmap_test l.lut_bitmap (r.lo_idx + k) = false) ∧
        (∀ j, j < r.lo_idx →
          ¬ ∀ k, k < len → bitmap_test l.lut_bitmap (j + k) = false) ∧
        r.hi_idx = r.lo_idx + len - 1 ∧ r.hi_idx < l.lut_size) ∧
    ((¬ ∃ i, i + len ≤ l.lut_size ∧ ∀ k, k < len → bitmap_test l.lut_bitmap (i + k) = false) →
      lpg_lut_store l pattern len lo_idx hi_idx = some ⟨-ENOMEM, l, lo_idx, hi_idx⟩) := by
  obtain ⟨r, hr⟩ := lpg_lut_store_some l pattern len lo_idx hi_idx hpat
  rcases lpg_lut_store_cases l pattern len lo_idx hi_idx hsize (by omega) hlen32 r hr with
    ⟨h1, _⟩ | ⟨_, hres, hno⟩ | ⟨_, hret, hfit, hfree, hfirst, hhi, _, _, _⟩
  · omega
  · constructor
    · rintro ⟨i, hi, hclear⟩
      have := hno i hi
      rw [(bitmap_area_free_iff l.lut_bitmap i len).mpr hclear] at this
      exact absurd this (by simp)
    · intro _
      rw [hr, hres]
  · constructor
    · intro _
      refine ⟨r, hr, hret, hfit, (bitmap_area_free_iff _ _ _).mp hfree, ?_, hhi, by omega⟩
      intro j hj hclear
      have := hfirst j hj
      rw [(bitmap_area_free_iff l.lut_bitmap j len).mpr hclear] at this
      exact absurd this (by simp)
    · intro hne
      exfalso
      exact hne ⟨r.lo_idx, hfit, (bitmap_area_free_iff _ _ _).mp hfree⟩

/-- C9: for indices `lo <= hi < N`, `lpg_lut_free(lo, hi)` leaves the device
unchanged when `lo == hi`; otherwise it clears every bit in `lo .. hi`, leaves
every bit outside `lo .. hi` as it was, and touches no other field. -/
theorem lpg_lut_free_frame (l : lpg) (lo_idx hi_idx : Nat)
    (hlo : lo_idx ≤ hi_idx) (hhi : hi_idx < l.lut_size) (hsize : l.lut_size < 2 ^ 32) :
    (lo_idx = hi_idx → lpg_lut_free l lo_idx hi_idx = l) ∧
    (lo_idx ≠ hi_idx →
      (∀ i, lo_idx ≤ i → i ≤ hi_idx →
        bitmap_test (lpg_lut_free l lo_idx hi_idx).lut_bitmap i = false) ∧
      (∀ i, i < lo_idx ∨ hi_idx < i →
        bitmap_test (lpg_lut_free l lo_idx hi_idx).lut_bitmap i = bitmap_test l.lut_bitmap i) ∧
      (lpg_lut_free l lo_idx hi_idx).lut_bitmap.length = l.lut_bitmap.length ∧
      lpg_lut_free l lo_idx hi_idx =
        { l with lut_bitmap := (lpg_lut_free l lo_idx hi_idx).lut_bitmap }) := by
  constructor
  · intro h
    unfold lpg_lut_free
    rw [if_pos h]
  · intro h
    have hlen : u32 (hi_idx + 2 ^ 32 - lo_idx + 1) = hi_idx - lo_idx + 1 := by
      unfold u32
      omega
    have e : lpg_lut_free l lo_idx hi_idx =
        { l with lut_bitmap := bitmap_clear l.lut_bitmap lo_idx (hi_idx - lo_idx + 1) } := by
      unfold lpg_lut_free
      rw [if_neg h]
      simp only [hlen]
    rw [e]
    refine ⟨?_, ?_, ?_, rfl⟩
    · intro i h1 h2
      show bitmap_test (bitmap_clear _ _ _) i = false
      rw [bitmap_clear_test, if_pos ⟨h1, by omega⟩]
    · intro i hi
      show bitmap_test (bitmap_clear _ _ _) i = _
      rw [bitmap_clear_test, if_neg (by omega)]
    · show (bitmap_clear _ _ _).length = _
      unfold bitmap_clear
      exact bitmap_fill_length _ _ _ _ _

theorem lut_inv_init (lut_base N : Nat) : lut_inv N (lpg_lut_init lut_base N) [] := by
  refine ⟨rfl, ?_, ?_, List.Pairwise.nil, ?_⟩
  · simp [lpg_lut_init]
  · intro i
    have : bitmap_test (lpg_lut_init lut_base N).lut_bitmap i = false := by
      simp only [lpg_lut_init, bitmap_test, List.getD_eq_getElem?_getD, List.getElem?_replicate]
      split <;> rfl
    rw [this]
    simp
  · intro r hr
    exact absurd hr (List.not_mem_nil r)

theorem erase_cover (held : List (Nat × Nat)) :
    ∀ (k : Nat) (q : Nat × Nat), held.Pairwise ranges_disjoint → held[k]? = some q →
      ∀ i, (∃ r ∈ held.eraseIdx k, in_range r i) ↔
        ((∃ r ∈ held, in_range r i) ∧ ¬ in_range q i) := by
  induction held with
  | nil => intro k q _ h; simp at h
  | cons a t ih =>
    intro k q hp hq i
    rw [List.pairwise_cons] at hp
    cases k with
    | zero =>
      simp only [List.getElem?_cons_zero, Option.some.injEq] at hq
      subst hq
      simp only [List.eraseIdx_cons_zero, List.mem_cons, exists_eq_or_imp]
      constructor
      · rintro ⟨r, hr, hin⟩
        refine ⟨Or.inr ⟨r, hr, hin⟩, ?_⟩
        intro ha
        have := hp.1 r hr
        unfold in_range at hin ha
        unfold ranges_disjoint at this
        omega
      · rintro ⟨h1 | h1, h2⟩
        · exact absurd h1 h2
        · exact h1
    | succ k =>
      simp only [List.getElem?_cons_succ] at hq
      have hmem : q ∈ t := List.getElem?_mem hq
      have := ih k q hp.2 hq i
      simp only [List.eraseIdx_cons_succ, List.mem_cons, exists_eq_or_imp]
      rw [this]
      constructor
      · rintro (h1 | ⟨h1, h2⟩)
        · refine ⟨Or.inl h1, ?_⟩
          intro hqi
          have := hp.1 q hmem
          unfold in_range at h1 hqi
          unfold ranges_disjoint at this
          omega
        · exact ⟨Or.inr h1, h2⟩
      · rintro ⟨h1 | h1, h2⟩
        · exact Or.inl h1
        · exact Or.inr ⟨h1, h2⟩

/-- A successful store returns a range that is disjoint from every held range
and keeps the allocator invariant; a failed store changes nothing. -/
theorem lut_inv_store (N : Nat) (l : lpg) (held : List (Nat × Nat))
    (pattern : List led_pattern) (len : Nat) (r : lut_store_result)
    (hN : N < UINT_MAX) (hlen : 1 ≤ len) (hlen32 : len < 2 ^ 32)
    (hinv : lut_inv N l held) (hr : lpg_lut_store l pattern len 0 0 = some r) :
    (r.ret = 0 ∧ (∀ h ∈ held, ranges_disjoint (r.lo_idx, r.hi_idx) h) ∧
      lut_inv N r.lpg ((r.lo_idx, r.hi_idx) :: held)) ∨
    (r.ret ≠ 0 ∧ r.lpg = l) := by
  obtain ⟨hsz, hlength, hbits, hpw, hwf⟩ := hinv
  rcases lpg_lut_store_cases l pattern len 0 0 (by rw [hsz]; exact hN) hlen hlen32 r hr with
    ⟨_, hres⟩ | ⟨_, hres, _⟩ | ⟨h2, hret, hfit, hfree, _, hhi, hbm, hsize, _⟩
  · right; subst hres; exact ⟨by simp [EINVAL], rfl⟩
  · right; subst hres; exact ⟨by simp [ENOMEM], rfl⟩
  · left
    rw [bitmap_area_free_iff] at hfree
    have hdisj : ∀ h ∈ held, ranges_disjoint (r.lo_idx, r.hi_idx) h := by
      intro h hh
      have hw := hwf h hh
      unfold ranges_disjoint
      by_contra hcon
      have hset : bitmap_test l.lut_bitmap (max r.lo_idx h.1) = true :=
        (hbits _).mpr ⟨h, hh, by unfold in_range; omega⟩
      have hclear := hfree (max r.lo_idx h.1 - r.lo_idx) (by omega)
      have e : r.lo_idx + (max r.lo_idx h.1 - r.lo_idx) = max r.lo_idx h.1 := by omega
      rw [e, hset] at hclear
      exact absurd hclear (by simp)
    refine ⟨hret, hdisj, ?_⟩
    refine ⟨by rw [hsize, hsz], ?_, ?_, ?_, ?_⟩
    · rw [hbm]
      unfold bitmap_set
      rw [bitmap_fill_length, hlength]
    · intro i
      rw [hbm, bitmap_set_test _ _ _ _ (by omega)]
      simp only [List.mem_cons, exists_eq_or_imp]
      by_cases hi : r.lo_idx ≤ i ∧ i < r.lo_idx + len
      · rw [if_pos hi]
        simp only [true_iff]
        left
        unfold in_range
        omega
      · rw [if_neg hi, hbits i]
        constructor
        · intro h; exact Or.inr h
        · rintro (h | h)
          · unfold in_range at h
            omega
          · exact h
    · rw [List.pairwise_cons]
      exact ⟨hdisj, hpw⟩
    · intro q hq
      rcases List.mem_cons.mp hq with e | e
      · subst e
        constructor <;> dsimp only <;> omega
      · exact hwf q e

/-- Freeing a held range keeps the allocator invariant. -/
theorem lut_inv_free (N : Nat) (l : lpg) (held : List (Nat × Nat)) (k : Nat) (q : Nat × Nat)
    (hN : N < UINT_MAX) (hinv : lut_inv N l held) (hq : held[k]? = some q) :
    lut_inv N (lpg_lut_free l q.1 q.2) (held.eraseIdx k) := by
  obtain ⟨hsz, hlength, hbits, hpw, hwf⟩ := hinv
  have hmem : q ∈ held := List.getElem?_mem hq
  have hw := hwf q hmem
  unfold UINT_MAX at hN
  have hfr := (lpg_lut_free_frame l q.1 q.2 (by omega) (by omega) (by omega)).2 (by omega)
  obtain ⟨hin, hout, hlen, heq⟩ := hfr
  refine ⟨?_, ?_, ?_, ?_, ?_⟩
  · rw [heq]; exact hsz
  · rw [hlen]; exact hlength
  · intro i
    rw [erase_cover held k q hpw hq i, ← hbits i]
    by_cases hi : in_range q i
    · rw [hin i hi.1 hi.2]
      simp [hi]
    · rw [hout i (by unfold in_range at hi; omega)]
      simp [hi]
  · exact hpw.sublist (List.eraseIdx_sublist held k)
  · intro r hr
    exact hwf r (List.mem_of_mem_eraseIdx hr)

theorem lut_run_preserves (N : Nat) (hN : N < UINT_MAX) (calls : List lut_call) :
    ∀ (l : lpg) (held : List (Nat × Nat)) (l1 : lpg) (held1 : List (Nat × Nat)),
      (∀ pattern len, lut_call.store pattern len ∈ calls → 1 ≤ len ∧ len < 2 ^ 32) →
      lut_inv N l held → lut_run l held calls = some (l1, held1) → lut_inv N l1 held1 := by
  induction calls with
  | nil =>
    intro l held l1 held1 _ hinv hrun
    simp only [lut_run, Option.some.injEq, Prod.mk.injEq] at hrun
    rw [← hrun.1, ← hrun.2]
    exact hinv
  | cons c cs ih =>
    intro l held l1 held1 hc hinv hrun
    have hcs : ∀ pattern len, lut_call.store pattern len ∈ cs → 1 ≤ len ∧ len < 2 ^ 32 :=
      fun p n h => hc p n (List.mem_cons_of_mem _ h)
    cases c with
    | store pattern len =>
      have hl := hc pattern len (List.mem_cons_self _ _)
      simp only [lut_run] at hrun
      cases hs : lpg_lut_store l pattern len 0 0 with
      | none => rw [hs] at hrun; exact absurd hrun (by simp)
      | some r =>
        rw [hs] at hrun
        simp only [] at hrun
        rcases lut_inv_store N l held pattern len r hN hl.1 hl.2 hinv hs with
          ⟨h0, _, hi⟩ | ⟨h0, he⟩
        · rw [if_pos h0] at hrun
          exact ih _ _ _ _ hcs hi hrun
        · rw [if_neg h0, he] at hrun
          exact ih _ _ _ _ hcs hinv hrun
    | free k =>
      simp only [lut_run] at hrun
      cases hq : held[k]? with
      | none => rw [hq] at hrun; exact absurd hrun (by simp)
      | some q =>
        rw [hq] at hrun
        simp only [] at hrun
        exact ih _ _ _ _ hcs (lut_inv_free N l held k q hN hinv hq) hrun

/-- C8: start from the empty bitmap of a LUT with N entries and run any finite
sequence of `lpg_lut_store` calls (of at least one entry) and `lpg_lut_free`
calls, each free releasing a range that an earlier store returned and that is
still held.  In the state reached, a bit is marked used exactly when its index
lies in one of the ranges stored and not yet freed, the held ranges are
pairwise disjoint, and the range any further successful store returns is
disjoint from all ranges still held.  Every prefix of a sequence is a sequence,
so this holds after every step. -/
theorem lut_run_invariant (lut_base N : Nat) (calls : List lut_call) (l : lpg)
    (held : List (Nat × Nat)) (hN : N < UINT_MAX)
    (hcalls : ∀ pattern len, lut_call.store pattern len ∈ calls → 1 ≤ len ∧ len < 2 ^ 32)
    (hrun : lut_run (lpg_lut_init lut_base N) [] calls = some (l, held)) :
    (∀ i, bitmap_test l.lut_bitmap i = true ↔ ∃ r ∈ held, in_range r i) ∧
    held.Pairwise ranges_disjoint ∧
    (∀ pattern len r, 1 ≤ len → len < 2 ^ 32 →
      lpg_lut_store l pattern len 0 0 = some r → r.ret = 0 →
      ∀ h ∈ held, ranges_disjoint (r.lo_idx, r.hi_idx) h) := by
  have hinv := lut_run_preserves N hN calls _ _ l held hcalls (lut_inv_init lut_base N) hrun
  refine ⟨hinv.2.2.1, hinv.2.2.2.1, ?_⟩
  intro pattern len r h1 h2 hs h0
  rcases lut_inv_store N l held pattern len r hN h1 h2 hinv hs with ⟨_, hd, _⟩ | ⟨hne, _⟩
  · exact hd
  · exact absurd h0 hne

set_option maxRecDepth 100000 in
theorem lpg_lut_store_first_fit_witness :
    ∃ r, lpg_lut_store lut_example [⟨100, 10⟩, ⟨100, 50⟩] 2 0 0 = some r ∧ r.ret = 0 ∧
      r.lo_idx + 2 ≤ lut_example.lut_size ∧
      (∀ k, k < 2 → bitmap_test lut_example.lut_bitmap (r.lo_idx + k) = false) ∧
      (∀ j, j < r.lo_idx →
        ¬ ∀ k, k < 2 → bitmap_test lut_example.lut_bitmap (j + k) = false) ∧
      r.hi_idx = r.lo_idx + 2 - 1 ∧ r.hi_idx < lut_example.lut_size :=
  (lpg_lut_store_first_fit lut_example [⟨100, 10⟩, ⟨100, 50⟩] 2 0 0
    (by decide) (by decide) (by decide) (by decide)).1 ⟨3, by decide, by decide⟩

set_option maxRecDepth 100000 in
theorem lpg_lut_free_frame_witness :
    (∀ i, 2 ≤ i → i ≤ 4 → bitmap_test (lpg_lut_free lut_calls_example_final 2 4).lut_bitmap i = false) ∧
    (∀ i, i < 2 ∨ 4 < i →
      bitmap_test (lpg_lut_free lut_calls_example_final 2 4).lut_bitmap i =
        bitmap_test lut_calls_example_final.lut_bitmap i) ∧
    (lpg_lut_free lut_calls_example_final 2 4).lut_bitmap.length =
      lut_calls_example_final.lut_bitmap.length ∧
    lpg_lut_free lut_calls_example_final 2 4 =
      { lut_calls_example_final with
        lut_bitmap := (lpg_lut_free lut_calls_example_final 2 4).lut_bitmap } :=
  (lpg_lut_free_frame lut_calls_example_final 2 4 (by decide) (by decide) (by decide)).2
    (by decide)

set_option maxRecDepth 100000 in
theorem lut_run_invariant_witness :
    (∀ i, bitmap_test lut_calls_example_final.lut_bitmap i = true ↔
      ∃ r ∈ [((2 : Nat), (4 : Nat))], in_range r i) ∧
    [((2 : Nat), (4 : Nat))].Pairwise ranges_disjoint ∧
    (∀ pattern len r, 1 ≤ len → len < 2 ^ 32 →
      lpg_lut_store lut_calls_example_final pattern len 0 0 = some r → r.ret = 0 →
      ∀ h ∈ [((2 : Nat), (4 : Nat))], ranges_disjoint (r.lo_idx, r.hi_idx) h) :=
  lut_run_invariant 0xb000 8 lut_calls_example lut_calls_example_final [(2, 4)]
    (by decide)
    (by
      intro pattern len h
      simp only [lut_calls_example, List.mem_cons, lut_call.store.injEq, List.mem_singleton,
        reduceCtorEq, or_false, List.not_mem_nil] at h
      omega)
    (by decide)

/-! ### The search loop against the exhaustive search -/

theorem lpg_clk_table_bounds (div clk : Nat) (hd : div < NUM_PWM_PREDIV) (hc : clk < NUM_PWM_CLK) :
    0 < lpg_clk_table div clk ∧ lpg_clk_table div clk * 2 ^ 7 < 2 ^ 31 := by
  unfold NUM_PWM_PREDIV at hd
  unfold NUM_PWM_CLK at hc
  interval_cases div <;> interval_cases clk <;> decide

theorem lpg_clk_table_pow_lt (div clk m : Nat) (hd : div < NUM_PWM_PREDIV)
    (hc : clk < NUM_PWM_CLK) (hm : m ≤ 7) :
    lpg_clk_table div clk * 2 ^ m < 2 ^ 31 := by
  have h := (lpg_clk_table_bounds div clk hd hc).2
  have hp : 2 ^ m ≤ 2 ^ 7 := Nat.pow_le_pow_right (by decide) hm
  exact lt_of_le_of_lt (Nat.mul_le_mul_left _ hp) h

theorem lpg_clk_table_pow_mono (div clk m k : Nat) (h : m ≤ k) :
    lpg_clk_table div clk * 2 ^ m ≤ lpg_clk_table div clk * 2 ^ k :=
  Nat.mul_le_mul_left _ (Nat.pow_le_pow_right (by decide) h)

/-- Below `2 ^ 31` the 32-bit expression `abs(period_n - tmp_p)` is the exact
absolute difference. -/
theorem cur_err_eq_abs_diff (period_n tmp_p : Nat) (hp : period_n < 2 ^ 31)
    (ht : tmp_p < 2 ^ 31) : cur_err period_n tmp_p = abs_diff period_n tmp_p := by
  unfold cur_err abs_u32 u32 abs_diff
  split_ifs <;> omega

theorem freq_loop_m_cons (period_n clk div m : Nat) (ms : List Nat) (tmp_p : Nat)
    (s : freq_search) :
    freq_loop_m period_n clk div (m :: ms) tmp_p s =
      if m ≠ 0 ∧ cur_err period_n tmp_p >
          (freq_update clk div m (cur_err period_n tmp_p) s).last_err then
        freq_update clk div m (cur_err period_n tmp_p) s
      else
        freq_loop_m period_n clk div ms (u32 (tmp_p * 2))
          { freq_update clk div m (cur_err period_n tmp_p) s with
            last_err := cur_err period_n tmp_p } := rfl

theorem freq_update_inv (period_n clk div m : Nat) (s : freq_search) (b : freq_triple)
    (hcur : triple_err period_n ⟨clk, div, m⟩ < 2 ^ 31)
    (hpre : search_pre period_n clk div m s b) :
    search_inv period_n (freq_update clk div m (triple_err period_n ⟨clk, div, m⟩) s)
      (spec_step period_n b ⟨clk, div, m⟩) ∧
    (freq_update clk div m (triple_err period_n ⟨clk, div, m⟩) s).last_err = s.last_err ∧
    (freq_update clk div m (triple_err period_n ⟨clk, div, m⟩) s).min_err ≤
      triple_err period_n ⟨clk, div, m⟩ := by
  rcases hpre with ⟨hb, hmin⟩ | ⟨hm, hmin, hb, hb0⟩
  · unfold freq_update spec_step
    rw [hmin]
    by_cases h : triple_err period_n ⟨clk, div, m⟩ < triple_err period_n b
    · rw [if_pos h, if_pos h]
      exact ⟨⟨rfl, rfl⟩, rfl, le_refl _⟩
    · rw [if_neg h, if_neg h]
      exact ⟨⟨hb, hmin⟩, rfl, by omega⟩
  · subst hm
    have hlt : triple_err period_n ⟨clk, div, 0⟩ < s.min_err := by
      rw [hmin]; unfold UINT_MAX; omega
    unfold freq_update spec_step
    rw [if_pos hlt, hb0, if_neg (lt_irrefl _)]
    exact ⟨⟨rfl, rfl⟩, rfl, le_refl _⟩

theorem spec_fold_keep (period_n clk div : Nat) (b : freq_triple) :
    ∀ ms : List Nat,
      (∀ m ∈ ms, triple_err period_n b ≤ triple_err period_n ⟨clk, div, m⟩) →
      ms.foldl (fun b m => spec_step period_n b ⟨clk, div, m⟩) b = b := by
  intro ms
  induction ms with
  | nil => intro _; rfl
  | cons m ms ih =>
    intro h
    have hm := h m (List.mem_cons_self _ _)
    have e : spec_step period_n b ⟨clk, div, m⟩ = b := by
      unfold spec_step
      rw [if_neg (by omega)]
    rw [List.foldl_cons, e]
    exact ih (fun x hx => h x (List.mem_cons_of_mem _ hx))

/-- The innermost loop with its early exit and the exponent loop of the
exhaustive search reach the same best candidate, when all values are below
`2 ^ 31`. -/
theorem freq_loop_m_inv (period_n clk div : Nat) (hpn : period_n < 2 ^ 31)
    (hd : div < NUM_PWM_PREDIV) (hc : clk < NUM_PWM_CLK) :
    ∀ (k m0 : Nat) (s : freq_search) (b : freq_triple), m0 + k = 8 →
      search_pre period_n clk div m0 s b →
      (m0 = 0 ∨ (s.last_err = triple_err period_n ⟨clk, div, m0 - 1⟩ ∧
        s.min_err ≤ s.last_err)) →
      search_inv period_n
        (freq_loop_m period_n clk div (List.range' m0 k) (lpg_clk_table div clk * 2 ^ m0) s)
        ((List.range' m0 k).foldl (fun b m => spec_step period_n b ⟨clk, div, m⟩) b) := by
  intro k
  induction k with
  | zero =>
    intro m0 s b hk hpre _
    rcases hpre with h | ⟨hm, _⟩
    · exact h
    · omega
  | succ k ih =>
    intro m0 s b hk hpre hside
    have hT := lpg_clk_table_pow_lt div clk m0 hd hc (by omega)
    have hcur : cur_err period_n (lpg_clk_table div clk * 2 ^ m0) =
        triple_err period_n ⟨clk, div, m0⟩ := cur_err_eq_abs_diff _ _ hpn hT
    have herr : triple_err period_n ⟨clk, div, m0⟩ < 2 ^ 31 := by
      unfold triple_err abs_diff
      dsimp only
      split_ifs <;> omega
    obtain ⟨hinv1, hlast1, hmin1⟩ := freq_update_inv period_n clk div m0 s b herr hpre
    rw [List.range'_succ, freq_loop_m_cons, List.foldl_cons, hcur]
    by_cases hbrk : m0 ≠ 0 ∧ triple_err period_n ⟨clk, div, m0⟩ >
        (freq_update clk div m0 (triple_err period_n ⟨clk, div, m0⟩) s).last_err
    · rw [if_pos hbrk]
      obtain ⟨hm0, hgt⟩ := hbrk
      rw [hlast1] at hgt
      rcases hside with h0 | ⟨hl, hml⟩
      · exact absurd h0 hm0
      · have hpre1 : search_inv period_n s b := by
          rcases hpre with h | ⟨hm, _⟩
          · exact h
          · exact absurd hm hm0
        have hpow : lpg_clk_table div clk * 2 ^ m0 =
            2 * (lpg_clk_table div clk * 2 ^ (m0 - 1)) := by
          have : m0 = (m0 - 1) + 1 := by omega
          conv_lhs => rw [this, pow_succ]
          ring
        have hbig : period_n < lpg_clk_table div clk * 2 ^ m0 := by
          rw [hl] at hgt
          unfold triple_err abs_diff at hgt
          dsimp only at hgt
          split_ifs at hgt <;> omega
        have hkeep := spec_fold_keep period_n clk div
          (spec_step period_n b ⟨clk, div, m0⟩) (List.range' (m0 + 1) k) (by
            intro m hm
            have hmr := List.mem_range'_1.mp hm
            have hmono := lpg_clk_table_pow_mono div clk m0 m (by omega)
            have e1 : triple_err period_n (spec_step period_n b ⟨clk, div, m0⟩) ≤
                triple_err period_n ⟨clk, div, m0⟩ := by
              rw [← hinv1.2]; exact hmin1
            have e2 : triple_err period_n ⟨clk, div, m0⟩ ≤ triple_err period_n ⟨clk, div, m⟩ := by
              unfold triple_err abs_diff
              dsimp only
              split_ifs <;> omega
            omega)
        rw [hkeep]
        exact hinv1
    · rw [if_neg hbrk]
      have hu : u32 (lpg_clk_table div clk * 2 ^ m0 * 2) = lpg_clk_table div clk * 2 ^ (m0 + 1) := by
        have e : lpg_clk_table div clk * 2 ^ (m0 + 1) = lpg_clk_table div clk * 2 ^ m0 * 2 := by
          rw [pow_succ, Nat.mul_assoc]
        rw [e]
        unfold u32
        apply Nat.mod_eq_of_lt
        omega
      rw [hu]
      apply ih (m0 + 1) _ _ (by omega)
      · left
        exact ⟨hinv1.1, hinv1.2⟩
      · right
        exact ⟨rfl, hmin1⟩

theorem foldl_three {α β : Type} (f : β → α → β) (s : β) (a b c : α) :
    [a, b, c].foldl f s = f (f (f s a) b) c := rfl

theorem foldl_four {α β : Type} (f : β → α → β) (s : β) (a b c d : α) :
    [a, b, c, d].foldl f s = f (f (f (f s a) b) c) d := rfl

theorem freq_div_step_inv (period_n clk div : Nat) (hpn : period_n < 2 ^ 31)
    (hd : div < NUM_PWM_PREDIV) (hc : clk < NUM_PWM_CLK) (s : freq_search) (b : freq_triple)
    (hpre : search_pre period_n clk div 0 s b) :
    search_inv period_n
      (freq_loop_m period_n clk div (List.range (NUM_EXP + 1)) (lpg_clk_table div clk) s)
      (spec_loop_m period_n clk div b) := by
  have h := freq_loop_m_inv period_n clk div hpn hd hc 8 0 s b rfl hpre (Or.inl rfl)
  have e : List.range (NUM_EXP + 1) = List.range' 0 8 := by
    unfold NUM_EXP
    exact List.range_eq_range' _
  unfold spec_loop_m
  rw [e]
  rw [pow_zero, Nat.mul_one] at h
  exact h

theorem freq_loop_div_inv (period_n clk : Nat) (hpn : period_n < 2 ^ 31)
    (hc : clk < NUM_PWM_CLK) (s : freq_search) (b : freq_triple)
    (hpre : search_pre period_n clk 0 0 s b) :
    search_inv period_n (freq_loop_div period_n clk s) (spec_loop_div period_n clk b) := by
  have e : List.range NUM_PWM_PREDIV = [0, 1, 2, 3] := by decide
  unfold freq_loop_div spec_loop_div
  rw [e, foldl_four, foldl_four]
  have h0 := freq_div_step_inv period_n clk 0 hpn (by decide) hc s b hpre
  have h1 := freq_div_step_inv period_n clk 1 hpn (by decide) hc _ _ (Or.inl h0)
  have h2 := freq_div_step_inv period_n clk 2 hpn (by decide) hc _ _ (Or.inl h1)
  have h3 := freq_div_step_inv period_n clk 3 hpn (by decide) hc _ _ (Or.inl h2)
  exact h3

/-- Below `2 ^ 31` the search loop of `lpg_calc_freq`, early exit included,
ends with the candidate that the exhaustive search selects, and `min_err` is
the error of that candidate. -/
theorem freq_search_run_inv (period_n : Nat) (hpn : period_n < 2 ^ 31) :
    search_inv period_n (freq_search_run period_n) (exhaustive_search period_n) := by
  have e : List.range NUM_PWM_CLK = [0, 1, 2] := by decide
  unfold freq_search_run exhaustive_search
  rw [e, foldl_three, foldl_three]
  have h0 := freq_loop_div_inv period_n 0 hpn (by decide)
    { min_err := UINT_MAX, last_err := UINT_MAX, best_m := 0, best_clk := 0, best_div := 0 }
    ⟨0, 0, 0⟩ (Or.inr ⟨rfl, rfl, rfl, rfl⟩)
  have h1 := freq_loop_div_inv period_n 1 hpn (by decide) _ _ (Or.inl h0)
  have h2 := freq_loop_div_inv period_n 2 hpn (by decide) _ _ (Or.inl h1)
  exact h2

theorem fold_min {α C : Type} (err : C → Nat) (S : α → C → Prop) (step : C → α → C)
    (h1 : ∀ b x, err (step b x) ≤ err b)
    (h2 : ∀ b x c, S x c → err (step b x) ≤ err c)
    (h3 : ∀ b x, step b x = b ∨ S x (step b x)) :
    ∀ (xs : List α) (b : C),
      err (xs.foldl step b) ≤ err b ∧
      (∀ x ∈ xs, ∀ c, S x c → err (xs.foldl step b) ≤ err c) ∧
      (xs.foldl step b = b ∨ ∃ x ∈ xs, S x (xs.foldl step b)) := by
  intro xs
  induction xs with
  | nil =>
    intro b
    refine ⟨le_refl _, ?_, Or.inl rfl⟩
    intro x hx
    exact absurd hx (List.not_mem_nil x)
  | cons a xs ih =>
    intro b
    obtain ⟨i1, i2, i3⟩ := ih (step b a)
    rw [List.foldl_cons]
    refine ⟨le_trans i1 (h1 b a), ?_, ?_⟩
    · intro x hx c hc
      rcases List.mem_cons.mp hx with e | e
      · subst e
        exact le_trans i1 (h2 b x c hc)
      · exact i2 x e c hc
    · rcases i3 with e | ⟨x, hx, hs⟩
      · rw [e]
        rcases h3 b a with e2 | e2
        · left; exact e2
        · right; exact ⟨a, List.mem_cons_self _ _, e2⟩
      · right
        exact ⟨x, List.mem_cons_of_mem _ hx, hs⟩

theorem spec_step_le_left (period_n : Nat) (b c : freq_triple) :
    triple_err period_n (spec_step period_n b c) ≤ triple_err period_n b := by
  unfold spec_step
  split_ifs <;> omega

theorem spec_step_le_right (period_n : Nat) (b c : freq_triple) :
    triple_err period_n (spec_step period_n b c) ≤ triple_err period_n c := by
  unfold spec_step
  split_ifs <;> omega

theorem spec_step_cases (period_n : Nat) (b c : freq_triple) :
    spec_step period_n b c = b ∨ spec_step period_n b c = c := by
  unfold spec_step
  split_ifs
  · right; rfl
  · left; rfl

theorem spec_loop_m_min (period_n clk div : Nat) (b : freq_triple) :
    triple_err period_n (spec_loop_m period_n clk div b) ≤ triple_err period_n b ∧
    (∀ m, m ≤ NUM_EXP →
      triple_err period_n (spec_loop_m period_n clk div b) ≤
        triple_err period_n ⟨clk, div, m⟩) ∧
    (spec_loop_m period_n clk div b = b ∨
      ∃ m, m ≤ NUM_EXP ∧ spec_loop_m period_n clk div b = ⟨clk, div, m⟩) := by
  have h := fold_min (triple_err period_n)
    (fun (m : Nat) (c : freq_triple) => c = ⟨clk, div, m⟩)
    (fun b m => spec_step period_n b ⟨clk, div, m⟩)
    (fun b m => spec_step_le_left period_n b ⟨clk, div, m⟩)
    (fun b m c hc => by
      rw [hc]
      exact spec_step_le_right period_n b ⟨clk, div, m⟩)
    (fun b m => spec_step_cases period_n b ⟨clk, div, m⟩)
    (List.range (NUM_EXP + 1)) b
  obtain ⟨a1, a2, a3⟩ := h
  refine ⟨a1, ?_, ?_⟩
  · intro m hm
    exact a2 m (List.mem_range.mpr (by omega)) _ rfl
  · rcases a3 with e | ⟨m, hm, e⟩
    · left; exact e
    · right
      have := List.mem_range.mp hm
      exact ⟨m, by omega, e⟩

theorem spec_loop_div_min (period_n clk : Nat) (b : freq_triple) :
    triple_err period_n (spec_loop_div period_n clk b) ≤ triple_err period_n b ∧
    (∀ div m, div < NUM_PWM_PREDIV → m ≤ NUM_EXP →
      triple_err period_n (spec_loop_div period_n clk b) ≤
        triple_err period_n ⟨clk, div, m⟩) ∧
    (spec_loop_div period_n clk b = b ∨
      ∃ div m, div < NUM_PWM_PREDIV ∧ m ≤ NUM_EXP ∧
        spec_loop_div period_n clk b = ⟨clk, div, m⟩) := by
  have h := fold_min (triple_err period_n)
    (fun (div : Nat) (c : freq_triple) => ∃ m, m ≤ NUM_EXP ∧ c = ⟨clk, div, m⟩)
    (fun b div => spec_loop_m period_n clk div b)
    (fun b div => (spec_loop_m_min period_n clk div b).1)
    (by
      intro b div c hc
      obtain ⟨m, hm, e⟩ := hc
      rw [e]
      exact (spec_loop_m_min period_n clk div b).2.1 m hm)
    (fun b div => (spec_loop_m_min period_n clk div b).2.2)
    (List.range NUM_PWM_PREDIV) b
  obtain ⟨a1, a2, a3⟩ := h
  refine ⟨a1, ?_, ?_⟩
  · intro div m hd hm
    exact a2 div (List.mem_range.mpr hd) _ ⟨m, hm, rfl⟩
  · rcases a3 with e | ⟨div, hd, m, hm, e⟩
    · left; exact e
    · right
      exact ⟨div, m, List.mem_range.mp hd, hm, e⟩

/-- The exhaustive search returns a candidate within the table whose error is
at most the error of every one of the `3 x 4 x 8` candidates. -/
theorem exhaustive_search_min (period_n : Nat) :
    (exhaustive_search period_n).clk < NUM_PWM_CLK ∧
    (exhaustive_search period_n).div < NUM_PWM_PREDIV ∧
    (exhaustive_search period_n).m ≤ NUM_EXP ∧
    ∀ clk div m, clk < NUM_PWM_CLK → div < NUM_PWM_PREDIV → m ≤ NUM_EXP →
      triple_err period_n (exhaustive_search period_n) ≤ triple_err period_n ⟨clk, div, m⟩ := by
  have h := fold_min (triple_err period_n)
    (fun (clk : Nat) (c : freq_triple) =>
      ∃ div m, div < NUM_PWM_PREDIV ∧ m ≤ NUM_EXP ∧ c = ⟨clk, div, m⟩)
    (fun b clk => spec_loop_div period_n clk b)
    (fun b clk => (spec_loop_div_min period_n clk b).1)
    (by
      intro b clk c hc
      obtain ⟨div, m, hd, hm, e⟩ := hc
      rw [e]
      exact (spec_loop_div_min period_n clk b).2.1 div m hd hm)
    (fun b clk => (spec_loop_div_min period_n clk b).2.2)
    (List.range NUM_PWM_CLK) ⟨0, 0, 0⟩
  obtain ⟨_, a2, a3⟩ := h
  have hr : (exhaustive_search period_n).clk < NUM_PWM_CLK ∧
      (exhaustive_search period_n).div < NUM_PWM_PREDIV ∧
      (exhaustive_search period_n).m ≤ NUM_EXP := by
    rcases a3 with e | ⟨clk, hc, div, m, hd, hm, e⟩
    · have e1 : exhaustive_search period_n = ⟨0, 0, 0⟩ := e
      rw [e1]
      exact ⟨by decide, by decide, by decide⟩
    · have e1 : exhaustive_search period_n = ⟨clk, div, m⟩ := e
      rw [e1]
      exact ⟨List.mem_range.mp hc, hd, hm⟩
  refine ⟨hr.1, hr.2.1, hr.2.2, ?_⟩
  intro clk div m hc hd hm
  exact a2 clk (List.mem_range.mpr hc) _ ⟨div, m, hd, hm, rfl⟩

theorem freq_start_n_cases (period_us : Nat) :
    (period_us < 4294967 ∧ freq_start_n period_us = 6) ∨
    (4294967 ≤ period_us ∧ freq_start_n period_us = 9) := by
  unfold freq_start_n UINT_MAX NSEC_PER_USEC
  by_cases h : period_us < 4294967295 / 1000
  · rw [if_pos h]; left; exact ⟨by omega, rfl⟩
  · rw [if_neg h]; right; exact ⟨by omega, rfl⟩

/-- For a period below `2 ^ 40` ns the 32-bit `period_n` of the code is the
exact quotient `P_ns / 2^n`, and it is below `2 ^ 31`. -/
theorem freq_period_n_exact (period_us : Nat) (hP : period_us * NSEC_PER_USEC < 2 ^ 40) :
    freq_period_n period_us = spec_period_n period_us ∧ spec_period_n period_us < 2 ^ 31 := by
  unfold freq_period_n spec_period_n u32 u64
  unfold NSEC_PER_USEC at hP ⊢
  have h64 : period_us * 1000 % 2 ^ 64 = period_us * 1000 := Nat.mod_eq_of_lt (by omega)
  rw [Nat.shiftRight_eq_div_pow, h64]
  rcases freq_start_n_cases period_us with ⟨h, e⟩ | ⟨h, e⟩
  · rw [e]
    have hq : period_us * 1000 / 2 ^ 6 < 2 ^ 31 := by omega
    exact ⟨Nat.mod_eq_of_lt (by omega), hq⟩
  · rw [e]
    have hq : period_us * 1000 / 2 ^ 9 < 2 ^ 31 := by omega
    exact ⟨Nat.mod_eq_of_lt (by omega), hq⟩

theorem abs_diff_scale (n x a b : Nat) (hn : n = 6 ∨ n = 9)
    (h : abs_diff (x / 2 ^ n) a ≤ abs_diff (x / 2 ^ n) b) :
    abs_diff x (a * 2 ^ n) ≤ abs_diff x (b * 2 ^ n) + 2 * (2 ^ n - 1) := by
  unfold abs_diff at h ⊢
  rcases hn with e | e
  · subst e
    split_ifs at h ⊢ <;> omega
  · subst e
    split_ifs at h ⊢ <;> omega

theorem lpg_calc_freq_fields (chan : lpg_channel) (period_us : Nat)
    (hne : period_us ≠ chan.period_us) (s : freq_search)
    (hs : freq_search_run (freq_period_n period_us) = s) :
    lpg_calc_freq chan period_us =
      { chan with
        clk := s.best_clk, pre_div := s.best_div,
        pre_div_exp := if decide (s.best_m ≥ 3 ∧ freq_start_n period_us = 6) = true
          then s.best_m - 3 else s.best_m,
        pwm_size := if decide (s.best_m ≥ 3 ∧ freq_start_n period_us = 6) = true
          then freq_start_n period_us + 3 else freq_start_n period_us,
        period_us := period_us } := by
  unfold lpg_calc_freq
  split
  · contradiction
  · rw [hs]

/-- What `lpg_calc_freq` stores, in terms of the search result `best_m` and
the starting resolution `n`: the exponent and the resolution add up to
`best_m + n`, the resolution is 6 or 9, the exponent at most `best_m`. -/
theorem lpg_calc_freq_stored (chan : lpg_channel) (period_us : Nat)
    (hne : period_us ≠ chan.period_us) (s : freq_search)
    (hs : freq_search_run (freq_period_n period_us) = s) :
    (lpg_calc_freq chan period_us).clk = s.best_clk ∧
    (lpg_calc_freq chan period_us).pre_div = s.best_div ∧
    (lpg_calc_freq chan period_us).pre_div_exp + (lpg_calc_freq chan period_us).pwm_size =
      s.best_m + freq_start_n period_us ∧
    (lpg_calc_freq chan period_us).pre_div_exp ≤ s.best_m ∧
    ((lpg_calc_freq chan period_us).pwm_size = 6 ∨
      (lpg_calc_freq chan period_us).pwm_size = 9) := by
  rw [lpg_calc_freq_fields chan period_us hne s hs]
  dsimp only
  refine ⟨rfl, rfl, ?_⟩
  rcases freq_start_n_cases period_us with ⟨_, e⟩ | ⟨_, e⟩
  · rw [e]
    by_cases h : s.best_m ≥ 3
    · have hd : decide (s.best_m ≥ 3 ∧ 6 = 6) = true := decide_eq_true ⟨h, rfl⟩
      rw [if_pos hd, if_pos hd]
      omega
    · have hd : ¬ decide (s.best_m ≥ 3 ∧ 6 = 6) = true := by
        intro hh
        exact h (of_decide_eq_true hh).1
      rw [if_neg hd, if_neg hd]
      omega
  · rw [e]
    have hd : ¬ decide (s.best_m ≥ 3 ∧ 9 = 6) = true := by
      intro hh
      exact absurd (of_decide_eq_true hh).2 (by decide)
    rw [if_neg hd, if_neg hd]
    omega

theorem freq_min_err_core (P n pn : Nat) (c : lpg_channel) (s : freq_search)
    (hn : n = 6 ∨ n = 9) (hpn : pn = P / 2 ^ n)
    (r1 : s.best_clk < NUM_PWM_CLK) (r2 : s.best_div < NUM_PWM_PREDIV)
    (r3 : s.best_m ≤ NUM_EXP)
    (rmin : ∀ clk div m, clk < NUM_PWM_CLK → div < NUM_PWM_PREDIV → m ≤ NUM_EXP →
      abs_diff pn (lpg_clk_table s.best_div s.best_clk * 2 ^ s.best_m) ≤
        abs_diff pn (lpg_clk_table div clk * 2 ^ m))
    (hclk : c.clk = s.best_clk) (hdiv : c.pre_div = s.best_div)
    (hsum : c.pre_div_exp + c.pwm_size = s.best_m + n)
    (hexp : c.pre_div_exp ≤ s.best_m) (hsize : c.pwm_size = 6 ∨ c.pwm_size = 9) :
    ∃ m, m ≤ NUM_EXP ∧ c.clk < NUM_PWM_CLK ∧ c.pre_div < NUM_PWM_PREDIV ∧
      c.pre_div_exp ≤ NUM_EXP ∧ (c.pwm_size = 6 ∨ c.pwm_size = 9) ∧
      c.pre_div_exp + c.pwm_size = m + n ∧
      chan_period_ns c = combo_period_ns c.clk c.pre_div m n ∧
      (∀ clk div m1, clk < NUM_PWM_CLK → div < NUM_PWM_PREDIV → m1 ≤ NUM_EXP →
        abs_diff pn (lpg_clk_table c.pre_div c.clk * 2 ^ m) ≤
          abs_diff pn (lpg_clk_table div clk * 2 ^ m1)) ∧
      (∀ clk div m1, clk < NUM_PWM_CLK → div < NUM_PWM_PREDIV → m1 ≤ NUM_EXP →
        abs_diff P (chan_period_ns c) ≤
          abs_diff P (combo_period_ns clk div m1 n) + 2 * (2 ^ n - 1)) := by
  have hper : chan_period_ns c = combo_period_ns s.best_clk s.best_div s.best_m n := by
    unfold chan_period_ns combo_period_ns
    rw [hclk, hdiv, Nat.mul_assoc, ← pow_add, hsum, pow_add, ← Nat.mul_assoc]
  refine ⟨s.best_m, r3, ?_, ?_, le_trans hexp r3, hsize, hsum, ?_, ?_, ?_⟩
  · rw [hclk]; exact r1
  · rw [hdiv]; exact r2
  · rw [hper, hclk, hdiv]
  · rw [hclk, hdiv]
    exact rmin
  · intro clk div m1 hc hd hm
    rw [hper]
    unfold combo_period_ns
    have h := rmin clk div m1 hc hd hm
    rw [hpn] at h
    exact abs_diff_scale n P _ _ hn h

theorem exhaustive_search_best (period_n : Nat) (s : freq_search)
    (hinv : search_inv period_n s (exhaustive_search period_n)) :
    s.best_clk < NUM_PWM_CLK ∧ s.best_div < NUM_PWM_PREDIV ∧ s.best_m ≤ NUM_EXP ∧
    ∀ clk div m, clk < NUM_PWM_CLK → div < NUM_PWM_PREDIV → m ≤ NUM_EXP →
      abs_diff period_n (lpg_clk_table s.best_div s.best_clk * 2 ^ s.best_m) ≤
        abs_diff period_n (lpg_clk_table div clk * 2 ^ m) := by
  have h := exhaustive_search_min period_n
  rw [hinv.1] at h
  exact h

/-- C1 (amended): for every requested period `P` different from the cached
one and below `2 ^ 40` ns (which covers the representable range, at most
384 s), `lpg_calc_freq` stores a clock, pre-divider, exponent and resolution
such that, with `n` the resolution the search starts with (6 below
`UINT_MAX / 1000` us, else 9) and `m = pre_div_exp + pwm_size - n` the exponent
the search found: `m <= 7`, the resolution is 6 or 9, the reconstructed period
is `clock_period * pre_divider * 2^m * 2^n`, and the error
`|floor(P_ns / 2^n) - clock_period * pre_divider * 2^m|` is at most that of
every candidate (clock, pre-divider, exponent in 0..7).  In nanoseconds, the
error of the stored combination exceeds the error of no such candidate at
resolution `n` by more than `2 * (2^n - 1)`. -/
theorem lpg_calc_freq_min_err (chan : lpg_channel) (period_us : Nat)
    (hne : period_us ≠ chan.period_us) (hP : period_us * NSEC_PER_USEC < 2 ^ 40) :
    ∃ m, m ≤ NUM_EXP ∧
      (lpg_calc_freq chan period_us).clk < NUM_PWM_CLK ∧
      (lpg_calc_freq chan period_us).pre_div < NUM_PWM_PREDIV ∧
      (lpg_calc_freq chan period_us).pre_div_exp ≤ NUM_EXP ∧
      ((lpg_calc_freq chan period_us).pwm_size = 6 ∨
        (lpg_calc_freq chan period_us).pwm_size = 9) ∧
      (lpg_calc_freq chan period_us).pre_div_exp + (lpg_calc_freq chan period_us).pwm_size =
        m + freq_start_n period_us ∧
      chan_period_ns (lpg_calc_freq chan period_us) =
        combo_period_ns (lpg_calc_freq chan period_us).clk
          (lpg_calc_freq chan period_us).pre_div m (freq_start_n period_us) ∧
      (∀ clk div m1, clk < NUM_PWM_CLK → div < NUM_PWM_PREDIV → m1 ≤ NUM_EXP →
        abs_diff (spec_period_n period_us)
            (lpg_clk_table (lpg_calc_freq chan period_us).pre_div
              (lpg_calc_freq chan period_us).clk * 2 ^ m) ≤
          abs_diff (spec_period_n period_us) (lpg_clk_table div clk * 2 ^ m1)) ∧
      (∀ clk div m1, clk < NUM_PWM_CLK → div < NUM_PWM_PREDIV → m1 ≤ NUM_EXP →
        abs_diff (period_us * NSEC_PER_USEC) (chan_period_ns (lpg_calc_freq chan period_us)) ≤
          abs_diff (period_us * NSEC_PER_USEC)
            (combo_period_ns clk div m1 (freq_start_n period_us)) +
          2 * (2 ^ freq_start_n period_us - 1)) := by
  obtain ⟨hpn, hlt⟩ := freq_period_n_exact period_us hP
  have hinv := freq_search_run_inv (freq_period_n period_us) (by rw [hpn]; exact hlt)
  have hb := exhaustive_search_best (freq_period_n period_us) _ hinv
  have hst := lpg_calc_freq_stored chan period_us hne
    (freq_search_run (freq_period_n period_us)) rfl
  have hn : freq_start_n period_us = 6 ∨ freq_start_n period_us = 9 := by
    rcases freq_start_n_cases period_us with ⟨_, e⟩ | ⟨_, e⟩
    · left; exact e
    · right; exact e
  have hq : freq_period_n period_us =
      period_us * NSEC_PER_USEC / 2 ^ freq_start_n period_us := hpn
  have hcore := freq_min_err_core (period_us * NSEC_PER_USEC) (freq_start_n period_us)
    (freq_period_n period_us) (lpg_calc_freq chan period_us)
    (freq_search_run (freq_period_n period_us)) hn hq
    hb.1 hb.2.1 hb.2.2.1 hb.2.2.2 hst.1 hst.2.1 hst.2.2.1 hst.2.2.2.1 hst.2.2.2.2
  rw [hpn] at hcore
  exact hcore

set_option maxRecDepth 100000 in
theorem lpg_calc_freq_min_err_witness :
    ∃ m, m ≤ NUM_EXP ∧
      (lpg_calc_freq lpg_channel_zero 1000).clk < NUM_PWM_CLK ∧
      (lpg_calc_freq lpg_channel_zero 1000).pre_div < NUM_PWM_PREDIV ∧
      (lpg_calc_freq lpg_channel_zero 1000).pre_div_exp ≤ NUM_EXP ∧
      ((lpg_calc_freq lpg_channel_zero 1000).pwm_size = 6 ∨
        (lpg_calc_freq lpg_channel_zero 1000).pwm_size = 9) ∧
      (lpg_calc_freq lpg_channel_zero 1000).pre_div_exp +
          (lpg_calc_freq lpg_channel_zero 1000).pwm_size =
        m + freq_start_n 1000 ∧
      chan_period_ns (lpg_calc_freq lpg_channel_zero 1000) =
        combo_period_ns (lpg_calc_freq lpg_channel_zero 1000).clk
          (lpg_calc_freq lpg_channel_zero 1000).pre_div m (freq_start_n 1000) ∧
      (∀ clk div m1, clk < NUM_PWM_CLK → div < NUM_PWM_PREDIV → m1 ≤ NUM_EXP →
        abs_diff (spec_period_n 1000)
            (lpg_clk_table (lpg_calc_freq lpg_channel_zero 1000).pre_div
              (lpg_calc_freq lpg_channel_zero 1000).clk * 2 ^ m) ≤
          abs_diff (spec_period_n 1000) (lpg_clk_table div clk * 2 ^ m1)) ∧
      (∀ clk div m1, clk < NUM_PWM_CLK → div < NUM_PWM_PREDIV → m1 ≤ NUM_EXP →
        abs_diff (1000 * NSEC_PER_USEC) (chan_period_ns (lpg_calc_freq lpg_channel_zero 1000)) ≤
          abs_diff (1000 * NSEC_PER_USEC) (combo_period_ns clk div m1 (freq_start_n 1000)) +
          2 * (2 ^ freq_start_n 1000 - 1)) :=
  lpg_calc_freq_min_err lpg_channel_zero 1000 (by decide) (by decide)

set_option maxRecDepth 100000 in
/-- C1 (counterexample): for the requested period 3408 us, which lies in the
representable range, `lpg_calc_freq` stores clock 1, pre-divider index 0,
exponent 1, resolution 6, a period of 3906176 ns with error 498176 ns, whereas
the representable combination clock 2, pre-divider index 0, exponent 7,
resolution 9 gives 3407872 ns with error 128 ns. -/
theorem lpg_calc_freq_not_global_min :
    (3408 : Nat) ≠ lpg_channel_zero.period_us ∧
    chan_period_ns (lpg_calc_freq lpg_channel_zero 3408) = 3906176 ∧
    combo_period_ns 2 0 7 9 = 3407872 ∧
    ¬ (abs_diff (3408 * NSEC_PER_USEC) (chan_period_ns (lpg_calc_freq lpg_channel_zero 3408)) ≤
        abs_diff (3408 * NSEC_PER_USEC) (combo_period_ns 2 0 7 9)) := by
  decide

set_option maxRecDepth 100000 in
/-- Rounding in the search: for the requested period 5 us the candidates
`52 ns * 2^0` and `52 ns * 2^1` have the same error against
`floor(5000 / 64) = 78`, the first one found is kept, and its period of
3328 ns is further from 5000 ns than the 6656 ns of the other. -/
theorem lpg_calc_freq_rounding_example :
    chan_period_ns (lpg_calc_freq lpg_channel_zero 5) = 3328 ∧
    combo_period_ns 2 0 1 6 = 6656 ∧
    abs_diff (spec_period_n 5) (lpg_clk_table 0 2 * 2 ^ 0) =
      abs_diff (spec_period_n 5) (lpg_clk_table 0 2 * 2 ^ 1) ∧
    abs_diff (5 * NSEC_PER_USEC) (combo_period_ns 2 0 1 6) <
      abs_diff (5 * NSEC_PER_USEC) (chan_period_ns (lpg_calc_freq lpg_channel_zero 5)) := by
  decide

set_option maxRecDepth 100000 in
/-- C2: for the requested period 2199023307 us the quotient `P_ns >> 9` is
`2^32 + 100`, which the `unsigned int period_n` of the code holds as 100.
The search loop of `lpg_calc_freq` then ends with clock 2, pre-divider index
0, exponent 1, whereas the exhaustive search for the smallest
`|P_ns / 2^n - clk_table[div][clk] * 2^m|` selects clock 0, pre-divider index
3, exponent 7. -/
theorem freq_search_truncated_period :
    freq_start_n 2199023307 = 9 ∧
    spec_period_n 2199023307 = 2 ^ 32 + 100 ∧
    freq_period_n 2199023307 = 100 ∧
    (freq_search_run (freq_period_n 2199023307)).best_clk = 2 ∧
    (freq_search_run (freq_period_n 2199023307)).best_div = 0 ∧
    (freq_search_run (freq_period_n 2199023307)).best_m = 1 ∧
    exhaustive_search (spec_period_n 2199023307) = ⟨0, 3, 7⟩ := by
  decide

/-! ### Range of the search result and stored resolution -/

theorem freq_loop_m_range (period_n clk div : Nat) (hc : clk < NUM_PWM_CLK)
    (hd : div < NUM_PWM_PREDIV) :
    ∀ (ms : List Nat) (tmp_p : Nat) (s : freq_search), (∀ m ∈ ms, m ≤ NUM_EXP) →
      (s.best_m ≤ NUM_EXP ∧ s.best_clk < NUM_PWM_CLK ∧ s.best_div < NUM_PWM_PREDIV) →
      ((freq_loop_m period_n clk div ms tmp_p s).best_m ≤ NUM_EXP ∧
        (freq_loop_m period_n clk div ms tmp_p s).best_clk < NUM_PWM_CLK ∧
        (freq_loop_m period_n clk div ms tmp_p s).best_div < NUM_PWM_PREDIV) := by
  intro ms
  induction ms with
  | nil => intro tmp_p s _ h; exact h
  | cons m ms ih =>
    intro tmp_p s hms h
    have hm := hms m (List.mem_cons_self _ _)
    have hu : (freq_update clk div m (cur_err period_n tmp_p) s).best_m ≤ NUM_EXP ∧
        (freq_update clk div m (cur_err period_n tmp_p) s).best_clk < NUM_PWM_CLK ∧
        (freq_update clk div m (cur_err period_n tmp_p) s).best_div < NUM_PWM_PREDIV := by
      unfold freq_update
      split
      · exact ⟨hm, hc, hd⟩
      · exact h
    rw [freq_loop_m_cons]
    split
    · exact hu
    · exact ih _ _ (fun x hx => hms x (List.mem_cons_of_mem _ hx)) hu

theorem foldl_preserves {α β : Type} (P : β → Prop) (Q : α → Prop) (f : β → α → β)
    (h : ∀ s x, Q x → P s → P (f s x)) :
    ∀ (xs : List α) (s : β), (∀ x ∈ xs, Q x) → P s → P (xs.foldl f s) := by
  intro xs
  induction xs with
  | nil => intro s _ hs; exact hs
  | cons a xs ih =>
    intro s hq hs
    rw [List.foldl_cons]
    exact ih _ (fun x hx => hq x (List.mem_cons_of_mem _ hx))
      (h s a (hq a (List.mem_cons_self _ _)) hs)

/-- Whatever `period_n` is, the search loop ends with an exponent in 0..7, a
clock index below 3 and a pre-divider index below 4. -/
theorem freq_search_run_range (period_n : Nat) :
    (freq_search_run period_n).best_m ≤ NUM_EXP ∧
    (freq_search_run period_n).best_clk < NUM_PWM_CLK ∧
    (freq_search_run period_n).best_div < NUM_PWM_PREDIV := by
  unfold freq_search_run
  apply foldl_preserves
    (fun s : freq_search =>
      s.best_m ≤ NUM_EXP ∧ s.best_clk < NUM_PWM_CLK ∧ s.best_div < NUM_PWM_PREDIV)
    (fun clk : Nat => clk < NUM_PWM_CLK)
  · intro s clk hc hs
    unfold freq_loop_div
    apply foldl_preserves
      (fun s : freq_search =>
        s.best_m ≤ NUM_EXP ∧ s.best_clk < NUM_PWM_CLK ∧ s.best_div < NUM_PWM_PREDIV)
      (fun div : Nat => div < NUM_PWM_PREDIV)
    · intro s div hd hs
      apply freq_loop_m_range period_n clk div hc hd _ _ _ _ hs
      intro m hm
      have := List.mem_range.mp hm
      omega
    · intro x hx; exact List.mem_range.mp hx
    · exact hs
  · intro x hx; exact List.mem_range.mp hx
  · exact ⟨by decide, by decide, by decide⟩

theorem calc_freq_resolution_core (c : lpg_channel) (s : freq_search) (n : Nat)
    (hr : s.best_m ≤ NUM_EXP)
    (hexp : c.pre_div_exp = if decide (s.best_m ≥ 3 ∧ n = 6) = true then s.best_m - 3
      else s.best_m)
    (hsize : c.pwm_size = if decide (s.best_m ≥ 3 ∧ n = 6) = true then n + 3 else n) :
    (n = 6 →
      (s.best_m ≤ 2 → c.pre_div_exp = s.best_m ∧ c.pwm_size = 6) ∧
      (3 ≤ s.best_m → c.pre_div_exp = s.best_m - 3 ∧ c.pwm_size = 9) ∧
      c.pre_div_exp + c.pwm_size = s.best_m + 6 ∧
      (c.pwm_size = 6 → c.pre_div_exp < 3)) ∧
    (n = 9 → c.pwm_size = 9 ∧ c.pre_div_exp = s.best_m) ∧
    c.pre_div_exp ≤ 7 := by
  unfold NUM_EXP at hr
  refine ⟨?_, ?_, ?_⟩
  · intro hn
    subst hn
    by_cases h : s.best_m ≥ 3
    · have hd : decide (s.best_m ≥ 3 ∧ 6 = 6) = true := decide_eq_true ⟨h, rfl⟩
      rw [if_pos hd] at hexp hsize
      refine ⟨?_, ?_, ?_, ?_⟩
      · intro h2; omega
      · intro _; exact ⟨hexp, hsize⟩
      · omega
      · intro h6; omega
    · have hd : ¬ decide (s.best_m ≥ 3 ∧ 6 = 6) = true := fun hh => h (of_decide_eq_true hh).1
      rw [if_neg hd] at hexp hsize
      refine ⟨?_, ?_, ?_, ?_⟩
      · intro _; exact ⟨hexp, hsize⟩
      · intro h3; omega
      · omega
      · intro _; omega
  · intro hn
    subst hn
    have hd : ¬ decide (s.best_m ≥ 3 ∧ 9 = 6) = true :=
      fun hh => absurd (of_decide_eq_true hh).2 (by decide)
    rw [if_neg hd] at hexp hsize
    exact ⟨hsize, hexp⟩
  · split at hexp <;> omega

/-- C22: let `m` be the exponent the search ends with; it is in 0..7.  For a
requested period `P` below `UINT_MAX / 1000` us (different from the cached
one) `lpg_calc_freq` stores `(pre_div_exp, pwm_size) = (m, 6)` if `m <= 2` and
`(m - 3, 9)` if `m >= 3`, so `pre_div_exp + pwm_size = m + 6` (the same
period), and a 6-bit result never has exponent `>= 3`; for
`P >= UINT_MAX / 1000` the resolution is 9 and the exponent is `m` unchanged.
The stored exponent is in 0..7 in both cases. -/
theorem lpg_calc_freq_resolution (chan : lpg_channel) (period_us : Nat)
    (hne : period_us ≠ chan.period_us) :
    (freq_search_run (freq_period_n period_us)).best_m ≤ 7 ∧
    (period_us < UINT_MAX / NSEC_PER_USEC →
      ((freq_search_run (freq_period_n period_us)).best_m ≤ 2 →
        (lpg_calc_freq chan period_us).pre_div_exp =
          (freq_search_run (freq_period_n period_us)).best_m ∧
        (lpg_calc_freq chan period_us).pwm_size = 6) ∧
      (3 ≤ (freq_search_run (freq_period_n period_us)).best_m →
        (lpg_calc_freq chan period_us).pre_div_exp =
          (freq_search_run (freq_period_n period_us)).best_m - 3 ∧
        (lpg_calc_freq chan period_us).pwm_size = 9) ∧
      (lpg_calc_freq chan period_us).pre_div_exp + (lpg_calc_freq chan period_us).pwm_size =
        (freq_search_run (freq_period_n period_us)).best_m + 6 ∧
      ((lpg_calc_freq chan period_us).pwm_size = 6 →
        (lpg_calc_freq chan period_us).pre_div_exp < 3)) ∧
    (UINT_MAX / NSEC_PER_USEC ≤ period_us →
      (lpg_calc_freq chan period_us).pwm_size = 9 ∧
      (lpg_calc_freq chan period_us).pre_div_exp =
        (freq_search_run (freq_period_n period_us)).best_m) ∧
    (lpg_calc_freq chan period_us).pre_div_exp ≤ 7 := by
  have hr := (freq_search_run_range (freq_period_n period_us)).1
  have hf := lpg_calc_freq_fields chan period_us hne
    (freq_search_run (freq_period_n period_us)) rfl
  have hn : (period_us < UINT_MAX / NSEC_PER_USEC → freq_start_n period_us = 6) ∧
      (UINT_MAX / NSEC_PER_USEC ≤ period_us → freq_start_n period_us = 9) := by
    unfold freq_start_n
    constructor
    · intro h; rw [if_pos h]
    · intro h; rw [if_neg (by omega)]
  generalize freq_search_run (freq_period_n period_us) = s at hr hf ⊢
  generalize freq_start_n period_us = n at hn hf
  generalize lpg_calc_freq chan period_us = c at hf ⊢
  have hexp : c.pre_div_exp = if decide (s.best_m ≥ 3 ∧ n = 6) = true then s.best_m - 3
      else s.best_m := by rw [hf]
  have hsize : c.pwm_size = if decide (s.best_m ≥ 3 ∧ n = 6) = true then n + 3 else n := by
    rw [hf]
  obtain ⟨h6, h9, h7⟩ := calc_freq_resolution_core c s n hr hexp hsize
  refine ⟨hr, ?_, ?_, h7⟩
  · intro h; exact h6 (hn.1 h)
  · intro h; exact h9 (hn.2 h)

set_option maxRecDepth 100000 in
theorem lpg_calc_freq_resolution_witness :
    (freq_search_run (freq_period_n 1000)).best_m ≤ 7 ∧
    (1000 < UINT_MAX / NSEC_PER_USEC →
      ((freq_search_run (freq_period_n 1000)).best_m ≤ 2 →
        (lpg_calc_freq lpg_channel_zero 1000).pre_div_exp =
          (freq_search_run (freq_period_n 1000)).best_m ∧
        (lpg_calc_freq lpg_channel_zero 1000).pwm_size = 6) ∧
      (3 ≤ (freq_search_run (freq_period_n 1000)).best_m →
        (lpg_calc_freq lpg_channel_zero 1000).pre_div_exp =
          (freq_search_run (freq_period_n 1000)).best_m - 3 ∧
        (lpg_calc_freq lpg_channel_zero 1000).pwm_size = 9) ∧
      (lpg_calc_freq lpg_channel_zero 1000).pre_div_exp +
          (lpg_calc_freq lpg_channel_zero 1000).pwm_size =
        (freq_search_run (freq_period_n 1000)).best_m + 6 ∧
      ((lpg_calc_freq lpg_channel_zero 1000).pwm_size = 6 →
        (lpg_calc_freq lpg_channel_zero 1000).pre_div_exp < 3)) ∧
    (UINT_MAX / NSEC_PER_USEC ≤ 1000 →
      (lpg_calc_freq lpg_channel_zero 1000).pwm_size = 9 ∧
      (lpg_calc_freq lpg_channel_zero 1000).pre_div_exp =
        (freq_search_run (freq_period_n 1000)).best_m) ∧
    (lpg_calc_freq lpg_channel_zero 1000).pre_div_exp ≤ 7 :=
  lpg_calc_freq_resolution lpg_channel_zero 1000 (by decide)

/-! ### Blink -/

/-- C17: `lpg_blink_set(led, 0, 0)` returns what `lpg_blink_set(led, 500, 500)`
returns, for every device and LED: the same return value, register operations
and channel states.  Both run the channel loop with a duty of 500000 us over a
period of 1000000 us. -/
theorem lpg_blink_set_default (l : lpg) (led : lpg_led) :
    lpg_blink_set l led 0 0 = lpg_blink_set l led 500 500 ∧
    lpg_blink_set l led 0 0 =
      (match blink_loop 1000000 500000 led.channels l with
       | none => none
       | some (l1, chans) => some (0, l1, { channels := chans })) := by
  constructor
  · rfl
  · rfl

/-! ### Errors of the pattern compiler leave everything as it was -/

theorem lpg_lut_store_error (l : lpg) (pattern : List led_pattern) (len lo_idx hi_idx : Nat)
    (r : lut_store_result) (h : lpg_lut_store l pattern len lo_idx hi_idx = some r)
    (hret : r.ret < 0) : r.lpg = l := by
  unfold lpg_lut_store at h
  split at h
  · rw [← Option.some.inj h]
  · dsimp only at h
    split at h
    · rw [← Option.some.inj h]
    · split at h
      · exact absurd h (by simp)
      · rw [← Option.some.inj h] at hret
        exact absurd hret (lt_irrefl (0 : Int))

/-- C14: whenever `lpg_pattern_set` returns an error (a negative value), the
device it leaves behind (LUT bitmap and register operations included) and
every channel of the LED are the ones it was called with. -/
theorem lpg_pattern_set_error_unchanged (l : lpg) (led : lpg_led)
    (pattern : List led_pattern) (len : Nat) (rep : Int)
    (ret : Int) (l1 : lpg) (led1 : lpg_led)
    (h : lpg_pattern_set l led pattern len rep = some (ret, l1, led1)) (hret : ret < 0) :
    l1 = l ∧ led1 = led := by
  unfold lpg_pattern_set at h
  split at h
  · have e := Option.some.inj h
    simp only [Prod.mk.injEq] at e
    exact ⟨e.2.1.symm, e.2.2.symm⟩
  · split at h
    · exact absurd h (by simp)
    · split at h
      · exact absurd h (by simp)
      · split at h
        · exact absurd h (by simp)
        · next r hs =>
          split at h
          · next hneg =>
            have e := Option.some.inj h
            simp only [Prod.mk.injEq] at e
            have := lpg_lut_store_error _ _ _ _ _ r hs hneg
            exact ⟨by rw [← e.2.1, this], e.2.2.symm⟩
          · next hnn =>
            split at h
            · exact absurd h (by simp)
            · have e := Option.some.inj h
              simp only [Prod.mk.injEq] at e
              rw [e.1] at hnn
              exact absurd hret hnn

set_option maxRecDepth 100000 in
theorem lpg_pattern_set_error_unchanged_witness :
    lpg_pattern_set (lpg_lut_init 0xb000 2) ⟨[lpg_channel_zero]⟩
        [⟨50, 0⟩, ⟨50, 255⟩, ⟨200, 128⟩] 3 1 =
      some (-ENOMEM, lpg_lut_init 0xb000 2, ⟨[lpg_channel_zero]⟩) ∧
    (lpg_lut_init 0xb000 2 = lpg_lut_init 0xb000 2 ∧
      (⟨[lpg_channel_zero]⟩ : lpg_led) = ⟨[lpg_channel_zero]⟩) :=
  ⟨by decide,
    lpg_pattern_set_error_unchanged (lpg_lut_init 0xb000 2) ⟨[lpg_channel_zero]⟩
      [⟨50, 0⟩, ⟨50, 255⟩, ⟨200, 128⟩] 3 1 (-ENOMEM) (lpg_lut_init 0xb000 2)
      ⟨[lpg_channel_zero]⟩ (by decide) (by decide)⟩

/-! ### Concrete runs of the pattern compiler and the entry points -/

set_option maxRecDepth 100000 in
/-- C13: the even-length palindrome (10,100),(50,200),(50,300),(10,400)
(brightness, delta_t), handed over in a buffer whose next entry is (77,999),
compiles successfully with `hi_pause_ms = 999`: the index `len + 1 / 2` of the
source is `len`, the entry after the pattern.  The middle entry `pattern[len/2]`
has `delta_t = 300`. -/
theorem lpg_pattern_set_even_hi_pause :
    (lpg_pattern_set (lpg_lut_init 0xb000 24) ⟨[lpg_channel_zero]⟩
        [⟨100, 10⟩, ⟨200, 50⟩, ⟨300, 50⟩, ⟨400, 10⟩, ⟨999, 77⟩] 4 1).map
      (fun r => (r.1, r.2.2.channels.map
        (fun c => (c.ramp_ping_pong, c.ramp_hi_pause_ms, c.ramp_lo_pause_ms)))) =
      some (0, [(true, 999, 400)]) ∧
    ([⟨100, 10⟩, ⟨200, 50⟩, ⟨300, 50⟩, ⟨400, 10⟩, ⟨999, 77⟩] : List led_pattern)[4 / 2]?.map
      (fun p => p.delta_t) = some 300 := by
  decide

set_option maxRecDepth 100000 in
/-- C24: for the even-length palindrome (10,100),(50,200),(50,300),(10,400)
of length 4 with repeat 1, in a buffer of exactly 4 entries,
`lpg_pattern_set` reads `pattern[len + 1 / 2] = pattern[4]`, an index outside
`0 .. len-1`: with option-returning indexing the call has no result, and the
read that fails is the one of the hi-pause. -/
theorem lpg_pattern_set_reads_past_end :
    lpg_pattern_set (lpg_lut_init 0xb000 24) ⟨[lpg_channel_zero]⟩
      [⟨100, 10⟩, ⟨200, 50⟩, ⟨300, 50⟩, ⟨400, 10⟩] 4 1 = none ∧
    pattern_ping_pong [⟨100, 10⟩, ⟨200, 50⟩, ⟨300, 50⟩, ⟨400, 10⟩] 4 (List.range (4 / 2)) =
      some true ∧
    pattern_pauses [⟨100, 10⟩, ⟨200, 50⟩, ⟨300, 50⟩, ⟨400, 10⟩] 4 true = none ∧
    u32 (4 + 1 / 2) = 4 ∧
    ([⟨100, 10⟩, ⟨200, 50⟩, ⟨300, 50⟩, ⟨400, 10⟩] : List led_pattern)[4]? = none := by
  decide

set_option maxRecDepth 100000 in
/-- C25: the pattern (10,0),(50,0),(90,0) (brightness, delta_t) compiles
successfully with `ramp_duration_ms = 0`; in the following
`lpg_brightness_set` with full brightness the channel is ramp-enabled, the
step `DIV_ROUND_UP(0, 3)` is 0, and the division of the pause times by `step`
divides by zero: the call has no result. -/
theorem lpg_apply_step_zero :
    (lpg_pattern_set (lpg_lut_init 0xb000 24) ⟨[lpg_channel_zero]⟩
        [⟨0, 10⟩, ⟨0, 50⟩, ⟨0, 90⟩] 3 1).map
      (fun r => (r.1, r.2.2.channels.map
        (fun c => (c.ramp_duration_ms, c.pattern_lo_idx, c.pattern_hi_idx)))) =
      some (0, [(0, 0, 2)]) ∧
    (lpg_pattern_set (lpg_lut_init 0xb000 24) ⟨[lpg_channel_zero]⟩
        [⟨0, 10⟩, ⟨0, 50⟩, ⟨0, 90⟩] 3 1).map
      (fun r => r.2.2.channels.map lut_step) = some [some 0] ∧
    DIV_ROUND_UP 0 0 = none ∧
    ((lpg_pattern_set (lpg_lut_init 0xb000 24) ⟨[lpg_channel_zero]⟩
        [⟨0, 10⟩, ⟨0, 50⟩, ⟨0, 90⟩] 3 1).bind
      (fun r => lpg_brightness_set r.2.1 r.2.2 255 [255])) = none := by
  decide

set_option maxRecDepth 100000 in
/-- C20: `lpg_pwm_apply` on the zero-initialised channel with a period of
500 ns, duty cycle 0 and `enabled = true`: the period in microseconds is 0,
`lpg_calc_freq` leaves `period_us = 0`, and `lpg_calc_duty` divides by it; the
call has no result.  The same happens to `lpg_blink_set` when
`(delay_on + delay_off) * 1000` wraps to 0. -/
theorem lpg_pwm_apply_zero_period :
    u32 (500 / NSEC_PER_USEC) = 0 ∧
    (lpg_calc_freq lpg_channel_zero 0).period_us = 0 ∧
    lpg_calc_duty (lpg_calc_freq lpg_channel_zero 0) 0 = none ∧
    lpg_pwm_apply (lpg_lut_init 0xb000 24) lpg_channel_zero 500 0 true = none ∧
    lpg_blink_set (lpg_lut_init 0xb000 24) ⟨[lpg_channel_zero]⟩ 536870912 0 = none := by
  decide

set_option maxRecDepth 100000 in
/-- C18 (counterexample): brightness 128 of 255 on the zero-initialised
channel (no pattern assigned), set through `lpg_brightness_set`: the period
resolves to 9-bit resolution and the duty code is 256, not
`floor(128 * 512 / 255) = 257`. -/
theorem lpg_brightness_set_128_not_257 :
    (lpg_brightness_set (lpg_lut_init 0xb000 24) ⟨[lpg_channel_zero]⟩ 255 [128]).map
      (fun r => r.2.channels.map (fun c => (c.pwm_size, c.pwm_value))) = some [(9, 256)] ∧
    128 * 512 / 255 = 257 ∧
    ¬ ((lpg_brightness_set (lpg_lut_init 0xb000 24) ⟨[lpg_channel_zero]⟩ 255 [128]).map
      (fun r => r.2.channels.map (fun c => c.pwm_value)) = some [257]) := by
  decide

/-! ### The parts of the pattern compiler -/

theorem pattern_set_channels_some (pattern : List led_pattern) (len : Nat)
    (ping_pong oneshot : Bool) (lo_pause hi_pause lo_idx hi_idx : Nat) (first : led_pattern)
    (hfirst : pattern[0]? = some first) :
    ∀ chans : List lpg_channel,
      pattern_set_channels pattern len ping_pong oneshot lo_pause hi_pause lo_idx hi_idx chans =
        some (chans.map (fun chan =>
          { chan with
            ramp_duration_ms := u32 (first.delta_t * len),
            ramp_ping_pong := ping_pong,
            ramp_oneshot := oneshot,
            ramp_lo_pause_ms := lo_pause,
            ramp_hi_pause_ms := hi_pause,
            pattern_lo_idx := lo_idx,
            pattern_hi_idx := hi_idx })) := by
  intro chans
  induction chans with
  | nil => rfl
  | cons chan rest ih =>
    simp only [pattern_set_channels, hfirst, ih, List.map_cons]

/-- The palindrome loop finds a palindrome: every compared pair lies in the
buffer and has equal brightness. -/
theorem pattern_ping_pong_true (pattern : List led_pattern) (len : Nat)
    (hlen : len ≤ pattern.length) (hlen32 : len < 2 ^ 32) :
    ∀ is : List Nat, (∀ i ∈ is, i < len / 2) →
      (∀ i, i < len / 2 →
        pattern[i]?.map (fun p => p.brightness) =
          pattern[len - 1 - i]?.map (fun p => p.brightness)) →
      pattern_ping_pong pattern len is = some true := by
  intro is
  induction is with
  | nil => intro _ _; rfl
  | cons i is ih =>
    intro his hpal
    have hi := his i (List.mem_cons_self _ _)
    have h1 : i < pattern.length := by omega
    have h2 : len - 1 - i < pattern.length := by omega
    have hu : u32 (len + 2 ^ 32 - i - 1) = len - 1 - i := by
      unfold u32
      omega
    have hp := hpal i hi
    rw [List.getElem?_eq_getElem h1, List.getElem?_eq_getElem h2] at hp
    simp only [Option.map_some', Option.some.injEq] at hp
    simp only [pattern_ping_pong, hu, List.getElem?_eq_getElem h1, List.getElem?_eq_getElem h2]
    rw [if_neg (by rw [hp]; exact fun h => h rfl)]
    exact ih (fun j hj => his j (List.mem_cons_of_mem _ hj)) hpal

/-- The palindrome loop finds a pattern that is no palindrome: some compared
pair has different brightness. -/
theorem pattern_ping_pong_false (pattern : List led_pattern) (len : Nat)
    (hlen : len ≤ pattern.length) (hlen32 : len < 2 ^ 32) :
    ∀ is : List Nat, (∀ i ∈ is, i < len / 2) →
      (∃ i ∈ is,
        pattern[i]?.map (fun p => p.brightness) ≠
          pattern[len - 1 - i]?.map (fun p => p.brightness)) →
      pattern_ping_pong pattern len is = some false := by
  intro is
  induction is with
  | nil =>
    intro _ h
    obtain ⟨i, hi, _⟩ := h
    exact absurd hi (List.not_mem_nil i)
  | cons i is ih =>
    intro his hex
    have hi := his i (List.mem_cons_self _ _)
    have h1 : i < pattern.length := by omega
    have h2 : len - 1 - i < pattern.length := by omega
    have hu : u32 (len + 2 ^ 32 - i - 1) = len - 1 - i := by
      unfold u32
      omega
    simp only [pattern_ping_pong, hu, List.getElem?_eq_getElem h1, List.getElem?_eq_getElem h2]
    by_cases hb : pattern[i].brightness ≠ pattern[len - 1 - i].brightness
    · rw [if_pos hb]
    · rw [if_neg hb]
      apply ih (fun j hj => his j (List.mem_cons_of_mem _ hj))
      obtain ⟨j, hj, hne⟩ := hex
      rcases List.mem_cons.mp hj with e | e
      · subst e
        exfalso
        apply hne
        rw [List.getElem?_eq_getElem h1, List.getElem?_eq_getElem h2]
        simp only [Option.map_some', Option.some.injEq]
        exact not_not.mp hb
      · exact ⟨j, e, hne⟩

/-- How a successful `lpg_pattern_set` came about. -/
theorem lpg_pattern_set_ok (l : lpg) (led : lpg_led) (pattern : List led_pattern)
    (len : Nat) (rep : Int) (l1 : lpg) (led1 : lpg_led)
    (h : lpg_pattern_set l led pattern len rep = some (0, l1, led1)) :
    ∃ ping_pong hi_pause lo_pause len1 r,
      pattern_ping_pong pattern len (List.range (len / 2)) = some ping_pong ∧
      pattern_pauses pattern len ping_pong = some (hi_pause, lo_pause, len1) ∧
      lpg_lut_store l pattern len1 0 0 = some r ∧ r.ret = 0 ∧ l1 = r.lpg ∧
      pattern_set_channels pattern len1 ping_pong (decide (rep ≠ -1)) lo_pause hi_pause
        r.lo_idx r.hi_idx led.channels = some led1.channels := by
  unfold lpg_pattern_set at h
  split at h
  · have e := Option.some.inj h
    simp only [Prod.mk.injEq] at e
    exact absurd e.1 (by decide)
  · split at h
    · exact absurd h (by simp)
    · next pp hpp =>
      split at h
      · exact absurd h (by simp)
      · next hi_pause lo_pause len1 hpa =>
        split at h
        · exact absurd h (by simp)
        · next r hs =>
          split at h
          · next hneg =>
            have e := Option.some.inj h
            simp only [Prod.mk.injEq] at e
            rw [e.1] at hneg
            exact absurd hneg (by decide)
          · split at h
            · exact absurd h (by simp)
            · next chans hch =>
              have e := Option.some.inj h
              simp only [Prod.mk.injEq] at e
              refine ⟨pp, hi_pause, lo_pause, len1, r, hpp, hpa, hs, e.1, e.2.1.symm, ?_⟩
              rw [hch, ← e.2.2]

/-- A call of `lpg_pattern_set` whose parts all succeed returns 0. -/
theorem lpg_pattern_set_compose (l : lpg) (led : lpg_led) (pattern : List led_pattern)
    (len : Nat) (rep : Int) (hrep : rep = 1 ∨ rep = -1)
    (ping_pong : Bool) (hi_pause lo_pause len1 : Nat) (r : lut_store_result)
    (chans : List lpg_channel)
    (hpp : pattern_ping_pong pattern len (List.range (len / 2)) = some ping_pong)
    (hpa : pattern_pauses pattern len ping_pong = some (hi_pause, lo_pause, len1))
    (hs : lpg_lut_store l pattern len1 0 0 = some r) (hret : r.ret = 0)
    (hch : pattern_set_channels pattern len1 ping_pong (decide (rep ≠ -1)) lo_pause hi_pause
      r.lo_idx r.hi_idx led.channels = some chans) :
    lpg_pattern_set l led pattern len rep = some (0, r.lpg, { channels := chans }) := by
  unfold lpg_pattern_set
  have hr : ¬ (rep ≠ -1 ∧ rep ≠ 1) := by
    rcases hrep with e | e <;> subst e <;> decide
  rw [if_neg hr]
  simp only [hpp, hpa, hs, hch]
  rw [if_neg (by rw [hret]; decide), hret]

theorem pattern_pauses_odd (pattern : List led_pattern) (len : Nat)
    (hodd : len % 2 = 1) (hlen : len ≤ pattern.length) (hlen32 : len + 1 < 2 ^ 32) :
    ∃ last, pattern[len - 1]? = some last ∧
      pattern_pauses pattern len true = some (0, last.delta_t, (len + 1) / 2) := by
  have h1 : len - 1 < pattern.length := by omega
  have hu : u32 (len + 2 ^ 32 - 1) = len - 1 := by unfold u32; omega
  have hu2 : u32 (len + 1) = len + 1 := by unfold u32; omega
  refine ⟨pattern[len - 1], List.getElem?_eq_getElem h1, ?_⟩
  unfold pattern_pauses
  rw [if_pos rfl, if_pos (by omega), hu, hu2, List.getElem?_eq_getElem h1]

theorem pattern_pauses_plain (pattern : List led_pattern) (len : Nat)
    (h1 : 1 ≤ len) (hlen : len ≤ pattern.length) (hlen32 : len < 2 ^ 32) :
    ∃ last, pattern[len - 1]? = some last ∧
      pattern_pauses pattern len false = some (last.delta_t, 0, len) := by
  have h1 : len - 1 < pattern.length := by omega
  have hu : u32 (len + 2 ^ 32 - 1) = len - 1 := by unfold u32; omega
  refine ⟨pattern[len - 1], List.getElem?_eq_getElem h1, ?_⟩
  unfold pattern_pauses
  rw [if_neg (by decide), hu, List.getElem?_eq_getElem h1]

/-- C11: for an odd-length pattern (`len >= 3`) whose brightness sequence is a
palindrome, a supported repeat and a free run of `(len + 1) / 2` LUT entries,
`lpg_pattern_set` returns 0 and every channel of the LED has
`ramp_ping_pong = true`, a stored range of `(len + 1) / 2` entries, `hi_pause_ms
= 0` and `lo_pause_ms` the `delta_t` of the last element. -/
theorem lpg_pattern_set_odd_palindrome (l : lpg) (led : lpg_led) (pattern : List led_pattern)
    (len : Nat) (rep : Int)
    (hodd : len % 2 = 1) (h3 : 3 ≤ len) (hlen : len ≤ pattern.length)
    (hlen32 : len + 1 < 2 ^ 32)
    (hpal : ∀ i, i < len / 2 →
      pattern[i]?.map (fun p => p.brightness) =
        pattern[len - 1 - i]?.map (fun p => p.brightness))
    (hrep : rep = 1 ∨ rep = -1) (hsize : l.lut_size < UINT_MAX)
    (hfree : ∃ i, i + (len + 1) / 2 ≤ l.lut_size ∧
      ∀ k, k < (len + 1) / 2 → bitmap_test l.lut_bitmap (i + k) = false) :
    ∃ l1 led1, lpg_pattern_set l led pattern len rep = some (0, l1, led1) ∧
      led1.channels.length = led.channels.length ∧
      ∀ ch ∈ led1.channels,
        ch.ramp_ping_pong = true ∧
        ch.pattern_hi_idx - ch.pattern_lo_idx + 1 = (len + 1) / 2 ∧
        ch.ramp_hi_pause_ms = 0 ∧
        pattern[len - 1]?.map (fun p => p.delta_t) = some ch.ramp_lo_pause_ms := by
  have hpp := pattern_ping_pong_true pattern len hlen (by omega) (List.range (len / 2))
    (fun i hi => List.mem_range.mp hi) hpal
  obtain ⟨last, hlast, hpa⟩ := pattern_pauses_odd pattern len hodd hlen hlen32
  obtain ⟨r, hs, hret, _, _, _, hhi, _⟩ :=
    (lpg_lut_store_first_fit l pattern ((len + 1) / 2) 0 0 hsize (by omega) (by omega)
      (by omega)).1 hfree
  have h0 : 0 < pattern.length := by omega
  have hch := pattern_set_channels_some pattern ((len + 1) / 2) true (decide (rep ≠ -1))
    last.delta_t 0 r.lo_idx r.hi_idx pattern[0] (List.getElem?_eq_getElem h0) led.channels
  refine ⟨r.lpg, _, lpg_pattern_set_compose l led pattern len rep hrep true 0 last.delta_t
    ((len + 1) / 2) r _ hpp hpa hs hret hch, ?_, ?_⟩
  · simp only [List.length_map]
  · intro ch hmem
    obtain ⟨chan, _, e⟩ := List.mem_map.mp hmem
    subst e
    refine ⟨rfl, ?_, rfl, ?_⟩
    · show r.hi_idx - r.lo_idx + 1 = (len + 1) / 2
      omega
    · rw [hlast]
      rfl

/-- C12: for a pattern of length `len >= 2` whose brightness sequence is not
a palindrome, a supported repeat and a free run of `len` LUT entries,
`lpg_pattern_set` returns 0 and every channel of the LED has
`ramp_ping_pong = false`, a stored range of `len` entries, `hi_pause_ms` the
`delta_t` of the last element and `lo_pause_ms = 0`. -/
theorem lpg_pattern_set_non_palindrome (l : lpg) (led : lpg_led)
    (pattern : List led_pattern) (len : Nat) (rep : Int)
    (h2 : 2 ≤ len) (hlen : len ≤ pattern.length) (hlen32 : len < 2 ^ 32)
    (hnp : ∃ i, i < len / 2 ∧
      pattern[i]?.map (fun p => p.brightness) ≠
        pattern[len - 1 - i]?.map (fun p => p.brightness))
    (hrep : rep = 1 ∨ rep = -1) (hsize : l.lut_size < UINT_MAX)
    (hfree : ∃ i, i + len ≤ l.lut_size ∧
      ∀ k, k < len → bitmap_test l.lut_bitmap (i + k) = false) :
    ∃ l1 led1, lpg_pattern_set l led pattern len rep = some (0, l1, led1) ∧
      led1.channels.length = led.channels.length ∧
      ∀ ch ∈ led1.channels,
        ch.ramp_ping_pong = false ∧
        ch.pattern_hi_idx - ch.pattern_lo_idx + 1 = len ∧
        pattern[len - 1]?.map (fun p => p.delta_t) = some ch.ramp_hi_pause_ms ∧
        ch.ramp_lo_pause_ms = 0 := by
  have hpp := pattern_ping_pong_false pattern len hlen hlen32 (List.range (len / 2))
    (fun i hi => List.mem_range.mp hi)
    (by
      obtain ⟨i, hi, hne⟩ := hnp
      exact ⟨i, List.mem_range.mpr hi, hne⟩)
  obtain ⟨last, hlast, hpa⟩ := pattern_pauses_plain pattern len (by omega) hlen hlen32
  obtain ⟨r, hs, hret, _, _, _, hhi, _⟩ :=
    (lpg_lut_store_first_fit l pattern len 0 0 hsize h2 hlen32 hlen).1 hfree
  have h0 : 0 < pattern.length := by omega
  have hch := pattern_set_channels_some pattern len false (decide (rep ≠ -1))
    0 last.delta_t r.lo_idx r.hi_idx pattern[0] (List.getElem?_eq_getElem h0) led.channels
  refine ⟨r.lpg, _, lpg_pattern_set_compose l led pattern len rep hrep false last.delta_t 0
    len r _ hpp hpa hs hret hch, ?_, ?_⟩
  · simp only [List.length_map]
  · intro ch hmem
    obtain ⟨chan, _, e⟩ := List.mem_map.mp hmem
    subst e
    refine ⟨rfl, ?_, ?_, rfl⟩
    · show r.hi_idx - r.lo_idx + 1 = len
      omega
    · rw [hlast]
      rfl

set_option maxRecDepth 100000 in
theorem lpg_pattern_set_odd_palindrome_witness :
    ∃ l1 led1,
      lpg_pattern_set (lpg_lut_init 0xb000 24) ⟨[lpg_channel_zero]⟩
        [⟨100, 10⟩, ⟨100, 50⟩, ⟨100, 90⟩, ⟨100, 50⟩, ⟨100, 10⟩] 5 1 = some (0, l1, led1) ∧
      led1.channels.length = (⟨[lpg_channel_zero]⟩ : lpg_led).channels.length ∧
      ∀ ch ∈ led1.channels,
        ch.ramp_ping_pong = true ∧
        ch.pattern_hi_idx - ch.pattern_lo_idx + 1 = (5 + 1) / 2 ∧
        ch.ramp_hi_pause_ms = 0 ∧
        ([⟨100, 10⟩, ⟨100, 50⟩, ⟨100, 90⟩, ⟨100, 50⟩, ⟨100, 10⟩] : List led_pattern)[5 - 1]?.map
          (fun p => p.delta_t) = some ch.ramp_lo_pause_ms :=
  lpg_pattern_set_odd_palindrome (lpg_lut_init 0xb000 24) ⟨[lpg_channel_zero]⟩
    [⟨100, 10⟩, ⟨100, 50⟩, ⟨100, 90⟩, ⟨100, 50⟩, ⟨100, 10⟩] 5 1
    (by decide) (by decide) (by decide) (by decide) (by decide) (by decide) (by decide)
    ⟨0, by decide, by decide⟩

set_option maxRecDepth 100000 in
theorem lpg_pattern_set_non_palindrome_witness :
    ∃ l1 led1,
      lpg_pattern_set (lpg_lut_init 0xb000 24) ⟨[lpg_channel_zero]⟩
        [⟨50, 0⟩, ⟨50, 255⟩, ⟨200, 128⟩] 3 1 = some (0, l1, led1) ∧
      led1.channels.length = (⟨[lpg_channel_zero]⟩ : lpg_led).channels.length ∧
      ∀ ch ∈ led1.channels,
        ch.ramp_ping_pong = false ∧
        ch.pattern_hi_idx - ch.pattern_lo_idx + 1 = 3 ∧
        ([⟨50, 0⟩, ⟨50, 255⟩, ⟨200, 128⟩] : List led_pattern)[3 - 1]?.map
          (fun p => p.delta_t) = some ch.ramp_hi_pause_ms ∧
        ch.ramp_lo_pause_ms = 0 :=
  lpg_pattern_set_non_palindrome (lpg_lut_init 0xb000 24) ⟨[lpg_channel_zero]⟩
    [⟨50, 0⟩, ⟨50, 255⟩, ⟨200, 128⟩] 3 1
    (by decide) (by decide) (by decide) ⟨0, by decide, by decide⟩ (by decide) (by decide)
    ⟨0, by decide, by decide⟩

/-! ### When the pattern compiler returns `-EINVAL` -/

theorem lpg_lut_store_einval (l : lpg) (pattern : List led_pattern) (len lo_idx hi_idx : Nat)
    (r : lut_store_result) (h : lpg_lut_store l pattern len lo_idx hi_idx = some r)
    (hret : r.ret = -EINVAL) : len = 1 := by
  unfold lpg_lut_store at h
  split at h
  · assumption
  · dsimp only at h
    split at h
    · rw [← Option.some.inj h] at hret
      have hne : (-ENOMEM : Int) ≠ -EINVAL := by decide
      exact absurd hret hne
    · split at h
      · exact absurd h (by simp)
      · rw [← Option.some.inj h] at hret
        have hne : (0 : Int) ≠ -EINVAL := by decide
        exact absurd hret hne

theorem pattern_ping_pong_two (pattern : List led_pattern)
    (h : pattern_ping_pong pattern 2 (List.range (2 / 2)) = some true) :
    pattern[0]?.map (fun p => p.brightness) = pattern[1]?.map (fun p => p.brightness) := by
  have e : List.range (2 / 2) = [0] := by decide
  have hu : u32 (2 + 2 ^ 32 - 0 - 1) = 1 := by decide
  rw [e] at h
  simp only [pattern_ping_pong, hu] at h
  split at h
  · next a b ha hb =>
    rw [ha, hb]
    split at h
    · exact absurd h (by simp)
    · next hne =>
      simp only [Option.map_some', Option.some.injEq]
      exact not_not.mp hne
  · exact absurd h (by simp)

/-- The only ways `lpg_pattern_set` returns `-EINVAL`: an unsupported repeat,
or a stored length of 1, which comes from `len = 1` or from `len = 2` with
two entries of equal brightness. -/
theorem lpg_pattern_set_einval (l : lpg) (led : lpg_led) (pattern : List led_pattern)
    (len : Nat) (rep : Int) (l1 : lpg) (led1 : lpg_led) (hlen32 : len + 1 < 2 ^ 32)
    (h : lpg_pattern_set l led pattern len rep = some (-EINVAL, l1, led1)) :
    (rep ≠ 1 ∧ rep ≠ -1) ∨ len = 1 ∨
    (len = 2 ∧
      pattern[0]?.map (fun p => p.brightness) = pattern[1]?.map (fun p => p.brightness)) := by
  unfold lpg_pattern_set at h
  split at h
  · next hrep => left; exact ⟨hrep.2, hrep.1⟩
  · right
    split at h
    · exact absurd h (by simp)
    · next pp hpp =>
      split at h
      · exact absurd h (by simp)
      · next hi_pause lo_pause len1 hpa =>
        split at h
        · exact absurd h (by simp)
        · next r hs =>
          have hone : len1 = 1 := by
            split at h
            · have e := Option.some.inj h
              simp only [Prod.mk.injEq] at e
              exact lpg_lut_store_einval _ _ _ _ _ r hs e.1
            · next hnn =>
              split at h
              · exact absurd h (by simp)
              · have e := Option.some.inj h
                simp only [Prod.mk.injEq] at e
                rw [e.1] at hnn
                exact absurd (by decide : -EINVAL < 0) hnn
          subst hone
          unfold pattern_pauses at hpa
          cases pp with
          | true =>
            rw [if_pos rfl] at hpa
            have hu2 : u32 (len + 1) = len + 1 := by unfold u32; omega
            split at hpa
            · next hh =>
              have e := Option.some.inj hpa
              simp only [Prod.mk.injEq] at e
              rw [hu2] at e
              have hl : len = 1 ∨ len = 2 := by omega
              rcases hl with hl | hl
              · left; exact hl
              · right
                subst hl
                exact ⟨rfl, pattern_ping_pong_two pattern hpp⟩
            · exact absurd hpa (by simp)
          | false =>
            rw [if_neg (by decide)] at hpa
            split at hpa
            · have e := Option.some.inj hpa
              simp only [Prod.mk.injEq] at e
              left
              exact e.2.2
            · exact absurd hpa (by simp)

/-- C26 (amended): for a pattern of length `len >= 2`, a supported repeat and
an empty LUT of size at least `len`, `lpg_pattern_set` returns 0 when the
brightness sequence is not a palindrome and when it is a palindrome of odd
length; it returns `-EINVAL` only when the stored length is 1, that is for
`len = 2` with two entries of equal brightness. -/
theorem lpg_pattern_set_empty_lut (l : lpg) (led : lpg_led) (pattern : List led_pattern)
    (len : Nat) (rep : Int)
    (h2 : 2 ≤ len) (hlen : len ≤ pattern.length) (hlen32 : len + 1 < 2 ^ 32)
    (hrep : rep = 1 ∨ rep = -1) (hsize : l.lut_size < UINT_MAX) (hfit : len ≤ l.lut_size)
    (hempty : ∀ k, bitmap_test l.lut_bitmap k = false) :
    ((∃ i, i < len / 2 ∧
        pattern[i]?.map (fun p => p.brightness) ≠
          pattern[len - 1 - i]?.map (fun p => p.brightness)) →
      ∃ l1 led1, lpg_pattern_set l led pattern len rep = some (0, l1, led1)) ∧
    (len % 2 = 1 →
      (∀ i, i < len / 2 →
        pattern[i]?.map (fun p => p.brightness) =
          pattern[len - 1 - i]?.map (fun p => p.brightness)) →
      ∃ l1 led1, lpg_pattern_set l led pattern len rep = some (0, l1, led1)) ∧
    (∀ l1 led1, lpg_pattern_set l led pattern len rep = some (-EINVAL, l1, led1) →
      len = 2 ∧
      pattern[0]?.map (fun p => p.brightness) = pattern[1]?.map (fun p => p.brightness)) := by
  refine ⟨?_, ?_, ?_⟩
  · intro hnp
    obtain ⟨l1, led1, h, _⟩ := lpg_pattern_set_non_palindrome l led pattern len rep h2 hlen
      (by omega) hnp hrep hsize ⟨0, by omega, fun k _ => hempty _⟩
    exact ⟨l1, led1, h⟩
  · intro hodd hpal
    obtain ⟨l1, led1, h, _⟩ := lpg_pattern_set_odd_palindrome l led pattern len rep hodd
      (by omega) hlen hlen32 hpal hrep hsize ⟨0, by omega, fun k _ => hempty _⟩
    exact ⟨l1, led1, h⟩
  · intro l1 led1 h
    rcases lpg_pattern_set_einval l led pattern len rep l1 led1 hlen32 h with hr | h1 | h22
    · rcases hrep with e | e
      · exact absurd e hr.1
      · exact absurd e hr.2
    · omega
    · exact h22

set_option maxRecDepth 100000 in
theorem lpg_pattern_set_empty_lut_witness :
    ((∃ i, i < 3 / 2 ∧
        ([⟨50, 0⟩, ⟨50, 255⟩, ⟨200, 128⟩] : List led_pattern)[i]?.map (fun p => p.brightness) ≠
          ([⟨50, 0⟩, ⟨50, 255⟩, ⟨200, 128⟩] : List led_pattern)[3 - 1 - i]?.map
            (fun p => p.brightness)) →
      ∃ l1 led1, lpg_pattern_set (lpg_lut_init 0xb000 24) ⟨[lpg_channel_zero]⟩
        [⟨50, 0⟩, ⟨50, 255⟩, ⟨200, 128⟩] 3 1 = some (0, l1, led1)) ∧
    (3 % 2 = 1 →
      (∀ i, i < 3 / 2 →
        ([⟨50, 0⟩, ⟨50, 255⟩, ⟨200, 128⟩] : List led_pattern)[i]?.map (fun p => p.brightness) =
          ([⟨50, 0⟩, ⟨50, 255⟩, ⟨200, 128⟩] : List led_pattern)[3 - 1 - i]?.map
            (fun p => p.brightness)) →
      ∃ l1 led1, lpg_pattern_set (lpg_lut_init 0xb000 24) ⟨[lpg_channel_zero]⟩
        [⟨50, 0⟩, ⟨50, 255⟩, ⟨200, 128⟩] 3 1 = some (0, l1, led1)) ∧
    (∀ l1 led1, lpg_pattern_set (lpg_lut_init 0xb000 24) ⟨[lpg_channel_zero]⟩
        [⟨50, 0⟩, ⟨50, 255⟩, ⟨200, 128⟩] 3 1 = some (-EINVAL, l1, led1) →
      3 = 2 ∧
      ([⟨50, 0⟩, ⟨50, 255⟩, ⟨200, 128⟩] : List led_pattern)[0]?.map (fun p => p.brightness) =
        ([⟨50, 0⟩, ⟨50, 255⟩, ⟨200, 128⟩] : List led_pattern)[1]?.map (fun p => p.brightness)) :=
  lpg_pattern_set_empty_lut (lpg_lut_init 0xb000 24) ⟨[lpg_channel_zero]⟩
    [⟨50, 0⟩, ⟨50, 255⟩, ⟨200, 128⟩] 3 1 (by decide) (by decide) (by decide) (by decide)
    (by decide) (by decide)
    (by
      intro k
      unfold bitmap_test lpg_lut_init
      simp only [List.getD_eq_getElem?_getD, List.getElem?_replicate]
      split <;> rfl)

set_option maxRecDepth 100000 in
/-- C26 (counterexample): the pattern (10,100),(10,100) of length 2 with
repeat 1 on an empty LUT of 24 entries: both entries have the same brightness,
the pattern counts as a palindrome, the stored length is `(2 + 1) / 2 = 1`, and
`lpg_pattern_set` returns `-EINVAL` (with the entry after the pattern readable;
with a buffer of exactly 2 entries the read of `pattern[2]` has no result). -/
theorem lpg_pattern_set_two_equal :
    lpg_pattern_set (lpg_lut_init 0xb000 24) ⟨[lpg_channel_zero]⟩
      [⟨100, 10⟩, ⟨100, 10⟩, ⟨0, 0⟩] 2 1 =
      some (-EINVAL, lpg_lut_init 0xb000 24, ⟨[lpg_channel_zero]⟩) ∧
    lpg_pattern_set (lpg_lut_init 0xb000 24) ⟨[lpg_channel_zero]⟩
      [⟨100, 10⟩, ⟨100, 10⟩] 2 1 = none := by
  decide

/-! ### Brightness 128 of 255 -/

theorem lpg_calc_freq_frame (chan : lpg_channel) (period_us : Nat) :
    (lpg_calc_freq chan period_us).pattern_lo_idx = chan.pattern_lo_idx ∧
    (lpg_calc_freq chan period_us).pattern_hi_idx = chan.pattern_hi_idx ∧
    (lpg_calc_freq chan period_us).ramp_enabled = chan.ramp_enabled ∧
    (lpg_calc_freq chan period_us).enabled = chan.enabled ∧
    (lpg_calc_freq chan period_us).triled_mask = chan.triled_mask ∧
    (lpg_calc_freq chan period_us).lut_mask = chan.lut_mask ∧
    (lpg_calc_freq chan period_us).base = chan.base := by
  by_cases h : period_us = chan.period_us
  · have e : lpg_calc_freq chan period_us = chan := by
      unfold lpg_calc_freq
      rw [if_pos h]
    rw [e]
    exact ⟨rfl, rfl, rfl, rfl, rfl, rfl, rfl⟩
  · rw [lpg_calc_freq_fields chan period_us h _ rfl]
    exact ⟨rfl, rfl, rfl, rfl, rfl, rfl, rfl⟩

theorem lpg_apply_no_ramp (l : lpg) (chan : lpg_channel) (h : chan.ramp_enabled = false) :
    lpg_apply l chan =
      some { l with map := l.map ++
        (lpg_disable_glitch chan ++ lpg_apply_freq l chan ++ lpg_apply_pwm_value chan ++
          lpg_apply_control chan ++ lpg_apply_sync chan ++ [] ++ lpg_enable_glitch chan) } := by
  have e : lpg_apply_lut_control chan = some [] := by
    unfold lpg_apply_lut_control
    rw [h]
    rfl
  unfold lpg_apply lpg_apply_ops
  rw [e]

theorem brightness_128_core (l : lpg) (chan c0 : lpg_channel)
    (hc0 : lpg_calc_freq chan NSEC_PER_USEC = c0)
    (hnp : chan.pattern_lo_idx = chan.pattern_hi_idx)
    (hper : c0.period_us = 1000) (h9 : c0.pwm_size = 9) :
    ∃ l1 c, lpg_brightness_set l ⟨[chan]⟩ 255 [128] = some (l1, ⟨[c]⟩) ∧
      c.pwm_value = 256 ∧ c.pwm_size = 9 ∧ c.enabled = true ∧ c.ramp_enabled = false := by
  have hd := lpg_calc_duty_eq c0 501 (by omega) (by omega) (Or.inr h9)
    (by rw [h9, hper]; decide)
  rw [h9, hper] at hd
  have hmin : min (501 * 2 ^ 9 / 1000) (2 ^ 9 - 1) = 256 := by decide
  rw [hmin] at hd
  have hb : brightness_chan chan 128 255 =
      some { c0 with pwm_value := 256, enabled := true, ramp_enabled := false } := by
    unfold brightness_chan
    rw [if_neg (by decide), if_neg (by rw [hnp]; exact fun h => h rfl), if_neg (by decide), hc0,
      hper]
    have hu : u32 (128 * 1000) / 255 = 501 := by decide
    rw [hu, hd]
    dsimp only
    rw [h9]
  have ha := lpg_apply_no_ramp l
    { c0 with pwm_value := 256, enabled := true, ramp_enabled := false } rfl
  unfold lpg_brightness_set
  simp only [brightness_loop, hb, ha]
  exact ⟨_, _, rfl, rfl, h9, rfl, rfl⟩

/-- C18 (amended): setting static brightness 128 (max brightness 255) through
`lpg_brightness_set` on a channel with no pattern assigned, whose period then
resolves to 9-bit resolution, leaves the channel enabled, not ramp-enabled and
with duty code `pwm_value = floor(floor(128 * 1000 / 255) * 512 / 1000) = 256`:
the brightness is first turned into a duty time of 501 us of the 1000 us
period and then quantized. -/
theorem lpg_brightness_set_128 (l : lpg) (chan : lpg_channel)
    (hnp : chan.pattern_lo_idx = chan.pattern_hi_idx)
    (h9 : (lpg_calc_freq chan NSEC_PER_USEC).pwm_size = 9) :
    ∃ l1 c, lpg_brightness_set l ⟨[chan]⟩ 255 [128] = some (l1, ⟨[c]⟩) ∧
      c.pwm_value = 256 ∧ c.pwm_value = 128 * 1000 / 255 * 512 / 1000 ∧
      c.pwm_size = 9 ∧ c.enabled = true ∧ c.ramp_enabled = false := by
  have hper := lpg_calc_freq_period chan NSEC_PER_USEC
  obtain ⟨l1, c, h, hv, hs, he, hr⟩ :=
    brightness_128_core l chan (lpg_calc_freq chan NSEC_PER_USEC) rfl hnp hper h9
  exact ⟨l1, c, h, hv, by rw [hv], hs, he, hr⟩

set_option maxRecDepth 100000 in
theorem lpg_brightness_set_128_witness :
    ∃ l1 c, lpg_brightness_set (lpg_lut_init 0xb000 24) ⟨[lpg_channel_zero]⟩ 255 [128] =
        some (l1, ⟨[c]⟩) ∧
      c.pwm_value = 256 ∧ c.pwm_value = 128 * 1000 / 255 * 512 / 1000 ∧
      c.pwm_size = 9 ∧ c.enabled = true ∧ c.ramp_enabled = false :=
  lpg_brightness_set_128 (lpg_lut_init 0xb000 24) lpg_channel_zero (by decide) (by decide)

/-! ### Order of the register operations of `lpg_apply` -/

/-- C15: for an enabled channel `lpg_apply` appends its register operations in
this order: the glitch-removal update on the type-config register, the
size/clock write, the pre-divider/exponent write, the duty value write, the
enable-control write, a second duty value write, the sync write, then, exactly
when `ramp_enabled` holds with `lo_idx != hi_idx`, the pattern-config,
hi-index, lo-index, step, hi-pause and lo-pause writes, and last the closing
glitch-removal update.  The duty value register is written twice, once before
and once after the enable-control write: these are its only bulk writes.  (In the ramp case the three
divisions of `lpg_apply_lut_control` are assumed to have non-zero divisors.) -/
theorem lpg_apply_order (l : lpg) (chan : lpg_channel) (hen : chan.enabled = true) :
    (¬ (chan.ramp_enabled = true ∧ chan.pattern_lo_idx ≠ chan.pattern_hi_idx) →
      lpg_apply l chan = some { l with map := l.map ++
        [ reg_op.update_bits (u32 (chan.base + PWM_TYPE_CONFIG_REG))
            LPG_ENABLE_GLITCH_REMOVAL LPG_ENABLE_GLITCH_REMOVAL,
          reg_op.write (u32 (chan.base + LPG_SIZE_CLK_REG))
            (if chan.pwm_size = 9 then ulong (chan.clk + 1) ||| l.pwm_9bit_mask
             else ulong (chan.clk + 1)),
          reg_op.write (u32 (chan.base + LPG_PREDIV_CLK_REG))
            (u32 (chan.pre_div <<< 5) ||| chan.pre_div_exp),
          reg_op.bulk_write (u32 (chan.base + PWM_VALUE_REG))
            (cpu_to_le16 (chan.pwm_value : Int)),
          reg_op.write (u32 (chan.base + PWM_ENABLE_CONTROL_REG)) (control_ctrl chan),
          reg_op.bulk_write (u32 (chan.base + PWM_VALUE_REG))
            (cpu_to_le16 (chan.pwm_value : Int)),
          reg_op.write (u32 (chan.base + PWM_SYNC_REG)) LPG_SYNC_PWM,
          reg_op.update_bits (u32 (chan.base + PWM_TYPE_CONFIG_REG))
            LPG_ENABLE_GLITCH_REMOVAL 0 ] }) ∧
    (chan.ramp_enabled = true → chan.pattern_lo_idx ≠ chan.pattern_hi_idx →
      ∀ step hi_pause lo_pause, lut_step chan = some step →
        DIV_ROUND_UP chan.ramp_hi_pause_ms step = some hi_pause →
        DIV_ROUND_UP chan.ramp_lo_pause_ms step = some lo_pause →
        lpg_apply l chan = some { l with map := l.map ++
          [ reg_op.update_bits (u32 (chan.base + PWM_TYPE_CONFIG_REG))
              LPG_ENABLE_GLITCH_REMOVAL LPG_ENABLE_GLITCH_REMOVAL,
            reg_op.write (u32 (chan.base + LPG_SIZE_CLK_REG))
              (if chan.pwm_size = 9 then ulong (chan.clk + 1) ||| l.pwm_9bit_mask
               else ulong (chan.clk + 1)),
            reg_op.write (u32 (chan.base + LPG_PREDIV_CLK_REG))
              (u32 (chan.pre_div <<< 5) ||| chan.pre_div_exp),
            reg_op.bulk_write (u32 (chan.base + PWM_VALUE_REG))
              (cpu_to_le16 (chan.pwm_value : Int)),
            reg_op.write (u32 (chan.base + PWM_ENABLE_CONTROL_REG)) (control_ctrl chan),
            reg_op.bulk_write (u32 (chan.base + PWM_VALUE_REG))
              (cpu_to_le16 (chan.pwm_value : Int)),
            reg_op.write (u32 (chan.base + PWM_SYNC_REG)) LPG_SYNC_PWM,
            reg_op.write (u32 (chan.base + LPG_PATTERN_CONFIG_REG)) (lut_conf chan),
            reg_op.write (u32 (chan.base + LPG_HI_IDX_REG)) chan.pattern_hi_idx,
            reg_op.write (u32 (chan.base + LPG_LO_IDX_REG)) chan.pattern_lo_idx,
            reg_op.write (u32 (chan.base + LPG_RAMP_DURATION_REG)) step,
            reg_op.write (u32 (chan.base + LPG_HI_PAUSE_REG)) (u32 hi_pause),
            reg_op.write (u32 (chan.base + LPG_LO_PAUSE_REG)) (u32 lo_pause),
            reg_op.update_bits (u32 (chan.base + PWM_TYPE_CONFIG_REG))
              LPG_ENABLE_GLITCH_REMOVAL 0 ] }) ∧
    (∀ ops, lpg_apply_ops l chan = some ops →
      ops.filter (fun o => match o with
        | reg_op.bulk_write _ _ => true
        | _ => false) =
        [ reg_op.bulk_write (u32 (chan.base + PWM_VALUE_REG)) (cpu_to_le16 (chan.pwm_value : Int)),
          reg_op.bulk_write (u32 (chan.base + PWM_VALUE_REG))
            (cpu_to_le16 (chan.pwm_value : Int)) ]) := by
  have hfreq : lpg_apply_freq l chan =
      [ reg_op.write (u32 (chan.base + LPG_SIZE_CLK_REG))
          (if chan.pwm_size = 9 then ulong (chan.clk + 1) ||| l.pwm_9bit_mask
           else ulong (chan.clk + 1)),
        reg_op.write (u32 (chan.base + LPG_PREDIV_CLK_REG))
          (u32 (chan.pre_div <<< 5) ||| chan.pre_div_exp) ] := by
    unfold lpg_apply_freq
    rw [hen]
    rfl
  have hpwm : lpg_apply_pwm_value chan =
      [reg_op.bulk_write (u32 (chan.base + PWM_VALUE_REG))
        (cpu_to_le16 (chan.pwm_value : Int))] := by
    unfold lpg_apply_pwm_value
    rw [hen]
    rfl
  have hctl : lpg_apply_control chan =
      [ reg_op.write (u32 (chan.base + PWM_ENABLE_CONTROL_REG)) (control_ctrl chan),
        reg_op.bulk_write (u32 (chan.base + PWM_VALUE_REG))
          (cpu_to_le16 (chan.pwm_value : Int)) ] := by
    unfold lpg_apply_control
    rw [hpwm, if_pos hen]
    rfl
  refine ⟨?_, ?_, ?_⟩
  · intro hnr
    have hlut : lpg_apply_lut_control chan = some [] := by
      unfold lpg_apply_lut_control
      by_cases hr : chan.ramp_enabled = true
      · have he : chan.pattern_lo_idx = chan.pattern_hi_idx := by
          by_contra hne
          exact hnr ⟨hr, hne⟩
        rw [if_pos (by simp [he])]
      · rw [if_pos (by simp [hr])]
    unfold lpg_apply lpg_apply_ops
    rw [hlut, hfreq, hpwm, hctl]
    rfl
  · intro hr hne step hi_pause lo_pause hstep hhi hlo
    have hlut : lpg_apply_lut_control chan = some
        [ reg_op.write (u32 (chan.base + LPG_PATTERN_CONFIG_REG)) (lut_conf chan),
          reg_op.write (u32 (chan.base + LPG_HI_IDX_REG)) chan.pattern_hi_idx,
          reg_op.write (u32 (chan.base + LPG_LO_IDX_REG)) chan.pattern_lo_idx,
          reg_op.write (u32 (chan.base + LPG_RAMP_DURATION_REG)) step,
          reg_op.write (u32 (chan.base + LPG_HI_PAUSE_REG)) (u32 hi_pause),
          reg_op.write (u32 (chan.base + LPG_LO_PAUSE_REG)) (u32 lo_pause) ] := by
      unfold lpg_apply_lut_control
      rw [if_neg (by simp [hr, hne])]
      simp only [hstep, hhi, hlo]
    unfold lpg_apply lpg_apply_ops
    rw [hlut, hfreq, hpwm, hctl]
    rfl
  · intro ops hops
    unfold lpg_apply_ops at hops
    rw [hfreq, hpwm, hctl] at hops
    unfold lpg_apply_lut_control at hops
    split at hops
    · contradiction
    · rename_i lut hlut
      injection hops with hops
      subst hops
      split at hlut
      · injection hlut with hlut
        subst hlut
        simp [lpg_disable_glitch, lpg_enable_glitch, lpg_apply_sync, List.filter_cons]
      · split at hlut
        · contradiction
        · split at hlut
          · injection hlut with hlut
            subst hlut
            simp [lpg_disable_glitch, lpg_enable_glitch, lpg_apply_sync, List.filter_cons]
          · contradiction

set_option maxRecDepth 100000 in
theorem lpg_apply_order_witness :
    ({ lpg_channel_zero with
        base := 0xb100, enabled := true, pwm_value := 256, pwm_size := 9,
        clk := 2, pre_div := 1, pre_div_exp := 3, ramp_enabled := true, pattern_hi_idx := 2,
        ramp_duration_ms := 300, ramp_hi_pause_ms := 250 } : lpg_channel).enabled = true ∧
    lpg_apply (lpg_lut_init 0xb000 8)
      { lpg_channel_zero with
        base := 0xb100, enabled := true, pwm_value := 256, pwm_size := 9,
        clk := 2, pre_div := 1, pre_div_exp := 3, ramp_enabled := true, pattern_hi_idx := 2,
        ramp_duration_ms := 300, ramp_hi_pause_ms := 250 } =
      some { lpg_lut_init 0xb000 8 with map :=
        [ reg_op.update_bits 0xb143 0x20 0x20,
          reg_op.write 0xb141 3,
          reg_op.write 0xb142 35,
          reg_op.bulk_write 0xb144 [0, 1],
          reg_op.write 0xb146 162,
          reg_op.bulk_write 0xb144 [0, 1],
          reg_op.write 0xb147 1,
          reg_op.write 0xb140 26,
          reg_op.write 0xb156 2,
          reg_op.write 0xb157 0,
          reg_op.write 0xb150 100,
          reg_op.write 0xb152 3,
          reg_op.write 0xb154 0,
          reg_op.update_bits 0xb143 0x20 0 ] } :=
  ⟨rfl, ((lpg_apply_order (lpg_lut_init 0xb000 8)
      { lpg_channel_zero with
        base := 0xb100, enabled := true, pwm_value := 256, pwm_size := 9,
        clk := 2, pre_div := 1, pre_div_exp := 3, ramp_enabled := true, pattern_hi_idx := 2,
        ramp_duration_ms := 300, ramp_hi_pause_ms := 250 } rfl).2.1 rfl (by decide) 100 3 0
      (by decide) (by decide) (by decide)).trans (by decide)⟩

/-! ### Step timing of a compiled pattern -/

theorem div_round_up_exact (n d : Nat) (hd : 0 < d) (h : n + d ≤ 2 ^ 32) :
    DIV_ROUND_UP n d = some ((n + d - 1) / d) := by
  unfold DIV_ROUND_UP ulong
  rw [if_neg (by omega), Nat.mod_eq_of_lt (by omega)]

theorem ceil_div_mul (t L : Nat) (hL : 0 < L) : (t * L + L - 1) / L = t := by
  have e : t * L + L - 1 = (L - 1) + L * t := by
    rw [Nat.mul_comm t L]
    omega
  rw [e, Nat.add_mul_div_left _ _ hL, Nat.div_eq_of_lt (by omega)]
  omega

theorem lut_step_exact (chan : lpg_channel) (t len1 : Nat)
    (hlen : 1 ≤ len1) (hidx : chan.pattern_hi_idx = chan.pattern_lo_idx + len1 - 1)
    (hlen32 : len1 < 2 ^ 32)
    (hdur : chan.ramp_duration_ms = t * len1) (hnov : t * len1 + len1 ≤ 2 ^ 32) :
    lut_step chan = some t := by
  have hpl : lut_pattern_len chan = len1 := by
    unfold lut_pattern_len u32
    rw [hidx]
    have e : chan.pattern_lo_idx + len1 - 1 + 2 ^ 32 - chan.pattern_lo_idx + 1 = len1 + 2 ^ 32 := by
      omega
    rw [e, Nat.add_mod_right, Nat.mod_eq_of_lt hlen32]
  have ht : t < 2 ^ 32 := by
    have : t ≤ t * len1 := Nat.le_mul_of_pos_right t hlen
    omega
  unfold lut_step
  rw [hpl, hdur, div_round_up_exact _ _ hlen hnov, ceil_div_mul t len1 hlen]
  simp only [Option.map_some', u32]
  rw [Nat.mod_eq_of_lt ht]

theorem pattern_pauses_len (pattern : List led_pattern) (len : Nat) (ping_pong : Bool)
    (hi_pause lo_pause len1 : Nat) (h1 : 1 ≤ len) (hlen32 : len + 1 < 2 ^ 32)
    (h : pattern_pauses pattern len ping_pong = some (hi_pause, lo_pause, len1)) :
    1 ≤ len1 ∧ len1 < 2 ^ 32 := by
  unfold pattern_pauses at h
  split at h
  · split at h
    · injection h with h
      injection h with _ h
      injection h with _ h
      subst h
      unfold u32
      rw [Nat.mod_eq_of_lt hlen32]
      omega
    · contradiction
  · split at h
    · injection h with h
      injection h with _ h
      injection h with _ h
      subst h
      omega
    · contradiction

/-- C23 (amended): for a pattern that `lpg_pattern_set` compiled successfully, with `t`
the `delta_t` of its first entry and `L = pattern_hi_idx - pattern_lo_idx + 1`
the stored length, every channel of the LED has `ramp_duration_ms = t * L`, and
once the ramp is enabled `lpg_apply_lut_control` writes `step = t` (the
rounded-up quotient of `ramp_duration_ms` by `L`) to the ramp-duration register
and the rounded-up quotients of `ramp_hi_pause_ms` and `ramp_lo_pause_ms` by
the step to the two pause registers.  This holds when `t` is positive
and the rounding additions of `DIV_ROUND_UP` do not wrap in the 32-bit
`unsigned long` (`t * L + L <= 2^32`, pause + `t` at most `2^32`); that `t * L`
fits 32 bits is not enough. -/
theorem lpg_pattern_set_step_timing (l : lpg) (led : lpg_led) (pattern : List led_pattern)
    (len : Nat) (rep : Int) (l1 : lpg) (led1 : lpg_led) (first : led_pattern)
    (ch : lpg_channel)
    (h : lpg_pattern_set l led pattern len rep = some (0, l1, led1))
    (hfirst : pattern[0]? = some first) (hch : ch ∈ led1.channels)
    (hsize : l.lut_size < UINT_MAX) (h1 : 1 ≤ len) (hlen32 : len + 1 < 2 ^ 32)
    (ht : 0 < first.delta_t)
    (hnov : first.delta_t * (ch.pattern_hi_idx - ch.pattern_lo_idx + 1) +
      (ch.pattern_hi_idx - ch.pattern_lo_idx + 1) ≤ 2 ^ 32)
    (hhi : ch.ramp_hi_pause_ms + first.delta_t ≤ 2 ^ 32)
    (hlo : ch.ramp_lo_pause_ms + first.delta_t ≤ 2 ^ 32) :
    ch.pattern_lo_idx < ch.pattern_hi_idx ∧
    ch.ramp_duration_ms = first.delta_t * (ch.pattern_hi_idx - ch.pattern_lo_idx + 1) ∧
    lut_step { ch with ramp_enabled := true } = some first.delta_t ∧
    (first.delta_t * (ch.pattern_hi_idx - ch.pattern_lo_idx + 1) +
      (ch.pattern_hi_idx - ch.pattern_lo_idx + 1) - 1) /
        (ch.pattern_hi_idx - ch.pattern_lo_idx + 1) = first.delta_t ∧
    lpg_apply_lut_control { ch with ramp_enabled := true } = some
      [ reg_op.write (u32 (ch.base + LPG_PATTERN_CONFIG_REG)) (lut_conf ch),
        reg_op.write (u32 (ch.base + LPG_HI_IDX_REG)) ch.pattern_hi_idx,
        reg_op.write (u32 (ch.base + LPG_LO_IDX_REG)) ch.pattern_lo_idx,
        reg_op.write (u32 (ch.base + LPG_RAMP_DURATION_REG)) first.delta_t,
        reg_op.write (u32 (ch.base + LPG_HI_PAUSE_REG))
          ((ch.ramp_hi_pause_ms + first.delta_t - 1) / first.delta_t),
        reg_op.write (u32 (ch.base + LPG_LO_PAUSE_REG))
          ((ch.ramp_lo_pause_ms + first.delta_t - 1) / first.delta_t) ] := by
  obtain ⟨pp, hip, lop, len1, r, _, hpa, hs, hret, _, hchs⟩ :=
    lpg_pattern_set_ok l led pattern len rep l1 led1 h
  obtain ⟨hl1, hl32⟩ := pattern_pauses_len pattern len pp hip lop len1 h1 hlen32 hpa
  have hne1 : (-EINVAL : Int) ≠ 0 := by decide
  have hne2 : (-ENOMEM : Int) ≠ 0 := by decide
  rcases lpg_lut_store_cases l pattern len1 0 0 hsize hl1 hl32 r hs with
    ⟨_, hr⟩ | ⟨_, hr, _⟩ | ⟨h2, _, hfit, _, _, hidx, _, _, _⟩
  · rw [hr] at hret
    exact absurd hret hne1
  · rw [hr] at hret
    exact absurd hret hne2
  rw [pattern_set_channels_some pattern len1 pp (decide (rep ≠ -1)) lop hip r.lo_idx r.hi_idx
    first hfirst led.channels] at hchs
  injection hchs with hchs
  rw [← hchs] at hch
  obtain ⟨c0, _, hc0⟩ := List.mem_map.mp hch
  have hlo_eq : ch.pattern_lo_idx = r.lo_idx := by rw [← hc0]
  have hhi_eq : ch.pattern_hi_idx = r.hi_idx := by rw [← hc0]
  have hdur_eq : ch.ramp_duration_ms = u32 (first.delta_t * len1) := by rw [← hc0]
  have hL : ch.pattern_hi_idx - ch.pattern_lo_idx + 1 = len1 := by
    rw [hlo_eq, hhi_eq, hidx]
    omega
  rw [hL] at hnov ⊢
  have hlt : ch.pattern_lo_idx < ch.pattern_hi_idx := by
    rw [hlo_eq, hhi_eq, hidx]
    omega
  have hdur : ch.ramp_duration_ms = first.delta_t * len1 := by
    rw [hdur_eq]
    unfold u32
    exact Nat.mod_eq_of_lt (by omega)
  have hstep : lut_step { ch with ramp_enabled := true } = some first.delta_t := by
    apply lut_step_exact _ first.delta_t len1 hl1 _ hl32 hdur hnov
    show ch.pattern_hi_idx = ch.pattern_lo_idx + len1 - 1
    rw [hlo_eq, hhi_eq, hidx]
  refine ⟨hlt, hdur, hstep, ceil_div_mul _ _ hl1, ?_⟩
  have hq : ∀ x, x + first.delta_t ≤ 2 ^ 32 →
      u32 ((x + first.delta_t - 1) / first.delta_t) = (x + first.delta_t - 1) / first.delta_t := by
    intro x hx
    unfold u32
    apply Nat.mod_eq_of_lt
    have : (x + first.delta_t - 1) / first.delta_t ≤ x + first.delta_t - 1 := Nat.div_le_self _ _
    omega
  unfold lpg_apply_lut_control
  rw [if_neg (by
    simp only [Bool.not_true, Bool.false_or, decide_eq_true_eq]
    omega)]
  rw [hstep]
  dsimp only
  rw [div_round_up_exact _ _ ht hhi, div_round_up_exact _ _ ht hlo]
  dsimp only
  rw [hq _ hhi, hq _ hlo]
  rfl

set_option maxRecDepth 100000 in
theorem lpg_pattern_set_step_timing_witness :
    lpg_pattern_set (lpg_lut_init 0xb000 8) ⟨[lpg_channel_zero]⟩
        [⟨100, 10⟩, ⟨100, 50⟩, ⟨250, 90⟩] 3 (-1) =
      some (0,
        { lpg_lut_init 0xb000 8 with
          lut_bitmap := [true, true, true, false, false, false, false, false],
          map := [reg_op.bulk_write 45120 [10, 0], reg_op.bulk_write 45122 [50, 0],
            reg_op.bulk_write 45124 [90, 0]] },
        ⟨[{ lpg_channel_zero with
            ramp_duration_ms := 300, ramp_hi_pause_ms := 250, pattern_hi_idx := 2 }]⟩) ∧
    lut_step { lpg_channel_zero with
      ramp_duration_ms := 300, ramp_hi_pause_ms := 250, pattern_hi_idx := 2,
      ramp_enabled := true } = some 100 ∧
    lpg_apply_lut_control { lpg_channel_zero with
        ramp_duration_ms := 300, ramp_hi_pause_ms := 250, pattern_hi_idx := 2,
        ramp_enabled := true } = some
      [ reg_op.write 0x40 26, reg_op.write 0x56 2, reg_op.write 0x57 0,
        reg_op.write 0x50 100, reg_op.write 0x52 3, reg_op.write 0x54 0 ] :=
  have h := lpg_pattern_set_step_timing (lpg_lut_init 0xb000 8) ⟨[lpg_channel_zero]⟩
    [⟨100, 10⟩, ⟨100, 50⟩, ⟨250, 90⟩] 3 (-1)
    { lpg_lut_init 0xb000 8 with
      lut_bitmap := [true, true, true, false, false, false, false, false],
      map := [reg_op.bulk_write 45120 [10, 0], reg_op.bulk_write 45122 [50, 0],
        reg_op.bulk_write 45124 [90, 0]] }
    ⟨[{ lpg_channel_zero with
        ramp_duration_ms := 300, ramp_hi_pause_ms := 250, pattern_hi_idx := 2 }]⟩
    ⟨100, 10⟩
    { lpg_channel_zero with
      ramp_duration_ms := 300, ramp_hi_pause_ms := 250, pattern_hi_idx := 2 }
    (by decide) rfl (List.mem_singleton.mpr rfl) (by decide) (by decide) (by decide)
    (by decide) (by decide) (by decide) (by decide)
  ⟨by decide, h.2.2.1, h.2.2.2.2.trans (by decide)⟩

set_option maxRecDepth 100000 in
/-- C23 (counterexample): two patterns that `lpg_pattern_set` compiles with
return value 0 and whose product `t * L` fits 32 bits, for which the registers
do not get the rounded-up quotients.  With entries of `delta_t` 2, 2 and
4294967295 (`t = 2`, `L = 3`, `ramp_hi_pause_ms = 4294967295`) the addition
`4294967295 + 2 - 1` of `DIV_ROUND_UP` wraps to 0 in the 32-bit `unsigned long`
and the hi-pause register gets 0, not `ceil(4294967295 / 2) = 2147483648`.  With
`t = 1431655765` and `L = 3` (`t * L = 2^32 - 1`) the addition
`t * L + L - 1` wraps to 1, the step is 0, not `t`, and the pause divisions
divide by zero. -/
theorem lpg_pattern_set_step_wraps :
    lpg_pattern_set (lpg_lut_init 0xb000 8) ⟨[lpg_channel_zero]⟩
        [⟨2, 10⟩, ⟨2, 50⟩, ⟨4294967295, 90⟩] 3 (-1) =
      some (0,
        { lpg_lut_init 0xb000 8 with
          lut_bitmap := [true, true, true, false, false, false, false, false],
          map := [reg_op.bulk_write 45120 [10, 0], reg_op.bulk_write 45122 [50, 0],
            reg_op.bulk_write 45124 [90, 0]] },
        ⟨[{ lpg_channel_zero with
            ramp_duration_ms := 6, ramp_hi_pause_ms := 4294967295, pattern_hi_idx := 2 }]⟩) ∧
    2 * 3 < 2 ^ 32 ∧
    lut_step { lpg_channel_zero with
      ramp_duration_ms := 6, ramp_hi_pause_ms := 4294967295, pattern_hi_idx := 2,
      ramp_enabled := true } = some 2 ∧
    lpg_apply_lut_control { lpg_channel_zero with
        ramp_duration_ms := 6, ramp_hi_pause_ms := 4294967295, pattern_hi_idx := 2,
        ramp_enabled := true } = some
      [ reg_op.write 0x40 26, reg_op.write 0x56 2, reg_op.write 0x57 0,
        reg_op.write 0x50 2, reg_op.write 0x52 0, reg_op.write 0x54 0 ] ∧
    (4294967295 + 2 - 1) / 2 = 2147483648 ∧
    lpg_pattern_set (lpg_lut_init 0xb000 8) ⟨[lpg_channel_zero]⟩
        [⟨1431655765, 10⟩, ⟨1431655765, 50⟩, ⟨1431655765, 90⟩] 3 (-1) =
      some (0,
        { lpg_lut_init 0xb000 8 with
          lut_bitmap := [true, true, true, false, false, false, false, false],
          map := [reg_op.bulk_write 45120 [10, 0], reg_op.bulk_write 45122 [50, 0],
            reg_op.bulk_write 45124 [90, 0]] },
        ⟨[{ lpg_channel_zero with
            ramp_duration_ms := 4294967295, ramp_hi_pause_ms := 1431655765,
            pattern_hi_idx := 2 }]⟩) ∧
    1431655765 * 3 < 2 ^ 32 ∧
    lut_step { lpg_channel_zero with
      ramp_duration_ms := 4294967295, ramp_hi_pause_ms := 1431655765, pattern_hi_idx := 2,
      ramp_enabled := true } = some 0 ∧
    lpg_apply_lut_control { lpg_channel_zero with
      ramp_duration_ms := 4294967295, ramp_hi_pause_ms := 1431655765, pattern_hi_idx := 2,
      ramp_enabled := true } = none := by
  decide

/-! ### The register trace of `lpg_brightness_set` -/

theorem lpg_calc_freq_ramp_frame (chan : lpg_channel) (period_us : Nat) :
    (lpg_calc_freq chan period_us).ramp_duration_ms = chan.ramp_duration_ms ∧
    (lpg_calc_freq chan period_us).ramp_hi_pause_ms = chan.ramp_hi_pause_ms ∧
    (lpg_calc_freq chan period_us).ramp_lo_pause_ms = chan.ramp_lo_pause_ms := by
  by_cases h : period_us = chan.period_us
  · have e : lpg_calc_freq chan period_us = chan := by
      unfold lpg_calc_freq
      rw [if_pos h]
    rw [e]
    exact ⟨rfl, rfl, rfl⟩
  · rw [lpg_calc_freq_fields chan period_us h _ rfl]
    exact ⟨rfl, rfl, rfl⟩

theorem lpg_calc_duty_frame (chan : lpg_channel) (duty_us : Nat) (c : lpg_channel)
    (h : lpg_calc_duty chan duty_us = some c) : ∃ v, c = { chan with pwm_value := v } := by
  unfold lpg_calc_duty at h
  dsimp only at h
  split at h
  · contradiction
  · injection h with h
    exact ⟨_, h.symm⟩

theorem lpg_calc_duty_some (chan : lpg_channel) (duty_us : Nat) (hp : chan.period_us ≠ 0) :
    ∃ c, lpg_calc_duty chan duty_us = some c := by
  unfold lpg_calc_duty div_u64
  rw [if_neg hp]
  exact ⟨_, rfl⟩

/-- What the loop body of `lpg_brightness_set` leaves in the channel: the masks
and the pattern range are kept, `enabled` says whether the brightness is
non-zero, `ramp_enabled` whether in addition the channel holds a pattern. -/
theorem brightness_chan_frame (chan : lpg_channel) (b maxb : Nat) (c : lpg_channel)
    (h : brightness_chan chan b maxb = some c) :
    c.triled_mask = chan.triled_mask ∧ c.lut_mask = chan.lut_mask ∧
    c.enabled = decide (b ≠ 0) ∧
    c.ramp_enabled = decide (b ≠ 0 ∧ chan.pattern_lo_idx ≠ chan.pattern_hi_idx) := by
  obtain ⟨_, _, _, _, ht, hl, _⟩ := lpg_calc_freq_frame chan NSEC_PER_USEC
  unfold brightness_chan at h
  split at h
  · rename_i hb
    injection h with h
    subst h
    simp [hb]
  · rename_i hb
    split at h
    · rename_i hne
      injection h with h
      subst h
      simp [hb, hne, ht, hl]
    · rename_i he
      split at h
      · contradiction
      · split at h
        · contradiction
        · rename_i c1 hc1
          injection h with h
          subst h
          obtain ⟨v, hv⟩ := lpg_calc_duty_frame _ _ _ hc1
          rw [hv]
          simp [hb, he, ht, hl]

theorem lpg_apply_ops_congr (l l1 : lpg) (chan : lpg_channel)
    (h : l1.pwm_9bit_mask = l.pwm_9bit_mask) : lpg_apply_ops l1 chan = lpg_apply_ops l chan := by
  unfold lpg_apply_ops lpg_apply_freq
  rw [h]

theorem lpg_apply_eq (l : lpg) (chan : lpg_channel) (l1 : lpg) (h : lpg_apply l chan = some l1) :
    ∃ ops, lpg_apply_ops l chan = some ops ∧ l1 = { l with map := l.map ++ ops } := by
  unfold lpg_apply at h
  split at h
  · contradiction
  · rename_i ops hops
    injection h with h
    exact ⟨ops, hops, h.symm⟩

/-- The loop of `lpg_brightness_set`: the device gets the apply operations of
the channels, in order, and the masks are the running disjunctions. -/
theorem brightness_loop_trace (maxb : Nat) :
    ∀ (chans : List lpg_channel) (bs : List Nat) (l : lpg) (acc : brightness_masks)
      (l2 : lpg) (acc2 : brightness_masks) (cs : List lpg_channel),
      brightness_loop maxb chans bs l acc = some (l2, acc2, cs) →
      ∃ opss : List (List reg_op),
        List.Forall₂ (fun c ops => lpg_apply_ops l c = some ops) cs opss ∧
        l2 = { l with map := l.map ++ opss.flatten } ∧
        cs.length = chans.length ∧
        acc2.triled_mask = cs.foldl (fun a c => a ||| c.triled_mask) acc.triled_mask ∧
        acc2.triled_enabled =
          cs.foldl (fun a c => if c.enabled then a ||| c.triled_mask else a) acc.triled_enabled ∧
        acc2.lut_mask =
          cs.foldl (fun a c => if c.ramp_enabled then a ||| c.lut_mask else a) acc.lut_mask := by
  intro chans
  induction chans with
  | nil =>
    intro bs l acc l2 acc2 cs h
    unfold brightness_loop at h
    injection h with h
    injection h with h1 h
    injection h with h2 h3
    subst h1 h2 h3
    exact ⟨[], List.Forall₂.nil, by simp, rfl, rfl, rfl, rfl⟩
  | cons chan rest ih =>
    intro bs l acc l2 acc2 cs h
    cases bs with
    | nil =>
      unfold brightness_loop at h
      contradiction
    | cons b bs =>
      unfold brightness_loop at h
      split at h
      · contradiction
      · rename_i c hc
        split at h
        · contradiction
        · rename_i l1 hl1
          split at h
          · contradiction
          · rename_i l2a acc2a cs1 hrest
            injection h with h
            injection h with h1 h
            injection h with h2 h3
            subst h1 h2 h3
            obtain ⟨ops, hops, hl1eq⟩ := lpg_apply_eq l c l1 hl1
            obtain ⟨opss, hall, hl2, hlen, htm, hte, hlm⟩ := ih bs l1 _ _ _ _ hrest
            obtain ⟨ft, fl, fe, fr⟩ := brightness_chan_frame chan b maxb c hc
            have h9 : l1.pwm_9bit_mask = l.pwm_9bit_mask := by rw [hl1eq]
            refine ⟨ops :: opss, List.Forall₂.cons hops ?_, ?_, ?_, ?_, ?_, ?_⟩
            · refine List.Forall₂.imp ?_ hall
              intro c1 o1 ho
              rw [← lpg_apply_ops_congr l l1 c1 h9]
              exact ho
            · rw [hl2, hl1eq]
              simp [List.append_assoc]
            · simp [hlen]
            · rw [htm, List.foldl_cons, ft]
              rfl
            · rw [hte, List.foldl_cons, fe, ft]
              unfold brightness_masks_step
              by_cases hb : b = 0
              · simp [hb]
              · simp [hb]
            · rw [hlm, List.foldl_cons, fr, fl]
              unfold brightness_masks_step
              by_cases hb : b ≠ 0 ∧ chan.pattern_lo_idx ≠ chan.pattern_hi_idx
              · simp [hb]
              · simp only [hb, decide_False, if_false]
                simp

theorem lut_step_ne_zero_apply (l : lpg) (c : lpg_channel) (step : Nat)
    (hs : lut_step c = some step) (h0 : step ≠ 0) : ∃ l1, lpg_apply l c = some l1 := by
  have hd : ∀ x, ∃ q, DIV_ROUND_UP x step = some q := by
    intro x
    unfold DIV_ROUND_UP
    rw [if_neg h0]
    exact ⟨_, rfl⟩
  obtain ⟨q1, hq1⟩ := hd c.ramp_hi_pause_ms
  obtain ⟨q2, hq2⟩ := hd c.ramp_lo_pause_ms
  have e : ∃ lut, lpg_apply_lut_control c = some lut := by
    unfold lpg_apply_lut_control
    split
    · exact ⟨_, rfl⟩
    · simp only [hs, hq1, hq2]
      exact ⟨_, rfl⟩
  obtain ⟨lut, hlut⟩ := e
  unfold lpg_apply lpg_apply_ops
  rw [hlut]
  exact ⟨_, rfl⟩

/-- The loop body of `lpg_brightness_set` returns for a non-zero
`max_brightness` when the step of a held pattern is not zero. -/
theorem brightness_chan_apply_some (l : lpg) (chan : lpg_channel) (b maxb : Nat)
    (hmax : maxb ≠ 0)
    (hdiv : chan.pattern_lo_idx ≠ chan.pattern_hi_idx →
      ∃ step, lut_step chan = some step ∧ step ≠ 0) :
    ∃ c l1, brightness_chan chan b maxb = some c ∧ lpg_apply l c = some l1 := by
  unfold brightness_chan
  split
  · exact ⟨_, _, rfl, lpg_apply_no_ramp l _ rfl⟩
  · split
    · rename_i hne
      obtain ⟨step, hs, h0⟩ := hdiv hne
      obtain ⟨flo, fhi, _, _, _, _, _⟩ := lpg_calc_freq_frame chan NSEC_PER_USEC
      obtain ⟨fd, _, _⟩ := lpg_calc_freq_ramp_frame chan NSEC_PER_USEC
      have hs1 : lut_step { lpg_calc_freq chan NSEC_PER_USEC with
          enabled := true, ramp_enabled := true } = some step := by
        rw [← hs]
        unfold lut_step lut_pattern_len
        dsimp only
        rw [flo, fhi, fd]
      obtain ⟨l1, hl1⟩ := lut_step_ne_zero_apply l _ step hs1 h0
      exact ⟨_, l1, rfl, hl1⟩
    · have hp : (lpg_calc_freq chan NSEC_PER_USEC).period_us ≠ 0 := by
        rw [lpg_calc_freq_period]
        decide
      obtain ⟨c, hc⟩ := lpg_calc_duty_some (lpg_calc_freq chan NSEC_PER_USEC)
        (u32 (b * (lpg_calc_freq chan NSEC_PER_USEC).period_us) / maxb) hp
      rw [hc]
      exact ⟨_, _, rfl, lpg_apply_no_ramp l _ rfl⟩

theorem brightness_loop_some (maxb : Nat) (hmax : maxb ≠ 0) :
    ∀ (chans : List lpg_channel) (bs : List Nat) (l : lpg) (acc : brightness_masks),
      chans.length ≤ bs.length →
      (∀ c ∈ chans, c.pattern_lo_idx ≠ c.pattern_hi_idx →
        ∃ step, lut_step c = some step ∧ step ≠ 0) →
      ∃ r, brightness_loop maxb chans bs l acc = some r := by
  intro chans
  induction chans with
  | nil =>
    intro bs l acc _ _
    unfold brightness_loop
    exact ⟨_, rfl⟩
  | cons chan rest ih =>
    intro bs l acc hlen hdiv
    cases bs with
    | nil => simp at hlen
    | cons b bs =>
      obtain ⟨c, l1, hc, hl1⟩ := brightness_chan_apply_some l chan b maxb hmax
        (hdiv chan (List.mem_cons_self _ _))
      obtain ⟨r, hr⟩ := ih bs l1 (brightness_masks_step chan b acc)
        (by simpa using hlen) (fun c hc => hdiv c (List.mem_cons_of_mem _ hc))
      unfold brightness_loop
      simp only [hc, hl1, hr]
      exact ⟨_, rfl⟩

/-- C16: the register trace of `lpg_brightness_set`.  Whenever the call returns,
the operations it appended to the bus are the apply operations of the channels
of the LED, channel by channel, followed by at most one update of the TRILED
enable register (issued iff the disjunction of the `triled_mask` of all
channels is non-zero and `triled_base` is non-zero; its mask is that
disjunction, its value the disjunction over the channels left enabled),
followed by at most one write of the LUT ramp control register (issued iff the
disjunction of the `lut_mask` of the channels left ramp-enabled is non-zero,
with that disjunction as value).  The call returns when `max_brightness` is
non-zero, `subleds` has an entry for every channel and no channel holding a
pattern has a zero step. -/
theorem lpg_brightness_set_trace (l : lpg) (led : lpg_led) (maxb : Nat) (subleds : List Nat) :
    (∀ l1 led1, lpg_brightness_set l led maxb subleds = some (l1, led1) →
      ∃ opss : List (List reg_op),
        List.Forall₂ (fun c ops => lpg_apply_ops l c = some ops) led1.channels opss ∧
        led1.channels.length = led.channels.length ∧
        l1.map = l.map ++ opss.flatten ++
          (if led1.channels.foldl (fun a c => a ||| c.triled_mask) 0 ≠ 0 ∧ l.triled_base ≠ 0
           then [reg_op.update_bits (u32 (l.triled_base + TRI_LED_EN_CTL))
                  (led1.channels.foldl (fun a c => a ||| c.triled_mask) 0)
                  (led1.channels.foldl
                    (fun a c => if c.enabled then a ||| c.triled_mask else a) 0)]
           else []) ++
          (if led1.channels.foldl
                (fun a c => if c.ramp_enabled then a ||| c.lut_mask else a) 0 ≠ 0
           then [reg_op.write (u32 (l.lut_base + RAMP_CONTROL_REG))
                  (led1.channels.foldl
                    (fun a c => if c.ramp_enabled then a ||| c.lut_mask else a) 0)]
           else [])) ∧
    (maxb ≠ 0 → led.channels.length ≤ subleds.length →
      (∀ c ∈ led.channels, c.pattern_lo_idx ≠ c.pattern_hi_idx →
        ∃ step, lut_step c = some step ∧ step ≠ 0) →
      ∃ l1 led1, lpg_brightness_set l led maxb subleds = some (l1, led1)) := by
  constructor
  · intro l1 led1 h
    unfold lpg_brightness_set at h
    split at h
    · contradiction
    · rename_i la acc chans hloop
      obtain ⟨opss, hall, hla, hlen, htm, hte, hlm⟩ :=
        brightness_loop_trace maxb led.channels subleds l ⟨0, 0, 0⟩ la acc chans hloop
      dsimp only at h htm hte hlm
      injection h with h
      injection h with h1 h2
      subst h2
      refine ⟨opss, hall, hlen, ?_⟩
      dsimp only
      rw [← htm, ← hte, ← hlm, ← h1, hla]
      unfold triled_set lpg_lut_sync
      by_cases ht : acc.triled_mask = 0 <;> by_cases hb : l.triled_base = 0 <;>
        by_cases hl : acc.lut_mask = 0 <;> simp [ht, hb, hl]
  · intro hmax hlen hdiv
    obtain ⟨⟨la, acc, chans⟩, hr⟩ :=
      brightness_loop_some maxb hmax led.channels subleds l ⟨0, 0, 0⟩ hlen hdiv
    unfold lpg_brightness_set
    rw [hr]
    exact ⟨_, _, rfl⟩

set_option maxRecDepth 100000 in
theorem lpg_brightness_set_trace_witness :
    (255 : Nat) ≠ 0 ∧ brightness_example_led.channels.length ≤ [255, 0, 128].length ∧
    ∃ l1 led1,
      lpg_brightness_set brightness_example_lpg brightness_example_led 255 [255, 0, 128] =
        some (l1, led1) ∧
      ∃ opss : List (List reg_op),
        List.Forall₂ (fun c ops => lpg_apply_ops brightness_example_lpg c = some ops)
          led1.channels opss ∧
        led1.channels.length = brightness_example_led.channels.length ∧
        l1.map = brightness_example_lpg.map ++ opss.flatten ++
          (if led1.channels.foldl (fun a c => a ||| c.triled_mask) 0 ≠ 0 ∧
              brightness_example_lpg.triled_base ≠ 0
           then [reg_op.update_bits (u32 (brightness_example_lpg.triled_base + TRI_LED_EN_CTL))
                  (led1.channels.foldl (fun a c => a ||| c.triled_mask) 0)
                  (led1.channels.foldl
                    (fun a c => if c.enabled then a ||| c.triled_mask else a) 0)]
           else []) ++
          (if led1.channels.foldl
                (fun a c => if c.ramp_enabled then a ||| c.lut_mask else a) 0 ≠ 0
           then [reg_op.write (u32 (brightness_example_lpg.lut_base + RAMP_CONTROL_REG))
                  (led1.channels.foldl
                    (fun a c => if c.ramp_enabled then a ||| c.lut_mask else a) 0)]
           else []) :=
  have t := lpg_brightness_set_trace brightness_example_lpg brightness_example_led 255
    [255, 0, 128]
  have hdiv : ∀ c ∈ brightness_example_led.channels, c.pattern_lo_idx ≠ c.pattern_hi_idx →
      ∃ step, lut_step c = some step ∧ step ≠ 0 := by
    intro c hc hne
    simp only [brightness_example_led, List.mem_cons, List.mem_singleton, List.mem_nil_iff,
      or_false] at hc
    rcases hc with rfl | rfl | rfl
    · exact ⟨100, by decide, by decide⟩
    · exact absurd rfl hne
    · exact absurd rfl hne
  have hex := t.2 (by decide) (by decide) hdiv
  ⟨by decide, by decide, hex.elim fun l1 h1 => h1.elim fun led1 h =>
    ⟨l1, led1, h, t.1 l1 led1 h⟩⟩

/-! ### What the four LED operations do to the pattern ranges and the LUT -/

theorem brightness_chan_idx (chan : lpg_channel) (b maxb : Nat) (c : lpg_channel)
    (h : brightness_chan chan b maxb = some c) :
    c.pattern_lo_idx = chan.pattern_lo_idx ∧ c.pattern_hi_idx = chan.pattern_hi_idx := by
  obtain ⟨flo, fhi, _⟩ := lpg_calc_freq_frame chan NSEC_PER_USEC
  unfold brightness_chan at h
  split at h
  · injection h with h
    subst h
    exact ⟨rfl, rfl⟩
  · split at h
    · injection h with h
      subst h
      exact ⟨flo, fhi⟩
    · split at h
      · contradiction
      · split at h
        · contradiction
        · rename_i c1 hc1
          injection h with h
          subst h
          obtain ⟨v, hv⟩ := lpg_calc_duty_frame _ _ _ hc1
          rw [hv]
          exact ⟨flo, fhi⟩

theorem brightness_loop_ranges (maxb : Nat) :
    ∀ (chans : List lpg_channel) (bs : List Nat) (l : lpg) (acc : brightness_masks)
      (l2 : lpg) (acc2 : brightness_masks) (cs : List lpg_channel),
      brightness_loop maxb chans bs l acc = some (l2, acc2, cs) →
      cs.map (fun c => (c.pattern_lo_idx, c.pattern_hi_idx)) =
        chans.map (fun c => (c.pattern_lo_idx, c.pattern_hi_idx)) := by
  intro chans
  induction chans with
  | nil =>
    intro bs l acc l2 acc2 cs h
    unfold brightness_loop at h
    injection h with h
    injection h with h1 h
    injection h with h2 h3
    subst h3
    rfl
  | cons chan rest ih =>
    intro bs l acc l2 acc2 cs h
    cases bs with
    | nil =>
      unfold brightness_loop at h
      contradiction
    | cons b bs =>
      unfold brightness_loop at h
      split at h
      · contradiction
      · rename_i c hc
        split at h
        · contradiction
        · rename_i l1 hl1
          split at h
          · contradiction
          · rename_i l2a acc2a cs1 hrest
            injection h with h
            injection h with h1 h
            injection h with h2 h3
            subst h3
            obtain ⟨elo, ehi⟩ := brightness_chan_idx chan b maxb c hc
            rw [List.map_cons, List.map_cons, ih bs l1 _ _ _ _ hrest, elo, ehi]

/-- The function `lpg_brightness_set` keeps the pattern ranges of the channels
and changes nothing of the device but the register trace. -/
theorem lpg_brightness_set_ranges (l : lpg) (led : lpg_led) (maxb : Nat) (subleds : List Nat)
    (l1 : lpg) (led1 : lpg_led) (h : lpg_brightness_set l led maxb subleds = some (l1, led1)) :
    led_ranges led1 = led_ranges led ∧ l1.lut_size = l.lut_size ∧
      l1.lut_bitmap = l.lut_bitmap := by
  unfold lpg_brightness_set at h
  split at h
  · contradiction
  · rename_i la acc chans hloop
    obtain ⟨opss, _, hla, _⟩ :=
      brightness_loop_trace maxb led.channels subleds l ⟨0, 0, 0⟩ la acc chans hloop
    have hr := brightness_loop_ranges maxb led.channels subleds l ⟨0, 0, 0⟩ la acc chans hloop
    dsimp only at h
    injection h with h
    injection h with h1 h2
    subst h2
    refine ⟨hr, ?_, ?_⟩
    · rw [← h1, hla]
      unfold triled_set lpg_lut_sync
      split <;> split <;> (try split) <;> rfl
    · rw [← h1, hla]
      unfold triled_set lpg_lut_sync
      split <;> split <;> (try split) <;> rfl

theorem blink_loop_ranges (period_us duty_us : Nat) :
    ∀ (chans : List lpg_channel) (l l2 : lpg) (cs : List lpg_channel),
      blink_loop period_us duty_us chans l = some (l2, cs) →
      cs.map (fun c => (c.pattern_lo_idx, c.pattern_hi_idx)) =
        chans.map (fun c => (c.pattern_lo_idx, c.pattern_hi_idx)) ∧
      l2.lut_size = l.lut_size ∧ l2.lut_bitmap = l.lut_bitmap := by
  intro chans
  induction chans with
  | nil =>
    intro l l2 cs h
    unfold blink_loop at h
    injection h with h
    injection h with h1 h2
    subst h1 h2
    exact ⟨rfl, rfl, rfl⟩
  | cons chan rest ih =>
    intro l l2 cs h
    unfold blink_loop at h
    split at h
    · contradiction
    · rename_i c hc
      split at h
      · contradiction
      · rename_i l1 hl1
        split at h
        · contradiction
        · rename_i l2a cs1 hrest
          injection h with h
          injection h with h1 h2
          subst h1 h2
          obtain ⟨hm, hs, hb⟩ := ih l1 _ _ hrest
          obtain ⟨ops, _, hl1eq⟩ := lpg_apply_eq l _ l1 hl1
          obtain ⟨v, hv⟩ := lpg_calc_duty_frame _ _ _ hc
          obtain ⟨flo, fhi, _⟩ := lpg_calc_freq_frame chan period_us
          refine ⟨?_, ?_, ?_⟩
          · rw [List.map_cons, List.map_cons, hm, hv]
            dsimp only
            rw [flo, fhi]
          · rw [hs, hl1eq]
          · rw [hb, hl1eq]

/-- The function `lpg_blink_set` keeps the pattern ranges of the channels and
changes nothing of the device but the register trace. -/
theorem lpg_blink_set_ranges (l : lpg) (led : lpg_led) (delay_on delay_off : Nat) (ret : Int)
    (l1 : lpg) (led1 : lpg_led)
    (h : lpg_blink_set l led delay_on delay_off = some (ret, l1, led1)) :
    led_ranges led1 = led_ranges led ∧ l1.lut_size = l.lut_size ∧
      l1.lut_bitmap = l.lut_bitmap := by
  unfold lpg_blink_set at h
  dsimp only at h
  split at h
  · contradiction
  · rename_i la chans hloop
    injection h with h
    injection h with _ h
    injection h with h1 h2
    subst h1 h2
    exact blink_loop_ranges _ _ led.channels l _ _ hloop

/-- The ways `lpg_pattern_set` can return: without any change, or after a
successful store, with every channel of the LED given the stored range. -/
theorem lpg_pattern_set_cases (l : lpg) (led : lpg_led) (pattern : List led_pattern)
    (len : Nat) (rep : Int) (ret : Int) (l1 : lpg) (led1 : lpg_led)
    (h : lpg_pattern_set l led pattern len rep = some (ret, l1, led1)) :
    (l1 = l ∧ led1 = led) ∨
    ∃ ping_pong hi_pause lo_pause len1 r,
      pattern_pauses pattern len ping_pong = some (hi_pause, lo_pause, len1) ∧
      lpg_lut_store l pattern len1 0 0 = some r ∧ ¬ r.ret < 0 ∧ l1 = r.lpg ∧
      led_ranges led1 = led.channels.map (fun _ => (r.lo_idx, r.hi_idx)) := by
  unfold lpg_pattern_set at h
  split at h
  · injection h with h
    injection h with _ h
    injection h with h1 h2
    exact Or.inl ⟨h1.symm, h2.symm⟩
  · split at h
    · contradiction
    · rename_i pp hpp
      split at h
      · contradiction
      · rename_i hip lop len1 hpa
        split at h
        · contradiction
        · rename_i r hs
          split at h
          · rename_i hneg
            injection h with h
            injection h with _ h
            injection h with h1 h2
            refine Or.inl ⟨?_, h2.symm⟩
            rw [← h1]
            exact lpg_lut_store_error l pattern len1 0 0 r hs hneg
          · rename_i hnn
            split at h
            · contradiction
            · rename_i chans hch
              injection h with h
              injection h with _ h
              injection h with h1 h2
              refine Or.inr ⟨pp, hip, lop, len1, r, hpa, hs, hnn, h1.symm, ?_⟩
              rw [← h2]
              unfold led_ranges
              dsimp only
              cases hf : pattern[0]? with
              | none =>
                cases hc : led.channels with
                | nil =>
                  rw [hc] at hch
                  unfold pattern_set_channels at hch
                  injection hch with hch
                  rw [← hch]
                  rfl
                | cons c0 rest =>
                  rw [hc] at hch
                  unfold pattern_set_channels at hch
                  rw [hf] at hch
                  simp at hch
              | some first =>
                rw [pattern_set_channels_some pattern len1 pp (decide (rep ≠ -1)) lop hip
                  r.lo_idx r.hi_idx first hf led.channels] at hch
                injection hch with hch
                rw [← hch, List.map_map]
                rfl

/-- The function `lpg_pattern_clear` gives every channel the range `(0, 0)`,
frees the range of `channels[0]` and keeps everything else. -/
theorem lpg_pattern_clear_cases (l : lpg) (led : lpg_led) (ret : Int) (l1 : lpg)
    (led1 : lpg_led) (h : lpg_pattern_clear l led = some (ret, l1, led1)) :
    ∃ chan rest, led.channels = chan :: rest ∧
      l1 = lpg_lut_free l chan.pattern_lo_idx chan.pattern_hi_idx ∧
      led_ranges led1 = led.channels.map (fun _ => (0, 0)) ∧
      led1.channels.map (fun c => c.ramp_enabled) =
        led.channels.map (fun c => c.ramp_enabled) := by
  unfold lpg_pattern_clear at h
  split at h
  · contradiction
  · rename_i chan rest hc
    injection h with h
    injection h with _ h
    injection h with h1 h2
    refine ⟨chan, rest, hc, h1.symm, ?_, ?_⟩
    · rw [← h2]
      unfold led_ranges
      dsimp only
      rw [List.map_map]
      rfl
    · rw [← h2]
      dsimp only
      rw [List.map_map]
      rfl

/-! ### The pattern range of a channel over sequences of LED operations -/

theorem lpg_lut_free_size (l : lpg) (lo_idx hi_idx : Nat) :
    (lpg_lut_free l lo_idx hi_idx).lut_size = l.lut_size := by
  unfold lpg_lut_free
  split <;> rfl

/-- A successful `lpg_pattern_set` stores a range with `lo_idx < hi_idx` that
ends below the LUT size; the LUT size is kept. -/
theorem lpg_pattern_set_range (l : lpg) (led : lpg_led) (pattern : List led_pattern)
    (len : Nat) (rep : Int) (ret : Int) (l1 : lpg) (led1 : lpg_led)
    (hsize : l.lut_size < UINT_MAX) (h1 : 1 ≤ len) (hlen32 : len + 1 < 2 ^ 32)
    (h : lpg_pattern_set l led pattern len rep = some (ret, l1, led1)) :
    (l1 = l ∧ led1 = led) ∨
    ∃ lo hi len1, lo < hi ∧ hi = lo + len1 - 1 ∧ lo + len1 ≤ l.lut_size ∧
      bitmap_area_free l.lut_bitmap lo len1 = true ∧
      l1.lut_bitmap = bitmap_set l.lut_bitmap lo len1 ∧ l1.lut_size = l.lut_size ∧
      led_ranges led1 = led.channels.map (fun _ => (lo, hi)) := by
  rcases lpg_pattern_set_cases l led pattern len rep ret l1 led1 h with
    hu | ⟨pp, hip, lop, len1, r, hpa, hs, hnn, hl1, hran⟩
  · exact Or.inl hu
  · obtain ⟨hl1a, hl32⟩ := pattern_pauses_len pattern len pp hip lop len1 h1 hlen32 hpa
    have hne1 : (-EINVAL : Int) < 0 := by decide
    have hne2 : (-ENOMEM : Int) < 0 := by decide
    rcases lpg_lut_store_cases l pattern len1 0 0 hsize hl1a hl32 r hs with
      ⟨_, hr⟩ | ⟨_, hr, _⟩ | ⟨h2, _, hfit, hfree, _, hidx, hbm, hsz, _⟩
    · rw [hr] at hnn
      exact absurd hne1 hnn
    · rw [hr] at hnn
      exact absurd hne2 hnn
    · refine Or.inr ⟨r.lo_idx, r.hi_idx, len1, by omega, hidx, hfit, hfree, ?_, ?_, hran⟩
      · rw [hl1, hbm]
      · rw [hl1, hsz]

theorem getElem?_set_cases {α : Type} (rs : List α) (k j : Nat) (new x : α)
    (h : (rs.set k new)[j]? = some x) :
    (j = k ∧ x = new) ∨ (j ≠ k ∧ rs[j]? = some x) := by
  rw [List.getElem?_set] at h
  by_cases hkj : k = j
  · rw [if_pos hkj] at h
    split at h
    · injection h with h
      exact Or.inl ⟨hkj.symm, h.symm⟩
    · contradiction
  · rw [if_neg hkj] at h
    exact Or.inr ⟨fun e => hkj e.symm, h⟩

theorem map_set_same {α β : Type} (f : α → β) :
    ∀ (xs : List α) (k : Nat) (x y : α), xs[k]? = some x → f y = f x →
      (xs.set k y).map f = xs.map f := by
  intro xs
  induction xs with
  | nil =>
    intro k x y h _
    simp at h
  | cons a rest ih =>
    intro k x y h hf
    cases k with
    | zero =>
      simp only [List.getElem?_cons_zero, Option.some.injEq] at h
      subst h
      simp only [List.set_cons_zero, List.map_cons, hf]
    | succ k =>
      simp only [List.getElem?_cons_succ] at h
      simp only [List.set_cons_succ, List.map_cons, ih k x y h hf]

/-- Giving the channels of an LED that holds no pattern a freshly stored
range keeps the invariant. -/
theorem ranges_inv_store (N : Nat) (bm : List Bool) (rs : List (List (Nat × Nat)))
    (k : Nat) (old new : List (Nat × Nat)) (lo hi len1 : Nat)
    (hinv : ranges_inv N bm rs) (hold : rs[k]? = some old)
    (hidle : ∀ r ∈ old, r.1 = r.2)
    (hlt : lo < hi) (hhi : hi = lo + len1 - 1) (hfit : lo + len1 ≤ N)
    (hfree : bitmap_area_free bm lo len1 = true)
    (hne : new ≠ []) (hall : ∀ r ∈ new, r = (lo, hi)) :
    ranges_inv N (bitmap_set bm lo len1) (rs.set k new) := by
  obtain ⟨hlen, hU, hR, hB, hD⟩ := hinv
  have hklt : k < rs.length := (List.getElem?_eq_some.mp hold).1
  have hnewk : (rs.set k new)[k]? = some new := by
    rw [List.getElem?_set, if_pos rfl, if_pos hklt]
  have hother : ∀ (j : Nat) (x : List (Nat × Nat)), j ≠ k → rs[j]? = some x → (rs.set k new)[j]? = some x := by
    intro j x hj hx
    rw [List.getElem?_set, if_neg (fun e => hj e.symm)]
    exact hx
  rw [bitmap_area_free_iff] at hfree
  have hfd : ∀ (j : Nat) (rl : List (Nat × Nat)) (s : Nat × Nat),
      rs[j]? = some rl → s ∈ rl → s.1 ≠ s.2 →
      ranges_disjoint (lo, hi) s := by
    intro j rl s hj hs hs'
    have hw := hR j rl hj s hs hs'
    unfold ranges_disjoint
    dsimp only
    by_contra hcon
    have hset : bitmap_test bm (max lo s.1) = true :=
      (hB _).mpr ⟨j, rl, s, hj, hs, hs', by unfold in_range; omega⟩
    have hclear := hfree (max lo s.1 - lo) (by omega)
    have e : lo + (max lo s.1 - lo) = max lo s.1 := by omega
    rw [e, hset] at hclear
    exact absurd hclear (by simp)
  refine ⟨?_, ?_, ?_, ?_, ?_⟩
  · unfold bitmap_set
    rw [bitmap_fill_length, hlen]
  · intro j rl h
    rcases getElem?_set_cases rs k j new rl h with ⟨_, e⟩ | ⟨_, h1⟩
    · subst e
      exact ⟨hne, Or.inr (fun r hr s hs => by rw [hall r hr, hall s hs])⟩
    · exact hU j rl h1
  · intro j rl h r hr hne1
    rcases getElem?_set_cases rs k j new rl h with ⟨_, e⟩ | ⟨_, h1⟩
    · subst e
      rw [hall r hr]
      dsimp only
      omega
    · exact hR j rl h1 r hr hne1
  · intro i
    rw [bitmap_set_test _ _ _ _ (by omega)]
    by_cases hi : lo ≤ i ∧ i < lo + len1
    · rw [if_pos hi]
      simp only [true_iff]
      obtain ⟨r0, hr0⟩ := List.exists_mem_of_ne_nil new hne
      refine ⟨k, new, r0, hnewk, hr0, ?_, ?_⟩
      · rw [hall r0 hr0]
        dsimp only
        omega
      · rw [hall r0 hr0]
        unfold in_range
        dsimp only
        omega
    · rw [if_neg hi, hB i]
      constructor
      · rintro ⟨j, rl, r, hj, hr, hne1, hin⟩
        have hjk : j ≠ k := by
          intro e
          rw [e, hold] at hj
          injection hj with hj
          rw [← hj] at hr
          exact hne1 (hidle r hr)
        exact ⟨j, rl, r, hother j rl hjk hj, hr, hne1, hin⟩
      · rintro ⟨j, rl, r, hj, hr, hne1, hin⟩
        rcases getElem?_set_cases rs k j new rl hj with ⟨_, e⟩ | ⟨_, h1⟩
        · subst e
          rw [hall r hr] at hin
          unfold in_range at hin
          dsimp only at hin
          omega
        · exact ⟨j, rl, r, h1, hr, hne1, hin⟩
  · intro j j' rj rk hjj hj hk r hr s hs hr1 hs1
    rcases getElem?_set_cases rs k j new rj hj with ⟨e1, e2⟩ | ⟨n1, h1⟩
    · rcases getElem?_set_cases rs k j' new rk hk with ⟨e3, _⟩ | ⟨_, h2⟩
      · exact absurd (e1.trans e3.symm) hjj
      · subst e2
        rw [hall r hr]
        exact hfd j' rk s h2 hs hs1
    · rcases getElem?_set_cases rs k j' new rk hk with ⟨_, e4⟩ | ⟨_, h2⟩
      · subst e4
        rw [hall s hs]
        have hd := hfd j rj r h1 hr hr1
        unfold ranges_disjoint at hd ⊢
        exact hd.symm
      · exact hD j j' rj rk hjj h1 h2 r hr s hs hr1 hs1

/-- Clearing the range of the first channel of an LED from the bitmap and
giving all its channels the range `(0, 0)` keeps the invariant. -/
theorem ranges_inv_clear (N : Nat) (bm bm1 : List Bool) (rs : List (List (Nat × Nat)))
    (k : Nat) (r0 : Nat × Nat) (rest new : List (Nat × Nat))
    (hinv : ranges_inv N bm rs) (hold : rs[k]? = some (r0 :: rest))
    (hlen1 : bm1.length = N)
    (hbits : ∀ i, bitmap_test bm1 i =
      if r0.1 ≠ r0.2 ∧ r0.1 ≤ i ∧ i ≤ r0.2 then false else bitmap_test bm i)
    (hne : new ≠ []) (hall : ∀ r ∈ new, r = (0, 0)) :
    ranges_inv N bm1 (rs.set k new) := by
  obtain ⟨hlen, hU, hR, hB, hD⟩ := hinv
  have hother : ∀ (j : Nat) (x : List (Nat × Nat)), j ≠ k → rs[j]? = some x → (rs.set k new)[j]? = some x := by
    intro j x hj hx
    rw [List.getElem?_set, if_neg (fun e => hj e.symm)]
    exact hx
  have hold_eq : ∀ r ∈ r0 :: rest, r.1 ≠ r.2 → r = r0 := by
    intro r hr hne1
    rcases (hU k _ hold).2 with hi | hu
    · exact absurd (hi r hr) hne1
    · exact hu r hr r0 (List.mem_cons_self _ _)
  have hnew_idle : ∀ r ∈ new, r.1 = r.2 := by
    intro r hr
    rw [hall r hr]
  refine ⟨hlen1, ?_, ?_, ?_, ?_⟩
  · intro j rl h
    rcases getElem?_set_cases rs k j new rl h with ⟨_, e⟩ | ⟨_, h1⟩
    · subst e
      exact ⟨hne, Or.inl hnew_idle⟩
    · exact hU j rl h1
  · intro j rl h r hr hne1
    rcases getElem?_set_cases rs k j new rl h with ⟨_, e⟩ | ⟨_, h1⟩
    · subst e
      exact absurd (hnew_idle r hr) hne1
    · exact hR j rl h1 r hr hne1
  · intro i
    rw [hbits i]
    by_cases hc : r0.1 ≠ r0.2 ∧ r0.1 ≤ i ∧ i ≤ r0.2
    · rw [if_pos hc]
      constructor
      · intro h
        exact absurd h (by simp)
      · rintro ⟨j, rl, r, hj, hr, hne1, hin⟩
        exfalso
        rcases getElem?_set_cases rs k j new rl hj with ⟨_, e⟩ | ⟨hjk, h1⟩
        · subst e
          exact hne1 (hnew_idle r hr)
        · have hd := hD j k rl _ hjk h1 hold r hr r0 (List.mem_cons_self _ _) hne1 hc.1
          unfold ranges_disjoint at hd
          unfold in_range at hin
          omega
    · rw [if_neg hc, hB i]
      constructor
      · rintro ⟨j, rl, r, hj, hr, hne1, hin⟩
        have hjk : j ≠ k := by
          intro e
          rw [e, hold] at hj
          injection hj with hj
          rw [← hj] at hr
          have e0 := hold_eq r hr hne1
          rw [e0] at hne1 hin
          unfold in_range at hin
          exact hc ⟨hne1, hin.1, hin.2⟩
        exact ⟨j, rl, r, hother j rl hjk hj, hr, hne1, hin⟩
      · rintro ⟨j, rl, r, hj, hr, hne1, hin⟩
        rcases getElem?_set_cases rs k j new rl hj with ⟨_, e⟩ | ⟨_, h1⟩
        · subst e
          exact absurd (hnew_idle r hr) hne1
        · exact ⟨j, rl, r, h1, hr, hne1, hin⟩
  · intro j j' rj rk hjj hj hk r hr s hs hr1 hs1
    rcases getElem?_set_cases rs k j new rj hj with ⟨_, e2⟩ | ⟨_, h1⟩
    · subst e2
      exact absurd (hnew_idle r hr) hr1
    · rcases getElem?_set_cases rs k j' new rk hk with ⟨_, e4⟩ | ⟨_, h2⟩
      · subst e4
        exact absurd (hnew_idle s hs) hs1
      · exact hD j j' rj rk hjj h1 h2 r hr s hs hr1 hs1

/-- The bits of the bitmap after `lpg_lut_free`, for a range that is empty
(`lo == hi`) or lies within a LUT of fewer than `2^32` entries. -/
theorem lpg_lut_free_bits (l : lpg) (lo hi N : Nat) (hN : N < 2 ^ 32)
    (hr : lo ≠ hi → lo < hi ∧ hi < N) :
    (lpg_lut_free l lo hi).lut_bitmap.length = l.lut_bitmap.length ∧
    ∀ i, bitmap_test (lpg_lut_free l lo hi).lut_bitmap i =
      if lo ≠ hi ∧ lo ≤ i ∧ i ≤ hi then false else bitmap_test l.lut_bitmap i := by
  unfold lpg_lut_free
  split
  · rename_i he
    refine ⟨rfl, ?_⟩
    intro i
    rw [if_neg (fun h => h.1 he)]
  · rename_i hne
    obtain ⟨h1, h2⟩ := hr hne
    have hu : u32 (hi + 2 ^ 32 - lo + 1) = hi - lo + 1 := by
      unfold u32
      have e : hi + 2 ^ 32 - lo + 1 = (hi - lo + 1) + 2 ^ 32 := by omega
      rw [e, Nat.add_mod_right, Nat.mod_eq_of_lt (by omega)]
    dsimp only
    rw [hu]
    refine ⟨?_, ?_⟩
    · unfold bitmap_clear
      rw [bitmap_fill_length]
    · intro i
      rw [bitmap_clear_test]
      by_cases hc : lo ≤ i ∧ i < lo + (hi - lo + 1)
      · rw [if_pos hc, if_pos ⟨hne, hc.1, by omega⟩]
      · rw [if_neg hc, if_neg (fun h => hc ⟨h.2.1, by omega⟩)]

theorem led_idle_ranges (led : lpg_led) (h : led_idle led = true) :
    ∀ r ∈ led_ranges led, r.1 = r.2 := by
  intro r hr
  unfold led_idle at h
  rw [List.all_eq_true] at h
  obtain ⟨c, hc, he⟩ := List.mem_map.mp hr
  rw [← he]
  exact of_decide_eq_true (h c hc)

/-- One call keeps the invariant, when a pattern set is issued on an LED that
holds no pattern. -/
theorem dev_step_inv (N : Nat) (hN : N < UINT_MAX) (l : lpg) (leds : List lpg_led)
    (call : dev_call) (l1 : lpg) (leds1 : List lpg_led)
    (hinv : dev_inv N l leds)
    (hcall : ∀ k p len rep, call = dev_call.pattern_set k p len rep →
      1 ≤ len ∧ len + 1 < 2 ^ 32 ∧ ∀ led, leds[k]? = some led → led_idle led = true)
    (h : dev_step l leds call = some (l1, leds1)) :
    dev_inv N l1 leds1 := by
  obtain ⟨hsize, hri⟩ := hinv
  have hN32 : N < 2 ^ 32 := by
    have : UINT_MAX < 2 ^ 32 := by decide
    omega
  have hkeep : ∀ (l2 : lpg) (k : Nat) (led led1 : lpg_led), leds[k]? = some led →
      led_ranges led1 = led_ranges led → l2.lut_size = l.lut_size →
      l2.lut_bitmap = l.lut_bitmap → dev_inv N l2 (leds.set k led1) := by
    intro l2 k led led1 hk hr hs hb
    refine ⟨by rw [hs, hsize], ?_⟩
    rw [hb, map_set_same led_ranges leds k led led1 hk hr]
    exact hri
  have hold : ∀ (k : Nat) (led : lpg_led), leds[k]? = some led →
      (leds.map led_ranges)[k]? = some (led_ranges led) := by
    intro k led hk
    rw [List.getElem?_map, hk]
    rfl
  cases call with
  | brightness_set k maxb subleds =>
    rw [dev_step] at h
    split at h
    · contradiction
    · rename_i led hk
      split at h
      · contradiction
      · rename_i la led1 hb
        injection h with h
        injection h with h1 h2
        subst h1 h2
        obtain ⟨hr, hs, hbm⟩ := lpg_brightness_set_ranges l led maxb subleds _ _ hb
        exact hkeep _ k led led1 hk hr hs hbm
  | blink_set k delay_on delay_off =>
    rw [dev_step] at h
    split at h
    · contradiction
    · rename_i led hk
      split at h
      · contradiction
      · rename_i ret la led1 hb
        injection h with h
        injection h with h1 h2
        subst h1 h2
        obtain ⟨hr, hs, hbm⟩ := lpg_blink_set_ranges l led delay_on delay_off ret _ _ hb
        exact hkeep _ k led led1 hk hr hs hbm
  | pattern_set k pattern len rep =>
    obtain ⟨hl1, hl32, hidle⟩ := hcall k pattern len rep rfl
    rw [dev_step] at h
    split at h
    · contradiction
    · rename_i led hk
      split at h
      · contradiction
      · rename_i ret la led1 hb
        injection h with h
        injection h with h1 h2
        subst h1 h2
        rcases lpg_pattern_set_range l led pattern len rep ret _ _ (by rw [hsize]; exact hN)
          hl1 hl32 hb with ⟨e1, e2⟩ | ⟨lo, hi, len1, hlt, hhi, hfit, hfree, hbm, hsz, hran⟩
        · rw [e1, e2]
          exact hkeep l k led led hk rfl rfl rfl
        · refine ⟨by rw [hsz, hsize], ?_⟩
          rw [hbm, List.map_set, hran]
          have hne0 : led_ranges led ≠ [] := (hri.2.1 k _ (hold k led hk)).1
          refine ranges_inv_store N l.lut_bitmap _ k (led_ranges led) _ lo hi len1 hri
            (hold k led hk) (led_idle_ranges led (hidle led hk)) hlt hhi
            (by rw [← hsize]; exact hfit) hfree ?_ ?_
          · intro hnil
            apply hne0
            unfold led_ranges
            rw [List.map_eq_nil_iff] at hnil ⊢
            exact hnil
          · intro r hr
            obtain ⟨_, _, he⟩ := List.mem_map.mp hr
            exact he.symm
  | pattern_clear k =>
    rw [dev_step] at h
    split at h
    · contradiction
    · rename_i led hk
      split at h
      · contradiction
      · rename_i ret la led1 hb
        injection h with h
        injection h with h1 h2
        subst h1 h2
        obtain ⟨chan, rest, hc, hla, hran, _⟩ := lpg_pattern_clear_cases l led ret _ _ hb
        have ho : (leds.map led_ranges)[k]? = some ((chan.pattern_lo_idx, chan.pattern_hi_idx) ::
            rest.map (fun c => (c.pattern_lo_idx, c.pattern_hi_idx))) := by
          rw [hold k led hk]
          unfold led_ranges
          rw [hc]
          rfl
        have hr0 := hri.2.2.1 k _ ho (chan.pattern_lo_idx, chan.pattern_hi_idx)
          (List.mem_cons_self _ _)
        dsimp only at hr0
        obtain ⟨hlen1, hbits⟩ := lpg_lut_free_bits l chan.pattern_lo_idx chan.pattern_hi_idx N
          hN32 hr0
        refine ⟨by rw [hla, lpg_lut_free_size, hsize], ?_⟩
        rw [List.map_set, hran, hla]
        refine ranges_inv_clear N l.lut_bitmap _ _ k _ _ _ hri ho (by rw [hlen1]; exact hri.1)
          hbits ?_ ?_
        · rw [hc]
          simp
        · intro r hr
          obtain ⟨_, _, he⟩ := List.mem_map.mp hr
          exact he.symm

theorem dev_run_inv (N : Nat) (hN : N < UINT_MAX) (calls : List dev_call) :
    ∀ (l : lpg) (leds : List lpg_led) (l1 : lpg) (leds1 : List lpg_led),
      dev_inv N l leds →
      (∀ k p len rep, dev_call.pattern_set k p len rep ∈ calls →
        1 ≤ len ∧ len + 1 < 2 ^ 32) →
      dev_guarded l leds calls = true →
      dev_run l leds calls = some (l1, leds1) → dev_inv N l1 leds1 := by
  induction calls with
  | nil =>
    intro l leds l1 leds1 hinv _ _ h
    unfold dev_run at h
    injection h with h
    injection h with h1 h2
    subst h1 h2
    exact hinv
  | cons c cs ih =>
    intro l leds l1 leds1 hinv hcalls hg h
    unfold dev_run at h
    split at h
    · contradiction
    · rename_i la ledsa hstep
      rw [dev_guarded, Bool.and_eq_true, hstep] at hg
      obtain ⟨hg1, hg2⟩ := hg
      have hi1 := dev_step_inv N hN l leds c la ledsa hinv
        (by
          intro k p len rep e
          obtain ⟨a, b⟩ := hcalls k p len rep (by rw [e]; exact List.mem_cons_self _ _)
          refine ⟨a, b, ?_⟩
          intro led hk
          rw [e, call_guarded, hk] at hg1
          exact hg1) hstep
      exact ih la ledsa l1 leds1 hi1
        (fun k p len rep hm => hcalls k p len rep (List.mem_cons_of_mem _ hm)) hg2 h

/-- The invariant holds for an empty bitmap and LEDs that hold no pattern. -/
theorem dev_inv_init (N : Nat) (l : lpg) (leds : List lpg_led)
    (hsize : l.lut_size = N) (hbm : l.lut_bitmap = List.replicate N false)
    (hleds : ∀ led ∈ leds, led.channels ≠ [] ∧
      ∀ c ∈ led.channels, c.pattern_lo_idx = c.pattern_hi_idx) :
    dev_inv N l leds := by
  have hget : ∀ (j : Nat) (rl : List (Nat × Nat)), (leds.map led_ranges)[j]? = some rl →
      rl ≠ [] ∧ ∀ r ∈ rl, r.1 = r.2 := by
    intro j rl h
    rw [List.getElem?_map] at h
    cases hj : leds[j]? with
    | none =>
      rw [hj] at h
      contradiction
    | some led =>
      rw [hj] at h
      injection h with h
      obtain ⟨hne, hidle⟩ := hleds led (List.getElem?_mem hj)
      rw [← h]
      refine ⟨?_, ?_⟩
      · intro hnil
        apply hne
        unfold led_ranges at hnil
        rw [List.map_eq_nil_iff] at hnil
        exact hnil
      · intro r hr
        obtain ⟨c, hc, he⟩ := List.mem_map.mp hr
        rw [← he]
        exact hidle c hc
  refine ⟨hsize, ?_, ?_, ?_, ?_, ?_⟩
  · rw [hbm, List.length_replicate]
  · intro j rl h
    exact ⟨(hget j rl h).1, Or.inl (hget j rl h).2⟩
  · intro j rl h r hr hne
    exact absurd ((hget j rl h).2 r hr) hne
  · intro i
    have : bitmap_test l.lut_bitmap i = false := by
      rw [hbm]
      simp only [bitmap_test, List.getD_eq_getElem?_getD, List.getElem?_replicate]
      split <;> rfl
    rw [this]
    constructor
    · intro h
      exact absurd h (by simp)
    · rintro ⟨j, rl, r, hj, hr, hne, _⟩
      exact absurd ((hget j rl hj).2 r hr) hne
  · intro j k rj rk _ hj _ r hr _ _ hne _
    exact absurd ((hget j rj hj).2 r hr) hne

/-- C21 (amended): start from an empty LUT bitmap and LEDs with at least one
channel each, whose channels hold no pattern (`pattern_lo_idx ==
pattern_hi_idx`).  After every sequence of brightness-set, blink-set,
pattern-set and pattern-clear calls on the LEDs of the device in which each
`lpg_pattern_set` is issued on an LED that holds no pattern at that moment, a
bit of the LUT bitmap is set iff its index lies in the range `pattern_lo_idx ..
pattern_hi_idx` (with `lo != hi`) of some channel, and the ranges held by
channels of different LEDs do not overlap. -/
theorem dev_run_lut_bitmap (N : Nat) (l : lpg) (leds : List lpg_led) (calls : List dev_call)
    (l1 : lpg) (leds1 : List lpg_led) (hN : N < UINT_MAX)
    (hsize : l.lut_size = N) (hbm : l.lut_bitmap = List.replicate N false)
    (hleds : ∀ led ∈ leds, led.channels ≠ [] ∧
      ∀ c ∈ led.channels, c.pattern_lo_idx = c.pattern_hi_idx)
    (hcalls : ∀ k p len rep, dev_call.pattern_set k p len rep ∈ calls →
      1 ≤ len ∧ len + 1 < 2 ^ 32)
    (hguard : dev_guarded l leds calls = true)
    (hrun : dev_run l leds calls = some (l1, leds1)) :
    (∀ i, bitmap_test l1.lut_bitmap i = true ↔
      ∃ (j : Nat) (led : lpg_led) (c : lpg_channel), leds1[j]? = some led ∧ c ∈ led.channels ∧
        c.pattern_lo_idx ≠ c.pattern_hi_idx ∧ c.pattern_lo_idx ≤ i ∧ i ≤ c.pattern_hi_idx) ∧
    (∀ (j k : Nat) (ledj ledk : lpg_led), j ≠ k → leds1[j]? = some ledj →
      leds1[k]? = some ledk → ∀ c ∈ ledj.channels, ∀ d ∈ ledk.channels,
        c.pattern_lo_idx ≠ c.pattern_hi_idx → d.pattern_lo_idx ≠ d.pattern_hi_idx →
        c.pattern_hi_idx < d.pattern_lo_idx ∨ d.pattern_hi_idx < c.pattern_lo_idx) := by
  obtain ⟨_, _, _, _, hB, hD⟩ := dev_run_inv N hN calls l leds l1 leds1
    (dev_inv_init N l leds hsize hbm hleds) hcalls hguard hrun
  have hmap : ∀ (j : Nat) (led : lpg_led), leds1[j]? = some led →
      (leds1.map led_ranges)[j]? = some (led_ranges led) := by
    intro j led hj
    rw [List.getElem?_map, hj]
    rfl
  constructor
  · intro i
    rw [hB i]
    constructor
    · rintro ⟨j, rl, r, hj, hr, hne, hin⟩
      rw [List.getElem?_map] at hj
      cases hl : leds1[j]? with
      | none =>
        rw [hl] at hj
        contradiction
      | some led =>
        rw [hl] at hj
        injection hj with hj
        rw [← hj] at hr
        obtain ⟨c, hc, he⟩ := List.mem_map.mp hr
        rw [← he] at hne hin
        exact ⟨j, led, c, hl, hc, hne, hin.1, hin.2⟩
    · rintro ⟨j, led, c, hj, hc, hne, h1, h2⟩
      exact ⟨j, led_ranges led, (c.pattern_lo_idx, c.pattern_hi_idx), hmap j led hj,
        List.mem_map.mpr ⟨c, hc, rfl⟩, hne, h1, h2⟩
  · intro j k ledj ledk hjk hj hk c hc d hd hc1 hd1
    exact hD j k _ _ hjk (hmap j ledj hj) (hmap k ledk hk)
      (c.pattern_lo_idx, c.pattern_hi_idx) (List.mem_map.mpr ⟨c, hc, rfl⟩)
      (d.pattern_lo_idx, d.pattern_hi_idx) (List.mem_map.mpr ⟨d, hd, rfl⟩) hc1 hd1

set_option maxRecDepth 100000 in
theorem dev_run_lut_bitmap_witness :
    ∃ l1 leds1,
      dev_run (lpg_lut_init 0xb000 8) [⟨[lpg_channel_zero]⟩, ⟨[lpg_channel_zero, lpg_channel_zero]⟩]
        [ dev_call.pattern_set 0 [⟨100, 10⟩, ⟨100, 50⟩, ⟨250, 90⟩] 3 (-1),
          dev_call.pattern_set 1 [⟨100, 10⟩, ⟨100, 50⟩, ⟨250, 90⟩] 3 1,
          dev_call.pattern_clear 0,
          dev_call.pattern_set 0 [⟨100, 10⟩, ⟨100, 50⟩] 2 (-1) ] = some (l1, leds1) ∧
      ∀ i, bitmap_test l1.lut_bitmap i = true ↔
        ∃ (j : Nat) (led : lpg_led) (c : lpg_channel), leds1[j]? = some led ∧
          c ∈ led.channels ∧ c.pattern_lo_idx ≠ c.pattern_hi_idx ∧
          c.pattern_lo_idx ≤ i ∧ i ≤ c.pattern_hi_idx :=
  have hs : (dev_run (lpg_lut_init 0xb000 8)
      [⟨[lpg_channel_zero]⟩, ⟨[lpg_channel_zero, lpg_channel_zero]⟩]
      [ dev_call.pattern_set 0 [⟨100, 10⟩, ⟨100, 50⟩, ⟨250, 90⟩] 3 (-1),
        dev_call.pattern_set 1 [⟨100, 10⟩, ⟨100, 50⟩, ⟨250, 90⟩] 3 1,
        dev_call.pattern_clear 0,
        dev_call.pattern_set 0 [⟨100, 10⟩, ⟨100, 50⟩] 2 (-1) ]).isSome = true := by decide
  (Option.isSome_iff_exists.mp hs).elim fun s h =>
    ⟨s.1, s.2, h, (dev_run_lut_bitmap 8 (lpg_lut_init 0xb000 8)
      [⟨[lpg_channel_zero]⟩, ⟨[lpg_channel_zero, lpg_channel_zero]⟩] _
      s.1 s.2 (by decide) rfl rfl
      (by
        intro led hled
        simp only [List.mem_cons, List.mem_singleton, List.mem_nil_iff, or_false] at hled
        rcases hled with e | e
        · subst e
          refine ⟨by simp, ?_⟩
          intro c hc
          rw [List.mem_singleton] at hc
          subst hc
          rfl
        · subst e
          refine ⟨by simp, ?_⟩
          intro c hc
          simp only [List.mem_cons, List.mem_singleton, List.mem_nil_iff, or_false,
            or_self] at hc
          subst hc
          rfl)
      (by
        intro k p len rep hm
        simp only [List.mem_cons, List.mem_singleton, List.mem_nil_iff, or_false,
          reduceCtorEq, false_or, dev_call.pattern_set.injEq] at hm
        rcases hm with ⟨_, _, hlen, _⟩ | ⟨_, _, hlen, _⟩ | ⟨_, _, hlen, _⟩ <;>
          (subst hlen; decide))
      (by decide)
      h).1⟩

set_option maxRecDepth 100000 in
/-- C21 (counterexample): two successive `lpg_pattern_set` calls on the same
LED, with no `lpg_pattern_clear` between them.  The second call stores its
pattern in the entries 3..5 and overwrites the indices of the channel; the bits
0..2 of the first range stay set, although index 0 lies in the range of no
channel. -/
theorem lpg_pattern_set_twice_leaks :
    (dev_run (lpg_lut_init 0xb000 8) [⟨[lpg_channel_zero]⟩]
      [ dev_call.pattern_set 0 [⟨100, 10⟩, ⟨100, 50⟩, ⟨250, 90⟩] 3 (-1),
        dev_call.pattern_set 0 [⟨100, 10⟩, ⟨100, 50⟩, ⟨250, 90⟩] 3 (-1) ]).map
      (fun s => (s.1.lut_bitmap, s.2.map led_ranges)) =
      some ([true, true, true, true, true, true, false, false], [[(3, 5)]]) ∧
    bitmap_test [true, true, true, true, true, true, false, false] 0 = true ∧
    ¬ (3 ≤ 0 ∧ 0 ≤ 5) := by
  decide

end Lpg
